import Mathlib

/-!
# spidomtr: statistics engine, test executor, scheduler and result joiner

A shallow embedding of the Go packages `spidomtr` (spidomtr.go, stats.go),
`internal/runner` (runner.go, timer.go) and `pkg/testunit`.

Conventions of the embedding.

* Go `int`, `int64` and `time.Duration` are modelled in `Int`; values are taken to
  stay inside the 64 bit range, so sums and products do not wrap.  Go `/` on
  integers truncates toward zero and is `Int.tdiv`.
* `time.Time` is an instant counted in nanoseconds from the zero time, so the zero
  value of `time.Time` is `0` and `IsZero` is equality with `0`.  `t.Sub(u)`
  (`timeSub`) saturates at the ends of the 64 bit range, as in the Go library.
* A Go `map[string]V` is a list of key/value entries without repeated keys; reading
  a missing key gives the zero value and no statement depends on entry order.
* A Go panic is the result `Except.error (Fault.panic msg)`; a loop that can no
  longer change its state is the result `Except.error Fault.diverges`.
* A function supplied by the caller (Prepare, Test, Cleanup) returns, panics with a
  value, or ends its goroutine with nothing for `recover` to return; `Enabled`
  returns.  A function that never ends is left out.
* The goroutines of a run with several users are an explicit `Schedule`: the view
  each pass has of the test units and the clock, and the order in which the passes
  hand in their results.
* Floating point (`Stats.RPS`) and console output are left out.
-/

namespace spidomtr

/-! ## Values shared by the packages -/

/-- Go `time.Duration`, a signed count of nanoseconds. -/
abbrev Duration := Int

/-- Go `time.Time`, as nanoseconds since the zero time. -/
abbrev Time := Int

/-- How a Go call can fail to return a value. -/
inductive Fault where
  | panic (msg : String)
  | diverges
  deriving DecidableEq, Repr

deriving instance DecidableEq for Except

/-- Largest `time.Duration`. -/
def maxDuration : Int := 2 ^ 63 - 1

/-- Smallest `time.Duration`. -/
def minDuration : Int := -(2 ^ 63)

/-- Go `t.Sub(u)`: the difference of two instants, saturated to the range of
`time.Duration`. -/
def timeSub (t u : Time) : Duration :=
  if maxDuration < t - u then maxDuration
  else if t - u < minDuration then minDuration
  else t - u

/-- Go `t.IsZero()`. -/
def timeIsZero (t : Time) : Bool := t == 0

/-- Reading `m[k]` with the comma-ok form on a Go map. -/
def mapGet {β : Type} : List (String × β) → String → Option β
  | [], _ => none
  | (k1, v) :: m, k => if k1 = k then some v else mapGet m k

/-- The assignment `m[k] = v` on a Go map. -/
def mapSet {β : Type} : List (String × β) → String → β → List (String × β)
  | [], k, v => [(k, v)]
  | (k1, v1) :: m, k, v => if k1 = k then (k1, v) :: m else (k1, v1) :: mapSet m k v

/-- Reading `m[k]` on a `map[string]int`: 0 for a missing key. -/
def mapCount (m : List (String × Int)) (k : String) : Int :=
  (mapGet m k).getD 0

/-- The statement `m[k] += v` on a `map[string]int`. -/
def mapAdd (m : List (String × Int)) (k : String) (v : Int) : List (String × Int) :=
  mapSet m k (mapCount m k + v)

/-- The keys of a Go map. -/
def mapKeys {β : Type} (m : List (String × β)) : List String :=
  m.map Prod.fst

/-- The sum of the values of a `map[string]int`. -/
def mapTotal (m : List (String × Int)) : Int :=
  (m.map Prod.snd).sum

/-! ## stats.go -/

/-- Bucket type of stats.go. -/
structure Bucket where
  Count : Int
  Frequency : Int
  Mark : Duration
  deriving DecidableEq, Repr

/-- LatencyDist type of stats.go. -/
structure LatencyDist where
  Percentage : Int
  Latency : Duration
  deriving DecidableEq, Repr

/-- The zero value of `Bucket`, what `make([]Bucket, n)` holds. -/
def Bucket.zero : Bucket := { Count := 0, Frequency := 0, Mark := 0 }

/-- The zero value of `LatencyDist`, what `make([]LatencyDist, n)` holds. -/
def LatencyDist.zero : LatencyDist := { Percentage := 0, Latency := 0 }

/-- Source `avgDuration`: `duration / total`, and 0 when `total == 0`. -/
def avgDuration (duration : Duration) (total : Int) : Duration :=
  if total = 0 then 0 else Int.tdiv duration total

/-- The rank `i * 100 / len(latencies)` that `distributions` gives to sample `i`. -/
def rank (n i : Nat) : Int :=
  Int.tdiv ((i : Int) * 100) (n : Int)

/-- First loop of `distributions`.  The list argument is `latencies[i:]`, `n` is
`len(latencies)`, `i` and `j` are the two loop variables and `data` the slice being
filled.  The loop stops when either list is used up. -/
def distLoop (percentiles : List Int) (n : Nat) :
    List Duration → Nat → Nat → List Duration → List Duration
  | [], _, _, data => data
  | x :: rest, i, j, data =>
    if j < percentiles.length then
      if percentiles.getD j 0 ≤ rank n i then
        distLoop percentiles n rest (i + 1) (j + 1) (data.set j x)
      else
        distLoop percentiles n rest (i + 1) j data
    else data

/-- The slice `data` of `distributions` after its first loop. -/
def distData (percentiles : List Int) (latencies : List Duration) : List Duration :=
  distLoop percentiles latencies.length latencies 0 0 (List.replicate percentiles.length 0)

/-- Source `distributions`. -/
def distributions (percentiles : List Int) (latencies : List Duration) : List LatencyDist :=
  let data := distData percentiles latencies
  (List.range percentiles.length).map fun i =>
    if 0 < data.getD i 0 then
      { Percentage := percentiles.getD i 0, Latency := data.getD i 0 }
    else LatencyDist.zero

/-- The bucket marks of `histogram`: `fastest + bs * i` for `i < bc`, then `slowest`. -/
def histMarks (resolution : Int) (slowest fastest : Duration) : List Duration :=
  let bs := Int.tdiv (slowest - fastest) resolution
  (List.range resolution.toNat).map (fun (i : Nat) => fastest + bs * (i : Int)) ++ [slowest]

/-- Counting loop of `histogram`.  The list argument is `latencies[i:]`, `bi` is the
bucket cursor.  Every turn of the source loop either consumes a latency or advances
the cursor; when it can do neither the state repeats forever, which is
`Fault.diverges`.  The first argument bounds the number of turns and is chosen by
`histogram` so that it is never used up before the loop ends (`histLoop_fuel`).
The variable `max` of the source is written but never read and is left out. -/
def histLoop (buckets : List Duration) :
    Nat → List Duration → Nat → List Int → Except Fault (List Int)
  | _, [], _, counts => .ok counts
  | 0, _ :: _, _, _ => .error .diverges
  | fuel + 1, x :: rest, bi, counts =>
    if x ≤ buckets.getD bi 0 then
      histLoop buckets fuel rest bi (counts.set bi (counts.getD bi 0 + 1))
    else if bi + 1 < buckets.length then
      histLoop buckets fuel (x :: rest) (bi + 1) counts
    else .error .diverges

/-- Source `histogram`.  `make` panics on a negative length, the division panics on
a zero resolution and `buckets[bc]` panics for `bc = -1`. -/
def histogram (resolution : Int) (latencies : List Duration) (slowest fastest : Duration) :
    Except Fault (List Bucket) :=
  if resolution < -1 then .error (.panic "makeslice: len out of range")
  else if resolution = 0 then .error (.panic "integer divide by zero")
  else if resolution = -1 then .error (.panic "index out of range [-1]")
  else
    let buckets := histMarks resolution slowest fastest
    match histLoop buckets (latencies.length + buckets.length) latencies 0
        (List.replicate buckets.length 0) with
    | .error e => .error e
    | .ok counts =>
      let latencyCount : Int := latencies.length
      if 0 < latencyCount then
        .ok (List.zipWith
          (fun m c => { Mark := m, Count := c, Frequency := Int.tdiv c latencyCount })
          buckets counts)
      else .ok (List.replicate buckets.length Bucket.zero)

/-! ## pkg/testunit and the world outside the harness -/

namespace testunit

/-- TestOutcome type of testoutcome.go. -/
inductive TestOutcome where
  | Fail
  | Skip
  | Pass
  deriving DecidableEq, Repr

/-- The values a test unit hands from one phase to the next (`[]interface{}`). -/
abbrev Args := List Nat

/-- What a call of a caller supplied function does: it returns a value and an error
(`none` is the nil error), it panics with a value that `recover` returns (shown as
its text), or it ends the goroutine it runs in while `recover` returns nil
(`runtime.Goexit`, as `t.FailNow` calls it, or `panic(nil)` before Go 1.21).  A call
that never ends is not among them: the caller then waits for ever and returns
nothing. -/
inductive Call (α : Type) where
  | ret (val : α) (err : Option String)
  | panics (msg : String)
  | exits

/-- TestUnit interface of testunit.go.  The natural number given to an operation is
the moment of the call (`World.tick`), so an operation may answer differently from
one call to the next. -/
structure TestUnit where
  ID : String
  Enabled : Nat → Bool × String
  Prepare : Nat → Call Args
  Test : Nat → Args → Call Args
  Cleanup : Nat → Args → Call Unit

end testunit

open testunit

/-- What the harness does to the outside: calls of test unit operations and
notifications of handlers. -/
inductive Event where
  | enabled (id : String)
  | prepare (id : String)
  | test (id : String)
  | cleanup (id : String)
  | runnerStarted (handler id description : String) (testUnits : Int)
  | testDone (handler id : String) (outcome : TestOutcome)
  | runnerDone (handler : String)
  deriving DecidableEq, Repr

/-- The world outside the harness: the clock read by `time.Now()`, the number of
calls made so far and the events so far, oldest first. -/
structure World where
  clock : Nat → Time
  tick : Nat
  trace : List Event

/-- Go `time.Now()`. -/
def World.now (w : World) : Time × World :=
  (w.clock w.tick, { w with tick := w.tick + 1 })

/-- One call to the outside, recorded in the trace. -/
def World.call (w : World) (e : Event) : World :=
  { w with tick := w.tick + 1, trace := w.trace ++ [e] }

/-! ## internal/runner -/

namespace runner

/-- Timer type of timer.go. -/
structure Timer where
  Start : Time
  End : Time
  Duration : Duration
  deriving DecidableEq, Repr

/-- Source `NewTimer`: the zero valued timer. -/
def NewTimer : Timer := { Start := 0, End := 0, Duration := 0 }

/-- Source `Timer.Begin`. -/
def Timer.Begin (timer : Timer) (w : World) : Timer × World :=
  let (t, w1) := w.now
  ({ timer with Start := t }, w1)

/-- Source `Timer.Finish`. -/
def Timer.Finish (timer : Timer) (w : World) : Timer × World :=
  let (t, w1) := w.now
  ({ timer with End := t, Duration := timeSub t timer.Start }, w1)

/-- Source `runTestUnit`.  The goroutine with its deferred `recover` is the case
distinction on the call: a panic in any phase becomes the error `func panic: ...` and
ends the goroutine at once; a phase that ends the goroutine with nothing to recover
leaves `err` and the timer as they are at that moment, and after `wg.Wait()` the
timer is returned with the nil error.  The context and its timeout only reach the
caller supplied functions and are part of their behaviour. -/
def runTestUnit (t : TestUnit) (w : World) : (Timer × Option String) × World :=
  let timer := NewTimer
  -- Run prepare func
  let w1 := w.call (.prepare t.ID)
  match t.Prepare w.tick with
  | .panics r => ((NewTimer, some ("func panic: " ++ r)), w1)
  | .exits => ((timer, none), w1)
  | .ret _ (some e) => ((NewTimer, some e), w1)
  | .ret args none =>
    -- Run main func
    let (timer, w2) := timer.Begin w1
    let w3 := w2.call (.test t.ID)
    match t.Test w2.tick args with
    | .panics r => ((NewTimer, some ("func panic: " ++ r)), w3)
    | .exits => ((timer, none), w3)
    | .ret args err =>
      let (timer, w4) := timer.Finish w3
      match err with
      | some e => ((NewTimer, some e), w4)
      | none =>
        -- Run cleanup func
        let w5 := w4.call (.cleanup t.ID)
        match t.Cleanup w4.tick args with
        | .panics r => ((NewTimer, some ("func panic: " ++ r)), w5)
        | .exits => ((timer, none), w5)
        | .ret _ (some e) => ((NewTimer, some e), w5)
        | .ret _ none => ((timer, none), w5)

/-- The error with which a phase fails, if it does: the error it returns, or its
panic as `recover` converts it.  A phase that ends the goroutine with nothing to
recover sets no error. -/
def callError {α : Type} : Call α → Option String
  | .ret _ err => err
  | .panics r => some ("func panic: " ++ r)
  | .exits => none

/-- TestUnitDone type of runner.go; `σ` is the state the callback closes over. -/
abbrev TestUnitDone (σ : Type) :=
  TestUnit → Timer → Option String → σ → World → σ × World

/-- Runner type of runner.go. -/
structure Runner (σ : Type) where
  Iterations : Int
  TestUnitDone : Option (TestUnitDone σ)
  Timeout : Duration

/-- Source `New`. -/
def New (σ : Type) (timeout : Duration) (iterations : Int) : Runner σ :=
  { Iterations := iterations, TestUnitDone := none, Timeout := timeout }

/-- Inner loop of `Runner.Run`: one iteration over the test units. -/
def runTests {σ : Type} (done : Option (TestUnitDone σ)) :
    List TestUnit → σ → World → σ × World
  | [], s, w => (s, w)
  | t :: ts, s, w =>
    let enabled := (t.Enabled w.tick).1
    let w1 := w.call (.enabled t.ID)
    let ((timer, err), w2) :=
      if enabled then runTestUnit t w1 else ((NewTimer, none), w1)
    let (s1, w3) :=
      match done with
      | some f => f t timer err s w2
      | none => (s, w2)
    runTests done ts s1 w3

/-- Outer loop of `Runner.Run`: `for i := 0; i < runner.Iterations; i++`, with the
number of turns still to make as first argument. -/
def runIterations {σ : Type} (done : Option (TestUnitDone σ)) (tests : List TestUnit) :
    Nat → σ → World → σ × World
  | 0, s, w => (s, w)
  | n + 1, s, w =>
    let (s1, w1) := runTests done tests s w
    runIterations done tests n s1 w1

/-- Source `Runner.Run` of runner.go. -/
def Runner.Run {σ : Type} (r : Runner σ) (tests : List TestUnit) (s : σ) (w : World) :
    (Timer × σ) × World :=
  let (totalTimer, w1) := NewTimer.Begin w
  let (s1, w2) := runIterations r.TestUnitDone tests r.Iterations.toNat s w1
  let (totalTimer, w3) := totalTimer.Finish w2
  ((totalTimer, s1), w3)

end runner

/-! ## spidomtr.go -/

/-- Every operation of the test unit answers every call in the same way. -/
def Steady (t : TestUnit) : Prop :=
  (∀ n, t.Enabled n = t.Enabled 0) ∧ (∀ n, t.Prepare n = t.Prepare 0) ∧
  (∀ n a, t.Test n a = t.Test 0 a) ∧ (∀ n a, t.Cleanup n a = t.Cleanup 0 a)

/-- The error returned by an invocation of a steady test unit (`none`: no error). -/
def invocationError (t : TestUnit) : Option String :=
  (runner.runTestUnit t { clock := fun _ => 0, tick := 0, trace := [] }).1.2

/-- The test units of the list that report disabled. -/
def disabledUnits (tests : List TestUnit) : List TestUnit :=
  tests.filter (fun t => !(t.Enabled 0).1)

/-- The enabled test units of the list whose invocation returns an error. -/
def failingUnits (tests : List TestUnit) : List TestUnit :=
  tests.filter (fun t => (t.Enabled 0).1 && (invocationError t).isSome)

/-- The enabled test units of the list whose invocation returns no error. -/
def passingUnits (tests : List TestUnit) : List TestUnit :=
  tests.filter (fun t => (t.Enabled 0).1 && (invocationError t).isNone)

/-- TestResult type. -/
structure TestResult where
  Comment : String
  Date : Time
  Duration : Duration
  End : Time
  Error : Option String
  ID : String
  Outcome : TestOutcome
  Start : Time
  deriving DecidableEq, Repr

/-- Stats type, without the floating point field RPS. -/
structure Stats where
  Average : Duration
  Count : Int
  Description : String
  Distributions : List LatencyDist
  Duration : spidomtr.Duration
  Durations : List spidomtr.Duration
  End : Time
  Errorm : List (String × Int)
  Errors : Int
  Fastest : spidomtr.Duration
  Histogram : List Bucket
  Passed : Int
  Skips : Int
  Slowest : spidomtr.Duration
  Start : Time
  deriving DecidableEq, Repr

/-- The zero value of `Stats`. -/
def Stats.zero : Stats :=
  { Average := 0, Count := 0, Description := "", Distributions := [], Duration := 0,
    Durations := [], End := 0, Errorm := [], Errors := 0, Fastest := 0, Histogram := [],
    Passed := 0, Skips := 0, Slowest := 0, Start := 0 }

/-- TestStats type. -/
structure TestStats where
  TestResults : List TestResult
  Stats : Stats
  deriving DecidableEq, Repr

/-- Result type. -/
structure Result where
  ChildResults : List Result
  Date : Time
  Stats : Stats
  TestStats : List (String × TestStats)

/-- Config type.  A handler is known by its name. -/
structure Config where
  Description : String
  ID : String
  Iterations : Int
  Handlers : List String
  HistogramBuckets : Int
  Percentiles : List Int
  ShowLogo : Bool
  ShowSummary : Bool
  Timeout : Duration
  Users : Int

/-- Source `DefaultHistogramBuckets`. -/
def DefaultHistogramBuckets : Int := 40

/-- Source `DefaultPercentiles`. -/
def DefaultPercentiles : List Int := [10, 25, 50, 75, 90, 95, 99]

/-- The configuration `NewRunner` starts from. -/
def defaultConfig : Config :=
  { Description := "", ID := "", Iterations := 1, Handlers := [],
    HistogramBuckets := DefaultHistogramBuckets, Percentiles := DefaultPercentiles,
    ShowLogo := true, ShowSummary := true, Timeout := 10 * 1000000000, Users := 1 }

/-- Loop of `hasDuplicateIDs`, with the map `m` of the IDs seen so far. -/
def hasDuplicateIDsLoop : List TestUnit → List (String × Int) → Bool
  | [], _ => false
  | t :: ts, m =>
    match mapGet m t.ID with
    | some _ => true
    | none => hasDuplicateIDsLoop ts (mapAdd m t.ID 1)

/-- Source `hasDuplicateIDs`. -/
def hasDuplicateIDs (tests : List TestUnit) : Bool :=
  hasDuplicateIDsLoop tests []

/-- First element of a sorted slice together with its last one, as in
`fastest = durations[0]; slowest = durations[len(durations)-1]`, both 0 for an
empty slice. -/
def fastestSlowest (durations : List Duration) : Duration × Duration :=
  if 0 < durations.length then
    (durations.getD 0 0, durations.getD (durations.length - 1) 0)
  else (0, 0)

/-- The variables of `calcTestStats` that its loop over the results of one test
updates. -/
structure TestVars where
  durations : List Duration
  accduration : Duration
  starts : List Time
  ends : List Time
  errorm : List (String × Int)
  ok : Int
  skips : Int
  err : Int

/-- Body of the loop of `calcTestStats` over `v.TestResults`. -/
def calcStep (a : TestVars) (r : TestResult) : TestVars :=
  let a := match r.Error with
    | some e => { a with errorm := mapAdd a.errorm e 1 }
    | none => a
  let a := { a with accduration := a.accduration + r.Duration }
  let a := if !timeIsZero r.Start then
      { a with starts := a.starts ++ [r.Start], ends := a.ends ++ [r.End] }
    else a
  match r.Outcome with
  | .Pass => { a with ok := a.ok + 1, durations := a.durations ++ [r.Duration] }
  | .Fail => { a with err := a.err + 1 }
  | .Skip => { a with skips := a.skips + 1 }

/-- Body of the loop of `calcTestStats` over the map: the new value for one key. -/
def calcOne (buckets : Int) (percentiles : List Int) (v : TestStats) :
    Except Fault TestStats :=
  let a := v.TestResults.foldl calcStep
    { durations := [], accduration := 0, starts := [], ends := [], errorm := [],
      ok := 0, skips := 0, err := 0 }
  -- Sort in starts asc
  let starts := a.starts.insertionSort (· ≤ ·)
  -- Sort in ends desc
  let ends := a.ends.insertionSort (· ≥ ·)
  -- Sort in duration asc
  let durations := a.durations.insertionSort (· ≤ ·)
  let start : Time := if 0 < starts.length then starts.getD 0 0 else 0
  let «end» : Time := if 0 < ends.length then ends.getD 0 0 else 0
  let duration := timeSub «end» start
  let (fastest, slowest) := fastestSlowest durations
  match histogram buckets durations slowest fastest with
  | .error e => .error e
  | .ok hist =>
    let dist := distributions percentiles durations
    let c : Int := v.TestResults.length
    .ok { v with Stats := { v.Stats with
      Average := avgDuration a.accduration a.ok
      Count := c
      Distributions := dist
      Duration := duration
      Durations := durations
      Errors := a.err
      Errorm := a.errorm
      Fastest := fastest
      Histogram := hist
      Passed := a.ok
      Skips := a.skips
      Slowest := slowest } }

/-- Source `calcTestStats`: every value of the map is replaced by its recomputed
one. -/
def calcTestStats (buckets : Int) (percentiles : List Int) :
    List (String × TestStats) → Except Fault (List (String × TestStats))
  | [] => .ok []
  | (k, v) :: m =>
    match calcOne buckets percentiles v with
    | .error e => .error e
    | .ok v1 =>
      match calcTestStats buckets percentiles m with
      | .error e => .error e
      | .ok m1 => .ok ((k, v1) :: m1)

/-- The variables of `Runner.run` that the closure `TestUnitDone` updates. -/
structure RunVars where
  durations : List Duration
  skipped : Int
  errored : Int
  errorm : List (String × Int)
  testStats : List (String × TestStats)

/-- The closure `testRunner.TestUnitDone` set by `Runner.run`. -/
def testUnitDone (cfg : Config) : runner.TestUnitDone RunVars :=
  fun t timer err a w =>
    let (enabled, description) := t.Enabled w.tick
    let w1 := w.call (.enabled t.ID)
    -- Set test outcome
    let outcome : TestOutcome :=
      if !enabled then .Skip else if err.isSome then .Fail else .Pass
    -- Set result
    let (date, w2) := w1.now
    let testResult : TestResult :=
      { Comment := "", Date := date, Duration := timer.Duration, End := timer.End,
        Error := err, ID := t.ID, Outcome := outcome, Start := timer.Start }
    -- Handle the test outcome; `err.Error()` is only read when err is not nil
    let msg := err.getD ""
    let (a, testResult) : RunVars × TestResult :=
      match outcome with
      | .Skip => ({ a with skipped := a.skipped + 1 }, { testResult with Comment := description })
      | .Fail => ({ a with errored := a.errored + 1, errorm := mapAdd a.errorm msg 1 },
                  { testResult with Comment := msg })
      | .Pass => ({ a with durations := a.durations ++ [timer.Duration] }, testResult)
    -- Append result to previous results
    let v : TestStats :=
      match mapGet a.testStats t.ID with
      | some v => v
      | none => { TestResults := [], Stats := Stats.zero }
    let v := { v with TestResults := v.TestResults ++ [testResult] }
    let a := { a with testStats := mapSet a.testStats t.ID v }
    -- Report test result to handlers.
    let w3 := cfg.Handlers.foldl (fun w h => w.call (.testDone h testResult.ID outcome)) w2
    (a, w3)

/-- The part of `Runner.run` that drives the tests: the runner of internal/runner is
built with the closure as its callback and run from empty variables.  The result is
the total timer, the variables after the last callback and the world. -/
def passRun (cfg : Config) (tests : List TestUnit) (w : World) :
    (runner.Timer × RunVars) × World :=
  let testRunner : runner.Runner RunVars :=
    { runner.New RunVars cfg.Timeout cfg.Iterations with
      TestUnitDone := some (testUnitDone cfg) }
  testRunner.Run tests
    { durations := [], skipped := 0, errored := 0, errorm := [], testStats := [] } w

/-- Source `Runner.run`, one scheduler pass. -/
def Runner.run (cfg : Config) (tests : List TestUnit) (w : World) :
    Except Fault Result × World :=
  if hasDuplicateIDs tests then (.error (.panic "tests have duplicate ids"), w)
  else
    -- Run the tests
    let ((timer, a), w1) := passRun cfg tests w
    -- Gather stats
    let count : Int := (tests.length : Int) * cfg.Iterations
    let passed := count - a.errored - a.skipped
    let avg := avgDuration timer.Duration passed
    -- Sort durations in ascending order
    let durations := a.durations.insertionSort (· ≤ ·)
    let (fastest, slowest) := fastestSlowest durations
    let dist := distributions cfg.Percentiles durations
    match histogram cfg.HistogramBuckets durations slowest fastest with
    | .error e => (.error e, w1)
    | .ok hist =>
      let stats : Stats :=
        { Average := avg, Count := count, Description := "", Distributions := dist,
          Durations := durations, Duration := timer.Duration, Errorm := a.errorm,
          Errors := a.errored, Fastest := fastest, End := timer.End, Histogram := hist,
          Passed := passed, Skips := a.skipped, Slowest := slowest, Start := timer.Start }
      match calcTestStats cfg.HistogramBuckets cfg.Percentiles a.testStats with
      | .error e => (.error e, w1)
      | .ok testStats =>
        let (date, w2) := w1.now
        (.ok { ChildResults := [], Date := date, Stats := stats, TestStats := testStats }, w2)

/-- The variables of `JoinResults` that its first loop updates. -/
structure JoinVars where
  count : Int
  ok : Int
  skips : Int
  err : Int
  accduration : Duration
  starts : List Time
  ends : List Time
  durations : List Duration
  errorm : List (String × Int)

/-- Body of the first loop of `JoinResults`. -/
def joinStep (a : JoinVars) (r : Result) : JoinVars :=
  let a := { a with
    count := a.count + r.Stats.Count
    accduration := a.accduration + r.Stats.Duration
    err := a.err + r.Stats.Errors
    errorm := r.Stats.Errorm.foldl (fun m (kv : String × Int) => mapAdd m kv.1 kv.2) a.errorm }
  let a := if !timeIsZero r.Stats.Start then
      { a with starts := a.starts ++ [r.Stats.Start], ends := a.ends ++ [r.Stats.End] }
    else a
  { a with
    skips := a.skips + r.Stats.Skips
    ok := a.ok + (r.Stats.Count - r.Stats.Skips - r.Stats.Errors)
    durations := a.durations ++ r.Stats.Durations }

/-- The variables of `JoinResults` after its first loop. -/
def joinVars (results : List Result) : JoinVars :=
  results.foldl joinStep
    { count := 0, ok := 0, skips := 0, err := 0, accduration := 0, starts := [],
      ends := [], durations := [], errorm := [] }

/-- The closure of `JoinResults` that builds the joined `testStats` map. -/
def joinTestStats (results : List Result) : List (String × TestStats) :=
  results.foldl (fun testStats r =>
    r.TestStats.foldl (fun testStats (e : String × TestStats) =>
      match mapGet testStats e.1 with
      | some v => mapSet testStats e.1 { v with TestResults := v.TestResults ++ e.2.TestResults }
      | none => mapSet testStats e.1 e.2) testStats) []

/-- Source `JoinResults`.  `starts[0]` panics when no input has a non-zero start. -/
def JoinResults (histogramBuckets : Int) (percentiles : List Int) (results : List Result)
    (w : World) : Except Fault Result × World :=
  let a := joinVars results
  -- Sort in starts asc
  let starts := a.starts.insertionSort (· ≤ ·)
  -- Sort in ends desc
  let ends := a.ends.insertionSort (· ≥ ·)
  let durations := a.durations.insertionSort (· ≤ ·)
  match starts, ends with
  | [], _ => (.error (.panic "index out of range [0] with length 0"), w)
  | _ :: _, [] => (.error (.panic "index out of range [0] with length 0"), w)
  | start :: _, «end» :: _ =>
    let totalDuration := timeSub «end» start
    let avg := avgDuration a.accduration a.ok
    let dist := distributions percentiles durations
    let (fastest, slowest) := fastestSlowest durations
    match histogram histogramBuckets durations slowest fastest with
    | .error e => (.error e, w)
    | .ok hist =>
      let testStats := joinTestStats results
      -- Collect all test stats
      match calcTestStats histogramBuckets percentiles testStats with
      | .error e => (.error e, w)
      | .ok testStats =>
        let stats : Stats :=
          { Average := avg, Count := a.count, Description := "", Distributions := dist,
            Duration := totalDuration, Durations := durations, End := «end»,
            Errors := a.err, Errorm := a.errorm, Fastest := fastest, Histogram := hist,
            Passed := a.ok, Skips := a.skips, Slowest := slowest, Start := start }
        let (date, w1) := w.now
        (.ok { ChildResults := results, Date := date, Stats := stats,
               TestStats := testStats }, w1)

/-- How the passes of a run with several users are interleaved.  `view i k` is the
moment, on the clock of the whole run, of the `k`-th call that pass `i` makes;
`order` lists the passes in the order in which they append their results. -/
structure Schedule where
  view : Nat → Nat → Nat
  order : List Nat

/-- The schedule lets each of the `users` passes finish exactly once. -/
def Schedule.complete (s : Schedule) (users : Nat) : Prop :=
  s.order.Perm (List.range users)

/-- A test unit as one pass sees it. -/
def passUnit (f : Nat → Nat) (t : TestUnit) : TestUnit :=
  { ID := t.ID
    Enabled := fun k => t.Enabled (f k)
    Prepare := fun k => t.Prepare (f k)
    Test := fun k => t.Test (f k)
    Cleanup := fun k => t.Cleanup (f k) }

/-- The world as one pass sees it, with a trace of its own. -/
def passWorld (f : Nat → Nat) (w : World) : World :=
  { clock := fun k => w.clock (f k), tick := 0, trace := [] }

/-- The goroutine of `Runner.Run` for pass `i`. -/
def runPass (cfg : Config) (tests : List TestUnit) (s : Schedule) (w : World) (i : Nat) :
    Except Fault Result × World :=
  Runner.run cfg (tests.map (passUnit (s.view i))) (passWorld (s.view i) w)

/-- The slice `results` of `Runner.Run` once all passes are done, or the panic of the
first pass that panicked. -/
def collect : List (Except Fault Result × World) → Except Fault (List Result)
  | [] => .ok []
  | (.error e, _) :: _ => .error e
  | (.ok r, _) :: rest =>
    match collect rest with
    | .error e => .error e
    | .ok rs => .ok (r :: rs)

/-- The notification `RunnerDone` of every handler. -/
def notifyDone (cfg : Config) (w : World) : World :=
  cfg.Handlers.foldl (fun w h => w.call (.runnerDone h)) w

/-- Source `Runner.Run` of spidomtr.go.  With one user the pass runs inline.
Otherwise `wg.Add` panics on a negative count, the passes run as goroutines, each
seeing the test units and the clock through its own view, and their results are
joined in the order of the schedule; the trace lists the events pass by pass. -/
def Runner.Run (cfg : Config) (tests : List TestUnit) (s : Schedule) (w : World) :
    Except Fault Result × World :=
  let count : Int := (tests.length : Int) * cfg.Iterations * cfg.Users
  let w0 := cfg.Handlers.foldl
    (fun w h => w.call (.runnerStarted h cfg.ID cfg.Description count)) w
  if cfg.Users = 1 then
    match Runner.run cfg tests w0 with
    | (.error e, w1) => (.error e, w1)
    | (.ok res, w1) => (.ok res, notifyDone cfg w1)
  else if cfg.Users < 0 then
    (.error (.panic "sync: negative WaitGroup counter"), w0)
  else
    let passes := s.order.map (runPass cfg tests s w0)
    let w1 : World :=
      { w0 with
        tick := w0.tick + (passes.map (fun p => p.2.tick)).sum
        trace := w0.trace ++ (passes.map (fun p => p.2.trace)).flatten }
    match collect passes with
    | .error e => (.error e, w1)
    | .ok results =>
      match JoinResults cfg.HistogramBuckets cfg.Percentiles results w1 with
      | (.error e, w2) => (.error e, w2)
      | (.ok sum, w2) => (.ok sum, notifyDone cfg w2)

/-! ## Notions used to state the properties -/

/-- Index of the first bucket whose mark is at least `x`; the number of marks when
there is none. -/
def firstBucket (marks : List Duration) (x : Duration) : Nat :=
  marks.findIdx (fun m => decide (x ≤ m))

/-- The variables of `calcTestStats` after its loop over the results of one test. -/
def testVars (results : List TestResult) : TestVars :=
  results.foldl calcStep
    { durations := [], accduration := 0, starts := [], ends := [], errorm := [],
      ok := 0, skips := 0, err := 0 }

/-- The results with outcome Pass. -/
def passResults (results : List TestResult) : List TestResult :=
  results.filter (fun r => decide (r.Outcome = TestOutcome.Pass))

/-- All invocation records of a per-test map. -/
def allResults (m : List (String × TestStats)) : List TestResult :=
  m.flatMap (fun e => e.2.TestResults)

/-- Two Go maps hold the same keys with the same values. -/
def sameMap {β : Type} (a b : List (String × β)) : Prop :=
  ∀ k, mapGet a k = mapGet b k

/-- Two Stats agree on Count, Passed, Errors, Skips, Errorm (as maps), Durations,
Fastest, Slowest, Start, End, Duration, Histogram and Distributions. -/
def sameButAverage (a b : Stats) : Prop :=
  a.Count = b.Count ∧ a.Passed = b.Passed ∧ a.Errors = b.Errors ∧ a.Skips = b.Skips ∧
  sameMap a.Errorm b.Errorm ∧ a.Durations = b.Durations ∧ a.Fastest = b.Fastest ∧
  a.Slowest = b.Slowest ∧ a.Start = b.Start ∧ a.End = b.End ∧ a.Duration = b.Duration ∧
  a.Histogram = b.Histogram ∧ a.Distributions = b.Distributions

/-- Two Stats agree on all the fields of `sameButAverage` and on Average. -/
def sameStats (a b : Stats) : Prop :=
  sameButAverage a b ∧ a.Average = b.Average

/-- Two per-test maps hold the same test IDs with the same Stats. -/
def samePerTest (a b : List (String × TestStats)) : Prop :=
  ∀ id,
    match mapGet a id, mapGet b id with
    | some x, some y => sameStats x.Stats y.Stats
    | none, none => True
    | _, _ => False

/-- What `JoinResults` relies on in a Result that a run produced: a non-zero start,
maps without repeated keys, and per-test Stats whose Start and End were never set. -/
def FromRun (r : Result) : Prop :=
  r.Stats.Start ≠ 0 ∧ (mapKeys r.Stats.Errorm).Nodup ∧ (mapKeys r.TestStats).Nodup ∧
  ∀ e ∈ r.TestStats, e.2.Stats.Start = 0 ∧ e.2.Stats.End = 0

/-- The invocation records of test `id` in a list of Results, in the order of the list. -/
def testResultsOf (rs : List Result) (id : String) : List TestResult :=
  rs.flatMap (fun r =>
    match mapGet r.TestStats id with
    | some s => s.TestResults
    | none => [])

open runner

/-! ## The histogram -/

theorem sum_set_incr (l : List Int) (n : Nat) (h : n < l.length) :
    (l.set n (l.getD n 0 + 1)).sum = l.sum + 1 := by
  induction l generalizing n with
  | nil => simp at h
  | cons a l ih =>
    cases n with
    | zero => simp; ring
    | succ n =>
      have h1 : n < l.length := by simpa using h
      simp only [List.set_cons_succ, List.sum_cons, List.getD_cons_succ]
      rw [ih n h1]; ring

theorem histMarks_length (resolution : Int) (slowest fastest : Duration) :
    (histMarks resolution slowest fastest).length = resolution.toNat + 1 := by
  simp [histMarks]

theorem histMarks_getD_last (resolution : Int) (slowest fastest : Duration) :
    (histMarks resolution slowest fastest).getD resolution.toNat 0 = slowest := by
  simp [histMarks, List.getD_eq_getElem?_getD, List.getElem?_append_right]

theorem histLoop_ok (buckets : List Duration) (slowest : Duration)
    (hlast : buckets.getD (buckets.length - 1) 0 = slowest) :
    ∀ (fuel : Nat) (lat : List Duration) (bi : Nat) (counts : List Int),
      (∀ x ∈ lat, x ≤ slowest) → bi < buckets.length → counts.length = buckets.length →
      lat.length + (buckets.length - bi) ≤ fuel →
      ∃ c, histLoop buckets fuel lat bi counts = .ok c ∧ c.length = buckets.length ∧
        c.sum = counts.sum + lat.length := by
  intro fuel
  induction fuel with
  | zero =>
    intro lat bi counts _ hbi hc hf
    have : lat = [] := by
      cases lat with
      | nil => rfl
      | cons x r => simp at hf
    subst this
    exact ⟨counts, by simp [histLoop], hc, by simp⟩
  | succ fuel ih =>
    intro lat bi counts hle hbi hc hf
    cases lat with
    | nil => exact ⟨counts, by simp [histLoop], hc, by simp⟩
    | cons x rest =>
      by_cases hx : x ≤ buckets.getD bi 0
      · obtain ⟨c, h1, h2, h3⟩ := ih rest bi (counts.set bi (counts.getD bi 0 + 1))
          (fun y hy => hle y (List.mem_cons_of_mem _ hy)) hbi (by simpa using hc)
          (by simp at hf; omega)
        refine ⟨c, by simp only [histLoop, if_pos hx, h1], h2, ?_⟩
        rw [h3, sum_set_incr counts bi (by omega)]
        simp; ring
      · by_cases hb : bi + 1 < buckets.length
        · obtain ⟨c, h1, h2, h3⟩ := ih (x :: rest) (bi + 1) counts hle hb hc
            (by simp at hf ⊢; omega)
          exact ⟨c, by simp only [histLoop, if_neg hx, if_pos hb, h1], h2, h3⟩
        · exfalso
          have hbi2 : bi = buckets.length - 1 := by omega
          apply hx
          rw [hbi2, hlast]
          exact hle x (List.mem_cons_self _ _)


/-- The turn bound of `histLoop` is never the reason for `Fault.diverges`: from the
bound that `histogram` passes on, more turns give the same result. -/
theorem histLoop_fuel (buckets : List Duration) :
    ∀ (fuel1 fuel2 : Nat) (lat : List Duration) (bi : Nat) (counts : List Int),
      lat.length + (buckets.length - bi) ≤ fuel1 → lat.length + (buckets.length - bi) ≤ fuel2 →
      histLoop buckets fuel1 lat bi counts = histLoop buckets fuel2 lat bi counts := by
  intro fuel1
  induction fuel1 with
  | zero =>
    intro fuel2 lat bi counts h1 _
    cases lat with
    | nil => cases fuel2 <;> simp [histLoop]
    | cons x r => simp at h1
  | succ fuel1 ih =>
    intro fuel2 lat bi counts h1 h2
    cases lat with
    | nil => cases fuel2 <;> simp [histLoop]
    | cons x rest =>
      cases fuel2 with
      | zero => simp at h2
      | succ fuel2 =>
        simp only [histLoop]
        by_cases hx : x ≤ buckets.getD bi 0
        · rw [if_pos hx, if_pos hx]
          exact ih fuel2 rest bi _ (by simp at h1; omega) (by simp at h2; omega)
        · rw [if_neg hx, if_neg hx]
          by_cases hb : bi + 1 < buckets.length
          · rw [if_pos hb, if_pos hb]
            exact ih fuel2 (x :: rest) (bi + 1) counts (by simp at h1 ⊢; omega)
              (by simp at h2 ⊢; omega)
          · rw [if_neg hb, if_neg hb]

/-- What `histogram` returns when the resolution is positive and no latency exceeds
`slowest`: the loop ends with one count per mark, and the counts add up to the number
of latencies. -/
theorem histogram_spec (resolution : Int) (latencies : List Duration)
    (slowest fastest : Duration) (hR : 1 ≤ resolution)
    (hle : ∀ x ∈ latencies, x ≤ slowest) :
    ∃ counts : List Int, counts.length = resolution.toNat + 1 ∧
      counts.sum = latencies.length ∧
      histogram resolution latencies slowest fastest =
        .ok (if 0 < (latencies.length : Int) then
          List.zipWith (fun m c =>
              { Mark := m, Count := c, Frequency := Int.tdiv c (latencies.length : Int) })
            (histMarks resolution slowest fastest) counts
          else List.replicate (resolution.toNat + 1) Bucket.zero) := by
  have hlen := histMarks_length resolution slowest fastest
  obtain ⟨c, h1, h2, h3⟩ := histLoop_ok (histMarks resolution slowest fastest) slowest
    (by rw [hlen]; simpa using histMarks_getD_last resolution slowest fastest)
    (latencies.length + (histMarks resolution slowest fastest).length) latencies 0
    (List.replicate (histMarks resolution slowest fastest).length 0) hle
    (by rw [hlen]; omega) (by simp) (by omega)
  refine ⟨c, by rw [h2, hlen], by simpa using h3, ?_⟩
  have e1 : ¬ resolution < -1 := by omega
  have e2 : ¬ resolution = 0 := by omega
  have e3 : ¬ resolution = -1 := by omega
  simp only [histogram, if_neg e1, if_neg e2, if_neg e3, h1]
  rw [hlen]
  split_ifs <;> rfl

theorem map_Count_zipWith (n : Int) :
    ∀ (ms : List Duration) (cs : List Int), ms.length = cs.length →
      (List.zipWith (fun m c => ({ Mark := m, Count := c, Frequency := Int.tdiv c n } : Bucket))
        ms cs).map Bucket.Count = cs := by
  intro ms
  induction ms with
  | nil => intro cs h; cases cs <;> simp_all
  | cons m ms ih =>
    intro cs h
    cases cs with
    | nil => simp at h
    | cons c cs => simp [ih cs (by simpa using h)]

theorem map_Mark_zipWith (n : Int) :
    ∀ (ms : List Duration) (cs : List Int), ms.length = cs.length →
      (List.zipWith (fun m c => ({ Mark := m, Count := c, Frequency := Int.tdiv c n } : Bucket))
        ms cs).map Bucket.Mark = ms := by
  intro ms
  induction ms with
  | nil => intro cs h; cases cs <;> simp_all
  | cons m ms ih =>
    intro cs h
    cases cs with
    | nil => simp at h
    | cons c cs => simp [ih cs (by simpa using h)]

theorem sorted_le_getLast (l : List Int) (hs : l.Sorted (· ≤ ·)) (h : l ≠ []) :
    ∀ x ∈ l, x ≤ l.getLast h := by
  intro x hx
  have hl := List.dropLast_append_getLast h
  rw [← hl] at hx hs
  rcases List.mem_append.1 hx with h1 | h1
  · exact (List.pairwise_append.1 hs).2.2 x h1 _ (List.mem_singleton_self _)
  · simp at h1; omega


/-- C6.  For a resolution of at least 1 and an ascending latency list, with `fastest`
its first and `slowest` its last element, `histogram` ends and returns buckets whose
counts add up to the number of latencies. -/
theorem histogram_count_sum (resolution : Int) (latencies : List Duration)
    (slowest fastest : Duration) (hR : 1 ≤ resolution)
    (hs : latencies.Sorted (· ≤ ·))
    (hf : latencies ≠ [] →
      latencies.head? = some fastest ∧ latencies.getLast? = some slowest) :
    ∃ buckets, histogram resolution latencies slowest fastest = .ok buckets ∧
      (buckets.map Bucket.Count).sum = latencies.length := by
  have hle : ∀ x ∈ latencies, x ≤ slowest := by
    intro x hx
    have hne : latencies ≠ [] := List.ne_nil_of_mem hx
    have h2 : latencies.getLast hne = slowest := by
      simpa [List.getLast?_eq_getLast _ hne] using (hf hne).2
    rw [← h2]
    exact sorted_le_getLast latencies hs hne x hx
  obtain ⟨counts, h1, h2, h3⟩ := histogram_spec resolution latencies slowest fastest hR hle
  refine ⟨_, h3, ?_⟩
  split_ifs with h
  · rw [map_Count_zipWith _ _ _ (by rw [histMarks_length, h1]), h2]
  · have : latencies.length = 0 := by omega
    simp [this, Bucket.zero]

theorem histogram_count_sum_witness :
    (1 : Int) ≤ 2 ∧ List.Sorted (· ≤ ·) ([1, 2, 3, 10] : List Duration) ∧
    ∃ buckets, histogram 2 [1, 2, 3, 10] 10 1 = .ok buckets ∧
      (buckets.map Bucket.Count).sum = (([1, 2, 3, 10] : List Duration).length : Int) :=
  ⟨by decide, by decide,
    histogram_count_sum 2 [1, 2, 3, 10] 10 1 (by decide) (by decide) (by decide)⟩

/-- C7.  For a resolution of at least 1 and a latency list whose slowest latency is
at most `slowest` (every caller passes the last element of the sorted list, and 0
for the empty list), `histogram` returns exactly `resolution + 1` buckets; for the
empty list every bucket is the zero bucket, and for a non-empty list the mark of the
last bucket is `slowest`. -/
theorem histogram_buckets (resolution : Int) (latencies : List Duration)
    (slowest fastest : Duration) (hR : 1 ≤ resolution)
    (hle : ∀ x ∈ latencies, x ≤ slowest) :
    ∃ buckets, histogram resolution latencies slowest fastest = .ok buckets ∧
      (buckets.length : Int) = resolution + 1 ∧
      (latencies = [] → ∀ b ∈ buckets, b = Bucket.zero) ∧
      (latencies ≠ [] → buckets.getLast?.map Bucket.Mark = some slowest) := by
  obtain ⟨counts, h1, h2, h3⟩ := histogram_spec resolution latencies slowest fastest hR hle
  have hl := histMarks_length resolution slowest fastest
  refine ⟨_, h3, ?_, ?_, ?_⟩
  · split_ifs
    · simp only [List.length_zipWith, hl, h1, min_self]
      push_cast
      rw [Int.toNat_of_nonneg (by omega)]
    · simp only [List.length_replicate]
      push_cast
      rw [Int.toNat_of_nonneg (by omega)]
  · intro he b hb
    subst he
    simp at hb
    exact hb
  · intro hne
    have hpos : 0 < (latencies.length : Int) := by
      have := List.length_pos.2 hne
      omega
    rw [if_pos hpos, ← List.getLast?_map, map_Mark_zipWith _ _ _ (by rw [hl, h1])]
    simp [histMarks]

theorem histogram_buckets_witness :
    (1 : Int) ≤ 2 ∧ (∀ x ∈ ([3, 1, 10] : List Duration), x ≤ 10) ∧
    ∃ buckets, histogram 2 [3, 1, 10] 10 1 = .ok buckets ∧
      (buckets.length : Int) = 2 + 1 ∧
      (([3, 1, 10] : List Duration) = [] → ∀ b ∈ buckets, b = Bucket.zero) ∧
      (([3, 1, 10] : List Duration) ≠ [] → buckets.getLast?.map Bucket.Mark = some 10) :=
  ⟨by decide, by decide, histogram_buckets 2 [3, 1, 10] 10 1 (by decide) (by decide)⟩

/-! ## The percentile distribution -/

theorem distLoop_length (ps : List Int) (n : Nat) :
    ∀ (rest : List Duration) (i j : Nat) (data : List Duration),
      (distLoop ps n rest i j data).length = data.length := by
  intro rest
  induction rest with
  | nil => intro i j data; simp [distLoop]
  | cons x rest ih =>
    intro i j data
    simp only [distLoop]
    split_ifs
    · rw [ih]; simp
    · rw [ih]
    · rfl

theorem distLoop_below (ps : List Int) (n : Nat) :
    ∀ (rest : List Duration) (i j : Nat) (data : List Duration) (k : Nat), k < j →
      (distLoop ps n rest i j data).getD k 0 = data.getD k 0 := by
  intro rest
  induction rest with
  | nil => intro i j data k _; simp [distLoop]
  | cons x rest ih =>
    intro i j data k hk
    simp only [distLoop]
    split_ifs
    · rw [ih _ _ _ k (by omega)]
      simp only [List.getD_eq_getElem?_getD]
      rw [List.getElem?_set_ne (by omega)]
    · rw [ih _ _ _ k hk]
    · rfl

theorem distData_length (ps : List Int) (lat : List Duration) :
    (distData ps lat).length = ps.length := by
  simp [distData, distLoop_length]

theorem distributions_length (ps : List Int) (lat : List Duration) :
    (distributions ps lat).length = ps.length := by
  simp [distributions]

theorem distributions_getElem? (ps : List Int) (lat : List Duration) (j : Nat)
    (hj : j < ps.length) :
    (distributions ps lat)[j]? = some
      (if 0 < (distData ps lat).getD j 0 then
        { Percentage := ps.getD j 0, Latency := (distData ps lat).getD j 0 }
      else LatencyDist.zero) := by
  simp [distributions, List.getElem?_map, List.getElem?_range hj]

/-- Invariant of the first loop of `distributions`.  `cur k` is the sample at which
the search for percentile `k` starts: percentile `k` takes the first sample from
`cur k` on whose rank reaches it, and the search for the next percentile starts one
sample later. -/
theorem distLoop_spec (ps : List Int) (lat : List Duration) :
    ∀ (rest pre : List Duration) (j : Nat) (data : List Duration),
      lat = pre ++ rest → data.length = ps.length → (∀ k, j ≤ k → data.getD k 0 = 0) →
      ∃ cur : Nat → Nat, cur j = pre.length ∧
        ∀ k, j ≤ k → k < ps.length →
          (∃ s, cur k ≤ s ∧ s < lat.length ∧ ps.getD k 0 ≤ rank lat.length s ∧
              (∀ s', cur k ≤ s' → s' < s → rank lat.length s' < ps.getD k 0) ∧
              (distLoop ps lat.length rest pre.length j data).getD k 0 = lat.getD s 0 ∧
              cur (k + 1) = s + 1)
          ∨ ((∀ s', cur k ≤ s' → s' < lat.length → rank lat.length s' < ps.getD k 0) ∧
              (distLoop ps lat.length rest pre.length j data).getD k 0 = 0 ∧
              cur (k + 1) = lat.length) := by
  intro rest
  induction rest with
  | nil =>
    intro pre j data hl _ hz
    have hlen : lat.length = pre.length := by rw [hl]; simp
    refine ⟨fun _ => pre.length, rfl, ?_⟩
    intro k hk _
    right
    refine ⟨fun s' h1 h2 => by dsimp only at h1; omega, ?_, hlen.symm⟩
    simp only [distLoop]
    exact hz k hk
  | cons x rest ih =>
    intro pre j data hl hd hz
    have hlen : lat.length = pre.length + (rest.length + 1) := by rw [hl]; simp
    have hx : lat.getD pre.length 0 = x := by
      rw [hl, List.getD_eq_getElem?_getD, List.getElem?_append_right (le_refl _)]
      simp
    have hl2 : lat = (pre ++ [x]) ++ rest := by rw [hl]; simp
    by_cases hj : j < ps.length
    · by_cases hr : ps.getD j 0 ≤ rank lat.length pre.length
      · -- sample taken for percentile j
        obtain ⟨cur, hc0, hc⟩ := ih (pre ++ [x]) (j + 1) (data.set j x) hl2
          (by simpa using hd)
          (fun k hk => by
            simp only [List.getD_eq_getElem?_getD]
            rw [List.getElem?_set_ne (by omega)]
            simpa [List.getD_eq_getElem?_getD] using hz k (by omega))
        have hstep : distLoop ps lat.length (x :: rest) pre.length j data =
            distLoop ps lat.length rest (pre ++ [x]).length (j + 1) (data.set j x) := by
          simp only [distLoop, if_pos hj, if_pos hr, List.length_append, List.length_singleton]
        refine ⟨Function.update cur j pre.length, by simp, ?_⟩
        intro k hk hkl
        rcases Nat.eq_or_lt_of_le hk with hkj | hkj
        · subst hkj
          left
          refine ⟨pre.length, by simp, by omega, hr, fun s' h1 h2 => ?_, ?_, ?_⟩
          · simp at h1; omega
          · rw [hstep, distLoop_below _ _ _ _ _ _ j (by omega)]
            simp only [List.getD_eq_getElem?_getD]
            rw [List.getElem?_set_self (by omega)]
            simpa [List.getD_eq_getElem?_getD] using hx.symm
          · rw [Function.update_noteq (by omega), hc0]; simp
        · have hk1 := hc k (by omega) hkl
          rw [hstep, Function.update_noteq (by omega), Function.update_noteq (by omega)]
          exact hk1
      · -- sample passed over
        obtain ⟨cur, hc0, hc⟩ := ih (pre ++ [x]) j data hl2 hd hz
        have hstep : distLoop ps lat.length (x :: rest) pre.length j data =
            distLoop ps lat.length rest (pre ++ [x]).length j data := by
          simp only [distLoop, if_pos hj, if_neg hr, List.length_append, List.length_singleton]
        have hc0' : cur j = pre.length + 1 := by simpa using hc0
        refine ⟨Function.update cur j pre.length, by simp, ?_⟩
        intro k hk hkl
        rcases Nat.eq_or_lt_of_le hk with hkj | hkj
        · subst hkj
          rw [hstep, Function.update_same, Function.update_noteq (by omega)]
          rcases hc j (le_refl _) hkl with ⟨s, h1, h2, h3, h4, h5, h6⟩ | ⟨h1, h2, h3⟩
          · left
            refine ⟨s, by omega, h2, h3, fun s' g1 g2 => ?_, h5, h6⟩
            rcases Nat.eq_or_lt_of_le g1 with e | e
            · rw [← e]; omega
            · exact h4 s' (by omega) g2
          · right
            refine ⟨fun s' g1 g2 => ?_, h2, h3⟩
            rcases Nat.eq_or_lt_of_le g1 with e | e
            · rw [← e]; omega
            · exact h1 s' (by omega) g2
        · have hk1 := hc k (by omega) hkl
          rw [hstep, Function.update_noteq (by omega), Function.update_noteq (by omega)]
          exact hk1
    · refine ⟨fun _ => pre.length, rfl, ?_⟩
      intro k hk hkl
      omega


/-- C8.  `distributions` returns exactly one entry per requested percentile, and the
entry at index `j` either carries `percentiles[j]` as its percentage or is the zero
valued placeholder. -/
theorem distributions_aligned (percentiles : List Int) (latencies : List Duration)
    (j : Nat) (hj : j < percentiles.length) :
    (distributions percentiles latencies).length = percentiles.length ∧
    ∃ e, (distributions percentiles latencies)[j]? = some e ∧
      (e.Percentage = percentiles.getD j 0 ∨ e = LatencyDist.zero) := by
  refine ⟨distributions_length _ _, _, distributions_getElem? _ _ j hj, ?_⟩
  split_ifs
  · left; rfl
  · right; rfl

theorem distributions_aligned_witness :
    1 < ([10, 25] : List Int).length ∧
    (distributions [10, 25] [1, 2]).length = ([10, 25] : List Int).length ∧
    ∃ e, (distributions [10, 25] [1, 2])[1]? = some e ∧
      (e.Percentage = ([10, 25] : List Int).getD 1 0 ∨ e = LatencyDist.zero) :=
  ⟨by decide, distributions_aligned [10, 25] [1, 2] 1 (by decide)⟩

/-- C9, as the code has it.  Every sample serves at most one percentile.  With
`cur 0 = 0` and `cur (j + 1)` one past the sample taken for percentile `j` (the number
of samples when none was taken), the entry at index `j` is decided by the samples
from `cur j` on: if one of them has a rank that reaches `percentiles[j]`, the entry
carries `percentiles[j]` and the (positive) latency of the first such sample;
otherwise it is the zero placeholder. -/
theorem distributions_first_after (percentiles : List Int) (latencies : List Duration)
    (hpos : ∀ x ∈ latencies, 0 < x) :
    ∃ cur : Nat → Nat, cur 0 = 0 ∧
      ∀ j, j < percentiles.length →
        (∃ s, cur j ≤ s ∧ s < latencies.length ∧
            percentiles.getD j 0 ≤ rank latencies.length s ∧
            (∀ s', cur j ≤ s' → s' < s → rank latencies.length s' < percentiles.getD j 0) ∧
            0 < latencies.getD s 0 ∧
            (distributions percentiles latencies)[j]? =
              some { Percentage := percentiles.getD j 0, Latency := latencies.getD s 0 } ∧
            cur (j + 1) = s + 1)
        ∨ ((∀ s', cur j ≤ s' → s' < latencies.length →
              rank latencies.length s' < percentiles.getD j 0) ∧
            (distributions percentiles latencies)[j]? = some LatencyDist.zero ∧
            cur (j + 1) = latencies.length) := by
  obtain ⟨cur, h0, hc⟩ := distLoop_spec percentiles latencies latencies [] 0
    (List.replicate percentiles.length 0) (by simp) (by simp)
    (fun k _ => by simp [List.getD_eq_getElem?_getD, List.getElem?_replicate]; split <;> rfl)
  refine ⟨cur, by simpa using h0, ?_⟩
  intro j hj
  have hd : distLoop percentiles latencies.length latencies ([] : List Duration).length 0
      (List.replicate percentiles.length 0) = distData percentiles latencies := rfl
  rw [hd] at hc
  rcases hc j (Nat.zero_le _) hj with ⟨s, h1, h2, h3, h4, h5, h6⟩ | ⟨h1, h2, h3⟩
  · left
    have hp : 0 < latencies.getD s 0 := by
      apply hpos
      rw [List.getD_eq_getElem?_getD, List.getElem?_eq_getElem h2]
      simp
    refine ⟨s, h1, h2, h3, h4, hp, ?_, h6⟩
    rw [distributions_getElem? _ _ j hj, h5, if_pos hp]
  · right
    refine ⟨h1, ?_, h3⟩
    rw [distributions_getElem? _ _ j hj, h2]
    simp

theorem distributions_first_after_witness :
    (∀ x ∈ ([1, 2] : List Duration), 0 < x) ∧
    ∃ cur : Nat → Nat, cur 0 = 0 ∧
      ∀ j, j < ([10, 25] : List Int).length →
        (∃ s, cur j ≤ s ∧ s < ([1, 2] : List Duration).length ∧
            ([10, 25] : List Int).getD j 0 ≤ rank ([1, 2] : List Duration).length s ∧
            (∀ s', cur j ≤ s' → s' < s →
              rank ([1, 2] : List Duration).length s' < ([10, 25] : List Int).getD j 0) ∧
            0 < ([1, 2] : List Duration).getD s 0 ∧
            (distributions [10, 25] [1, 2])[j]? =
              some { Percentage := ([10, 25] : List Int).getD j 0,
                     Latency := ([1, 2] : List Duration).getD s 0 } ∧
            cur (j + 1) = s + 1)
        ∨ ((∀ s', cur j ≤ s' → s' < ([1, 2] : List Duration).length →
              rank ([1, 2] : List Duration).length s' < ([10, 25] : List Int).getD j 0) ∧
            (distributions [10, 25] [1, 2])[j]? = some LatencyDist.zero ∧
            cur (j + 1) = ([1, 2] : List Duration).length) :=
  ⟨by decide, distributions_first_after [10, 25] [1, 2] (by decide)⟩

/-- C9 as stated fails: for the ascending percentiles 10, 25 and the ascending
latencies 1, 2 the second sample has rank 50, which reaches 25, yet the entry at
index 1 is the zero placeholder, because that sample was already taken for
percentile 10. -/
theorem distributions_placeholder_despite_rank :
    distributions [10, 25] [1, 2] = [⟨10, 2⟩, ⟨0, 0⟩] ∧
    ¬ ((distributions [10, 25] [1, 2])[1]? = some LatencyDist.zero ↔
        ¬ ∃ i, i < ([1, 2] : List Duration).length ∧
          ([10, 25] : List Int).getD 1 0 ≤ rank ([1, 2] : List Duration).length i) := by
  refine ⟨by decide, ?_⟩
  intro h
  exact h.1 (by decide) ⟨1, by decide, by decide⟩


/-! ## The test executor -/

/-- C5, as the code has it.  `runTestUnit` calls Prepare first.  If Prepare does not
succeed, nothing else is called; otherwise Test is called and, if it does not succeed,
Cleanup is not called; otherwise Cleanup is called.  The returned error is the error
of the first phase that failed, by returning an error or by a panic that `recover`
sees.  It is nil exactly when all three phases succeeded or when a phase ended its
goroutine with nothing to recover; in the latter case the timer is returned as it
was at that moment.  With a non-nil error the returned timer is the zero valued
one. -/
theorem runTestUnit_phases (t : TestUnit) (w : World) :
    ((∀ args, t.Prepare w.tick ≠ .ret args none) →
      (runTestUnit t w).2.trace = w.trace ++ [.prepare t.ID] ∧
      (runTestUnit t w).1.2 = callError (t.Prepare w.tick)) ∧
    (∀ args, t.Prepare w.tick = .ret args none →
      ((∀ args2, t.Test (w.tick + 2) args ≠ .ret args2 none) →
        (runTestUnit t w).2.trace = w.trace ++ [.prepare t.ID, .test t.ID] ∧
        (runTestUnit t w).1.2 = callError (t.Test (w.tick + 2) args)) ∧
      (∀ args2, t.Test (w.tick + 2) args = .ret args2 none →
        (runTestUnit t w).2.trace = w.trace ++ [.prepare t.ID, .test t.ID, .cleanup t.ID] ∧
        (runTestUnit t w).1.2 = callError (t.Cleanup (w.tick + 4) args2))) ∧
    ((runTestUnit t w).1.2 = none ↔
      (∃ args args2 u, t.Prepare w.tick = .ret args none ∧
        t.Test (w.tick + 2) args = .ret args2 none ∧
        t.Cleanup (w.tick + 4) args2 = .ret u none) ∨
      t.Prepare w.tick = .exits ∨
      (∃ args, t.Prepare w.tick = .ret args none ∧ t.Test (w.tick + 2) args = .exits) ∨
      (∃ args args2, t.Prepare w.tick = .ret args none ∧
        t.Test (w.tick + 2) args = .ret args2 none ∧
        t.Cleanup (w.tick + 4) args2 = .exits)) ∧
    (t.Prepare w.tick = .exits → (runTestUnit t w).1.1 = NewTimer) ∧
    (∀ args, t.Prepare w.tick = .ret args none → t.Test (w.tick + 2) args = .exits →
      (runTestUnit t w).1.1 = { Start := w.clock (w.tick + 1), End := 0, Duration := 0 }) ∧
    ((runTestUnit t w).1.2 ≠ none →
      (runTestUnit t w).1.1 = NewTimer ∧
      (runTestUnit t w).1.1.Start = 0 ∧ (runTestUnit t w).1.1.End = 0 ∧
      (runTestUnit t w).1.1.Duration = 0) := by
  unfold runTestUnit
  rcases hp : t.Prepare w.tick with ⟨args, _ | e⟩ | r | _
  · -- Prepare succeeded
    have htick : (Timer.Begin NewTimer (w.call (.prepare t.ID))).2.tick = w.tick + 2 := rfl
    simp only [htick]
    rcases ht : t.Test (w.tick + 2) args with ⟨args2, _ | e⟩ | r | _
    · have htick2 : (Timer.Finish (Timer.Begin NewTimer (w.call (.prepare t.ID))).1
          ((Timer.Begin NewTimer (w.call (.prepare t.ID))).2.call (.test t.ID))).2.tick
          = w.tick + 4 := rfl
      simp only [htick2]
      rcases hc : t.Cleanup (w.tick + 4) args2 with ⟨u, _ | e⟩ | r | _ <;>
        simp [callError, World.call, Timer.Begin, Timer.Finish, World.now, NewTimer, ht, hc]
    · simp [callError, World.call, Timer.Begin, Timer.Finish, World.now, NewTimer, ht]
    · simp [callError, World.call, Timer.Begin, Timer.Finish, World.now, NewTimer, ht]
    · simp [callError, World.call, Timer.Begin, Timer.Finish, World.now, NewTimer, ht]
  · simp [callError, World.call, NewTimer]
  · simp [callError, World.call, NewTimer]
  · simp [callError, World.call, NewTimer]

theorem runTestUnit_phases_witness :
    (runTestUnit ⟨"a", fun _ => (true, ""), fun _ => .exits, fun _ a => .ret a none,
        fun _ _ => .ret () none⟩ ⟨fun n => 1000 + n, 0, []⟩).1.2 = none ∧
    (runTestUnit ⟨"a", fun _ => (true, ""), fun _ => .exits, fun _ a => .ret a none,
        fun _ _ => .ret () none⟩ ⟨fun n => 1000 + n, 0, []⟩).1.1 = NewTimer ∧
    (runTestUnit ⟨"b", fun _ => (true, ""), fun _ => .ret [] none, fun _ _ => .panics "boom",
        fun _ _ => .ret () none⟩ ⟨fun n => 1000 + n, 0, []⟩).1.2
      = some "func panic: boom" ∧
    (runTestUnit ⟨"b", fun _ => (true, ""), fun _ => .ret [] none, fun _ _ => .panics "boom",
        fun _ _ => .ret () none⟩ ⟨fun n => 1000 + n, 0, []⟩).2.trace
      = [.prepare "b", .test "b"] :=
  ⟨(runTestUnit_phases _ _).2.2.1.2 (Or.inr (Or.inl rfl)),
    (runTestUnit_phases _ _).2.2.2.1 rfl,
    (((runTestUnit_phases ⟨"b", fun _ => (true, ""), fun _ => .ret [] none,
        fun _ _ => .panics "boom", fun _ _ => .ret () none⟩
        ⟨fun n => 1000 + n, 0, []⟩).2.1 [] rfl).1
      (by intro args2 h; cases h)).2,
    (((runTestUnit_phases ⟨"b", fun _ => (true, ""), fun _ => .ret [] none,
        fun _ _ => .panics "boom", fun _ _ => .ret () none⟩
        ⟨fun n => 1000 + n, 0, []⟩).2.1 [] rfl).1
      (by intro args2 h; cases h)).1⟩

/-- C5 as stated fails: a test unit whose Test ends its goroutine with nothing to
recover (as `runtime.Goexit` does) makes `runTestUnit` return the nil error, although
Test did not succeed and Cleanup was never called; the timer has its Start only. -/
theorem runTestUnit_nil_after_exit :
    (runTestUnit ⟨"a", fun _ => (true, ""), fun _ => .ret [] none, fun _ _ => .exits,
        fun _ _ => .ret () none⟩ ⟨fun n => 1000 + n, 0, []⟩).1.2 = none ∧
    (runTestUnit ⟨"a", fun _ => (true, ""), fun _ => .ret [] none, fun _ _ => .exits,
        fun _ _ => .ret () none⟩ ⟨fun n => 1000 + n, 0, []⟩).2.trace
      = [.prepare "a", .test "a"] ∧
    (runTestUnit ⟨"a", fun _ => (true, ""), fun _ => .ret [] none, fun _ _ => .exits,
        fun _ _ => .ret () none⟩ ⟨fun n => 1000 + n, 0, []⟩).1.1
      = { Start := 1001, End := 0, Duration := 0 } ∧
    ∀ n args args2,
      TestUnit.Test ⟨"a", fun _ => (true, ""), fun _ => .ret [] none, fun _ _ => .exits,
        fun _ _ => .ret () none⟩ n args ≠ .ret args2 none := by
  refine ⟨rfl, rfl, rfl, ?_⟩
  intro n args args2 h
  cases h


/-! ## Go maps -/

theorem mapGet_mapSet {β : Type} (m : List (String × β)) (k : String) (v : β) (k' : String) :
    mapGet (mapSet m k v) k' = if k = k' then some v else mapGet m k' := by
  induction m with
  | nil => simp [mapSet, mapGet]
  | cons e m ih =>
    obtain ⟨k1, v1⟩ := e
    by_cases h1 : k1 = k
    · subst h1
      by_cases h2 : k1 = k' <;> simp [mapSet, mapGet, h2]
    · by_cases h2 : k1 = k'
      · subst h2
        simp [mapSet, mapGet, h1, Ne.symm h1]
      · simp [mapSet, mapGet, h1, h2, ih]

theorem mapGet_isSome_iff {β : Type} (m : List (String × β)) (k : String) :
    (mapGet m k).isSome ↔ k ∈ mapKeys m := by
  induction m with
  | nil => simp [mapGet, mapKeys]
  | cons e m ih =>
    obtain ⟨k1, v1⟩ := e
    by_cases h : k1 = k
    · simp [mapGet, mapKeys, h]
    · have ih' : (mapGet m k).isSome = true ↔ k ∈ List.map Prod.fst m := ih
      simp [mapGet, mapKeys, h, Ne.symm h, ih']

/-! ## Duplicate identifiers -/

theorem hasDuplicateIDsLoop_iff (tests : List TestUnit) :
    ∀ m : List (String × Int), hasDuplicateIDsLoop tests m = true ↔
      (∃ t ∈ tests, (mapGet m t.ID).isSome) ∨ ¬ (tests.map TestUnit.ID).Nodup := by
  induction tests with
  | nil => intro m; simp [hasDuplicateIDsLoop]
  | cons t ts ih =>
    intro m
    rcases hg : mapGet m t.ID with _ | v
    · simp only [hasDuplicateIDsLoop, hg, ih, mapAdd, mapGet_mapSet]
      simp only [List.mem_cons, exists_eq_or_imp, hg, List.map_cons, List.nodup_cons,
        List.mem_map, not_and_or, not_not]
      constructor
      · rintro (⟨t', ht', h⟩ | h)
        · by_cases e : t.ID = t'.ID
          · right; left; exact ⟨t', ht', e.symm⟩
          · left; right; exact ⟨t', ht', by simpa [e] using h⟩
        · right; right; exact h
      · rintro ((h | ⟨t', ht', h⟩) | (⟨t', ht', h⟩ | h))
        · simp at h
        · left
          refine ⟨t', ht', ?_⟩
          by_cases e : t.ID = t'.ID <;> simp [e, h]
        · left; exact ⟨t', ht', by simp [h]⟩
        · right; exact h
    · simp only [hasDuplicateIDsLoop, hg, true_iff]
      left
      exact ⟨t, List.mem_cons_self _ _, by simp [hg]⟩

theorem hasDuplicateIDs_iff_not_nodup (tests : List TestUnit) :
    hasDuplicateIDs tests = true ↔ ¬ (tests.map TestUnit.ID).Nodup := by
  simp [hasDuplicateIDs, hasDuplicateIDsLoop_iff, mapGet]

/-- C4.  `hasDuplicateIDs` answers true exactly when two test units at different
positions have the same ID, and then a scheduler pass fails with the panic
`tests have duplicate ids` in an unchanged world: no call was made, so no operation
of a unit was invoked and no handler was notified. -/
theorem duplicate_ids_abort (tests : List TestUnit) :
    (hasDuplicateIDs tests = true ↔
      ∃ i j, i < j ∧ j < tests.length ∧
        (tests.map TestUnit.ID)[i]? = (tests.map TestUnit.ID)[j]?) ∧
    (hasDuplicateIDs tests = true → ∀ (cfg : Config) (w : World),
      Runner.run cfg tests w = (.error (.panic "tests have duplicate ids"), w)) := by
  constructor
  · rw [hasDuplicateIDs_iff_not_nodup, List.nodup_iff_getElem?_ne_getElem?]
    simp only [List.length_map, ne_eq, not_forall, not_not, exists_prop]
  · intro h cfg w
    simp [Runner.run, h]

theorem duplicate_ids_abort_witness :
    Runner.run defaultConfig
      [⟨"a", fun _ => (true, ""), fun _ => .ret [] none, fun _ a => .ret a none,
          fun _ _ => .ret () none⟩,
       ⟨"a", fun _ => (false, "off"), fun _ => .ret [] none, fun _ a => .ret a none,
          fun _ _ => .ret () none⟩]
      ⟨fun n => n + 1, 0, []⟩
    = (.error (.panic "tests have duplicate ids"), ⟨fun n => n + 1, 0, []⟩) :=
  (duplicate_ids_abort _).2 (by decide) defaultConfig ⟨fun n => n + 1, 0, []⟩


/-! ## One scheduler pass -/

theorem le_slowest_of_sorted (l : List Duration) (hs : l.Sorted (· ≤ ·)) :
    ∀ x ∈ l, x ≤ (fastestSlowest l).2 := by
  intro x hx
  have hne : l ≠ [] := List.ne_nil_of_mem hx
  have hpos : 0 < l.length := List.length_pos.2 hne
  have h1 := sorted_le_getLast l hs hne x hx
  have h2 : (fastestSlowest l).2 = l.getLast hne := by
    simp only [fastestSlowest, if_pos hpos, List.getD_eq_getElem?_getD]
    rw [List.getElem?_eq_getElem (by omega), List.getLast_eq_getElem]
    rfl
  rw [h2]; exact h1

/-- On a sorted slice with its own extremes `histogram` returns, for every positive
resolution. -/
theorem histogram_sorted_ok (resolution : Int) (l : List Duration) (hR : 1 ≤ resolution) :
    ∃ hist, histogram resolution (l.insertionSort (· ≤ ·))
      (fastestSlowest (l.insertionSort (· ≤ ·))).2
      (fastestSlowest (l.insertionSort (· ≤ ·))).1 = .ok hist := by
  obtain ⟨c, _, _, h⟩ := histogram_spec resolution (l.insertionSort (· ≤ ·))
    (fastestSlowest (l.insertionSort (· ≤ ·))).2 (fastestSlowest (l.insertionSort (· ≤ ·))).1 hR
    (le_slowest_of_sorted _ (List.sorted_insertionSort _ l))
  exact ⟨_, h⟩

theorem calcOne_ok (buckets : Int) (percentiles : List Int) (v : TestStats)
    (hR : 1 ≤ buckets) : ∃ v1, calcOne buckets percentiles v = .ok v1 ∧
      v1.TestResults = v.TestResults := by
  unfold calcOne
  obtain ⟨hist, hh⟩ := histogram_sorted_ok buckets
    (v.TestResults.foldl calcStep
      { durations := [], accduration := 0, starts := [], ends := [], errorm := [],
        ok := 0, skips := 0, err := 0 }).durations hR
  simp only [hh]
  exact ⟨_, rfl, rfl⟩

theorem calcTestStats_ok (buckets : Int) (percentiles : List Int) (hR : 1 ≤ buckets) :
    ∀ m : List (String × TestStats), ∃ m1, calcTestStats buckets percentiles m = .ok m1 ∧
      mapKeys m1 = mapKeys m := by
  intro m
  induction m with
  | nil => exact ⟨[], rfl, rfl⟩
  | cons e m ih =>
    obtain ⟨k, v⟩ := e
    obtain ⟨v1, hv, _⟩ := calcOne_ok buckets percentiles v hR
    obtain ⟨m1, hm, hk⟩ := ih
    refine ⟨(k, v1) :: m1, by simp [calcTestStats, hv, hm], ?_⟩
    simp only [mapKeys] at hk ⊢
    simp [hk]

/-- What a scheduler pass returns when the IDs are distinct and the resolution is
positive, in terms of the timer and the variables that the run of the tests leaves. -/
theorem run_ok (cfg : Config) (tests : List TestUnit) (w : World)
    (hdup : hasDuplicateIDs tests = false) (hR : 1 ≤ cfg.HistogramBuckets) :
    ∃ hist testStats,
      histogram cfg.HistogramBuckets ((passRun cfg tests w).1.2.durations.insertionSort (· ≤ ·))
        (fastestSlowest ((passRun cfg tests w).1.2.durations.insertionSort (· ≤ ·))).2
        (fastestSlowest ((passRun cfg tests w).1.2.durations.insertionSort (· ≤ ·))).1
        = .ok hist ∧
      calcTestStats cfg.HistogramBuckets cfg.Percentiles (passRun cfg tests w).1.2.testStats
        = .ok testStats ∧
      Runner.run cfg tests w =
        (.ok { ChildResults := []
               Date := (passRun cfg tests w).2.now.1
               Stats :=
                { Average := avgDuration (passRun cfg tests w).1.1.Duration
                    ((tests.length : Int) * cfg.Iterations - (passRun cfg tests w).1.2.errored
                      - (passRun cfg tests w).1.2.skipped)
                  Count := (tests.length : Int) * cfg.Iterations
                  Description := ""
                  Distributions := distributions cfg.Percentiles
                    ((passRun cfg tests w).1.2.durations.insertionSort (· ≤ ·))
                  Durations := (passRun cfg tests w).1.2.durations.insertionSort (· ≤ ·)
                  Duration := (passRun cfg tests w).1.1.Duration
                  Errorm := (passRun cfg tests w).1.2.errorm
                  Errors := (passRun cfg tests w).1.2.errored
                  Fastest := (fastestSlowest
                    ((passRun cfg tests w).1.2.durations.insertionSort (· ≤ ·))).1
                  End := (passRun cfg tests w).1.1.End
                  Histogram := hist
                  Passed := (tests.length : Int) * cfg.Iterations
                    - (passRun cfg tests w).1.2.errored - (passRun cfg tests w).1.2.skipped
                  Skips := (passRun cfg tests w).1.2.skipped
                  Slowest := (fastestSlowest
                    ((passRun cfg tests w).1.2.durations.insertionSort (· ≤ ·))).2
                  Start := (passRun cfg tests w).1.1.Start }
               TestStats := testStats },
         (passRun cfg tests w).2.now.2) := by
  obtain ⟨hist, hh⟩ := histogram_sorted_ok cfg.HistogramBuckets
    (passRun cfg tests w).1.2.durations hR
  obtain ⟨ts, hts, _⟩ := calcTestStats_ok cfg.HistogramBuckets cfg.Percentiles hR
    (passRun cfg tests w).1.2.testStats
  refine ⟨hist, ts, hh, hts, ?_⟩
  unfold Runner.run
  simp only [hdup, hh, hts]
  rfl


theorem mapTotal_mapAdd (m : List (String × Int)) (k : String) (v : Int) :
    mapTotal (mapAdd m k v) = mapTotal m + v := by
  induction m with
  | nil => simp [mapAdd, mapSet, mapCount, mapGet, mapTotal]
  | cons e m ih =>
    obtain ⟨k1, v1⟩ := e
    by_cases h : k1 = k
    · simp [mapAdd, mapSet, mapCount, mapGet, mapTotal, h]; ring
    · have ih' : (List.map Prod.snd (mapSet m k ((mapGet m k).getD 0 + v))).sum
          = (List.map Prod.snd m).sum + v := ih
      simp [mapAdd, mapSet, mapCount, mapGet, mapTotal, h, ih']; ring

/-- The error of an invocation depends only on what the three phases answer. -/
theorem runTestUnit_error (t : TestUnit) (w : World) :
    (runTestUnit t w).1.2 =
      match t.Prepare w.tick with
      | .panics r => some ("func panic: " ++ r)
      | .exits => none
      | .ret _ (some e) => some e
      | .ret args none =>
        match t.Test (w.tick + 2) args with
        | .panics r => some ("func panic: " ++ r)
        | .exits => none
        | .ret _ (some e) => some e
        | .ret args2 none => callError (t.Cleanup (w.tick + 4) args2) := by
  unfold runTestUnit
  rcases hp : t.Prepare w.tick with ⟨args, _ | e⟩ | r | _
  · have htick : (Timer.Begin NewTimer (w.call (.prepare t.ID))).2.tick = w.tick + 2 := rfl
    simp only [htick]
    rcases ht : t.Test (w.tick + 2) args with ⟨args2, _ | e⟩ | r | _
    · have htick2 : (Timer.Finish (Timer.Begin NewTimer (w.call (.prepare t.ID))).1
          ((Timer.Begin NewTimer (w.call (.prepare t.ID))).2.call (.test t.ID))).2.tick
          = w.tick + 4 := rfl
      simp only [htick2]
      rcases hc : t.Cleanup (w.tick + 4) args2 with ⟨u, _ | e⟩ | r | _ <;> simp [callError]
    · simp
    · simp
    · simp
  · simp
  · simp
  · simp

theorem runTestUnit_error_steady (t : TestUnit) (hs : Steady t) (w : World) :
    (runTestUnit t w).1.2 = invocationError t := by
  obtain ⟨_, hp, ht, hc⟩ := hs
  rw [invocationError, runTestUnit_error, runTestUnit_error]
  simp only [hp w.tick, ht (w.tick + 2), hc (w.tick + 4), ht (0 + 2), hc (0 + 4)]

/-- What one completion callback does to the counters of the pass. -/
theorem testUnitDone_counters (cfg : Config) (t : TestUnit) (timer : Timer)
    (err : Option String) (a : RunVars) (w : World) :
    (testUnitDone cfg t timer err a w).1.skipped
      = a.skipped + (if (t.Enabled w.tick).1 then 0 else 1) ∧
    (testUnitDone cfg t timer err a w).1.errored
      = a.errored + (if (t.Enabled w.tick).1 && err.isSome then 1 else 0) ∧
    mapTotal (testUnitDone cfg t timer err a w).1.errorm
      = mapTotal a.errorm + (if (t.Enabled w.tick).1 && err.isSome then 1 else 0) := by
  unfold testUnitDone
  rcases he : (t.Enabled w.tick) with ⟨en, d⟩
  cases en <;> cases err <;> simp [mapTotal_mapAdd]

theorem runTests_counters (cfg : Config) (tests : List TestUnit)
    (hs : ∀ t ∈ tests, Steady t) :
    ∀ (a : RunVars) (w : World),
      (runTests (some (testUnitDone cfg)) tests a w).1.skipped
        = a.skipped + (disabledUnits tests).length ∧
      (runTests (some (testUnitDone cfg)) tests a w).1.errored
        = a.errored + (failingUnits tests).length ∧
      mapTotal (runTests (some (testUnitDone cfg)) tests a w).1.errorm
        = mapTotal a.errorm + (failingUnits tests).length := by
  induction tests with
  | nil => intro a w; simp [runTests, disabledUnits, failingUnits]
  | cons t ts ih =>
    intro a w
    have hst := hs t (List.mem_cons_self _ _)
    have ih' := ih (fun t' ht' => hs t' (List.mem_cons_of_mem _ ht'))
    have hen : ∀ n, (t.Enabled n).1 = (t.Enabled 0).1 := fun n => by rw [hst.1 n]
    simp only [runTests]
    rcases hb : (t.Enabled 0).1 with _ | _
    · -- disabled
      simp only [hen w.tick, hb]
      obtain ⟨h1, h2, h3⟩ := ih' (testUnitDone cfg t NewTimer none a
        (w.call (.enabled t.ID))).1 (testUnitDone cfg t NewTimer none a
        (w.call (.enabled t.ID))).2
      obtain ⟨g1, g2, g3⟩ := testUnitDone_counters cfg t NewTimer none a
        (w.call (.enabled t.ID))
      simp only [hen, hb] at g1 g2 g3
      simp only [Bool.false_eq_true, if_false] at h1 h2 h3 ⊢
      rw [h1, h2, h3, g1, g2, g3]
      simp [disabledUnits, failingUnits, hb]
      omega
    · -- enabled
      simp only [hen w.tick, hb, if_true]
      obtain ⟨h1, h2, h3⟩ := ih'
        (testUnitDone cfg t (runTestUnit t (w.call (.enabled t.ID))).1.1
          (runTestUnit t (w.call (.enabled t.ID))).1.2 a
          (runTestUnit t (w.call (.enabled t.ID))).2).1
        (testUnitDone cfg t (runTestUnit t (w.call (.enabled t.ID))).1.1
          (runTestUnit t (w.call (.enabled t.ID))).1.2 a
          (runTestUnit t (w.call (.enabled t.ID))).2).2
      obtain ⟨g1, g2, g3⟩ := testUnitDone_counters cfg t
        (runTestUnit t (w.call (.enabled t.ID))).1.1
        (runTestUnit t (w.call (.enabled t.ID))).1.2 a
        (runTestUnit t (w.call (.enabled t.ID))).2
      rw [h1, h2, h3, g1, g2, g3]
      simp only [hen, hb, runTestUnit_error_steady t hst]
      cases hi : invocationError t <;> (simp [disabledUnits, failingUnits, hb, hi]; try omega)


theorem runIterations_counters (cfg : Config) (tests : List TestUnit)
    (hs : ∀ t ∈ tests, Steady t) :
    ∀ (n : Nat) (a : RunVars) (w : World),
      (runIterations (some (testUnitDone cfg)) tests n a w).1.skipped
        = a.skipped + (n : Int) * (disabledUnits tests).length ∧
      (runIterations (some (testUnitDone cfg)) tests n a w).1.errored
        = a.errored + (n : Int) * (failingUnits tests).length ∧
      mapTotal (runIterations (some (testUnitDone cfg)) tests n a w).1.errorm
        = mapTotal a.errorm + (n : Int) * (failingUnits tests).length := by
  intro n
  induction n with
  | zero => intro a w; simp [runIterations]
  | succ n ih =>
    intro a w
    obtain ⟨g1, g2, g3⟩ := runTests_counters cfg tests hs a w
    obtain ⟨h1, h2, h3⟩ := ih (runTests (some (testUnitDone cfg)) tests a w).1
      (runTests (some (testUnitDone cfg)) tests a w).2
    simp only [runIterations]
    rw [h1, h2, h3, g1, g2, g3]
    push_cast
    refine ⟨by ring, by ring, by ring⟩

theorem passRun_vars (cfg : Config) (tests : List TestUnit) (w : World) :
    (passRun cfg tests w).1.2 =
      (runIterations (some (testUnitDone cfg)) tests cfg.Iterations.toNat
        { durations := [], skipped := 0, errored := 0, errorm := [], testStats := [] }
        (Timer.Begin NewTimer w).2).1 := rfl

theorem units_split (tests : List TestUnit) :
    tests.length = (disabledUnits tests).length + (failingUnits tests).length
      + (passingUnits tests).length := by
  induction tests with
  | nil => rfl
  | cons t ts ih =>
    simp only [disabledUnits, failingUnits, passingUnits] at ih ⊢
    cases hb : (t.Enabled 0).1 <;> cases hi : invocationError t <;>
      simp [List.filter_cons, hb, hi] <;> omega

/-- The counters of a pass over steady test units. -/
theorem passRun_counters (cfg : Config) (tests : List TestUnit) (w : World)
    (hI : 0 ≤ cfg.Iterations) (hs : ∀ t ∈ tests, Steady t) :
    (passRun cfg tests w).1.2.skipped = cfg.Iterations * (disabledUnits tests).length ∧
    (passRun cfg tests w).1.2.errored = cfg.Iterations * (failingUnits tests).length ∧
    mapTotal (passRun cfg tests w).1.2.errorm
      = cfg.Iterations * (failingUnits tests).length := by
  obtain ⟨h1, h2, h3⟩ := runIterations_counters cfg tests hs cfg.Iterations.toNat
    { durations := [], skipped := 0, errored := 0, errorm := [], testStats := [] }
    (Timer.Begin NewTimer w).2
  rw [passRun_vars, h1, h2, h3, Int.toNat_of_nonneg hI]
  simp [mapTotal]


/-- The counters of a scheduler pass over steady test units with distinct IDs. -/
theorem run_steady_counts (cfg : Config) (tests : List TestUnit) (w : World)
    (hI : 0 ≤ cfg.Iterations) (hR : 1 ≤ cfg.HistogramBuckets)
    (hid : (tests.map TestUnit.ID).Nodup) (hs : ∀ t ∈ tests, Steady t) :
    ∃ res w1, Runner.run cfg tests w = (.ok res, w1) ∧
      res.Stats.Count = (tests.length : Int) * cfg.Iterations ∧
      res.Stats.Skips = cfg.Iterations * (disabledUnits tests).length ∧
      res.Stats.Errors = cfg.Iterations * (failingUnits tests).length ∧
      res.Stats.Passed = cfg.Iterations * (passingUnits tests).length ∧
      mapTotal res.Stats.Errorm = res.Stats.Errors := by
  have hdup : hasDuplicateIDs tests = false := by
    rcases h : hasDuplicateIDs tests with _ | _
    · rfl
    · exact absurd hid ((hasDuplicateIDs_iff_not_nodup tests).1 h)
  obtain ⟨hist, ts, _, _, hrun⟩ := run_ok cfg tests w hdup hR
  obtain ⟨h1, h2, h3⟩ := passRun_counters cfg tests w hI hs
  have hsplit := units_split tests
  refine ⟨_, _, hrun, rfl, h1, h2, ?_, ?_⟩
  · show (tests.length : Int) * cfg.Iterations - _ - _ = _
    rw [h1, h2, hsplit]
    push_cast
    ring
  · show mapTotal _ = _
    rw [h3, h2]

/-- C1.  A run with one user, `I >= 0` iterations and test units with distinct IDs
that answer every call in the same way returns Stats with `Count = K * I`,
`Skips = I *` (number of disabled units), `Errors = I *` (number of enabled units whose
invocation returns an error), `Passed = I *` (number of enabled units whose invocation
returns no error), and the values of `Errorm` add up to `Errors`. -/
theorem single_user_counts (cfg : Config) (tests : List TestUnit) (s : Schedule)
    (w : World) (hU : cfg.Users = 1) (hI : 0 ≤ cfg.Iterations)
    (hR : 1 ≤ cfg.HistogramBuckets) (hid : (tests.map TestUnit.ID).Nodup)
    (hs : ∀ t ∈ tests, Steady t) :
    ∃ res w1, Runner.Run cfg tests s w = (.ok res, w1) ∧
      res.Stats.Count = (tests.length : Int) * cfg.Iterations ∧
      res.Stats.Skips = cfg.Iterations * (disabledUnits tests).length ∧
      res.Stats.Errors = cfg.Iterations * (failingUnits tests).length ∧
      res.Stats.Passed = cfg.Iterations * (passingUnits tests).length ∧
      mapTotal res.Stats.Errorm = res.Stats.Errors := by
  obtain ⟨res, w1, hrun, h⟩ := run_steady_counts cfg tests
    (cfg.Handlers.foldl (fun w h => w.call (.runnerStarted h cfg.ID cfg.Description
      ((tests.length : Int) * cfg.Iterations * cfg.Users))) w) hI hR hid hs
  exact ⟨res, notifyDone cfg w1, by simp only [Runner.Run, if_pos hU, hrun], h⟩

theorem single_user_counts_witness :
    ∃ res w1, Runner.Run { defaultConfig with Iterations := 50 }
        [⟨"pass", fun _ => (true, ""), fun _ => .ret [] none, fun _ a => .ret a none,
            fun _ _ => .ret () none⟩,
         ⟨"fail", fun _ => (true, ""), fun _ => .ret [] none,
            fun _ a => .ret a (some "whooops"), fun _ _ => .ret () none⟩,
         ⟨"skip", fun _ => (false, "leave me alone"), fun _ => .ret [] none,
            fun _ a => .ret a none, fun _ _ => .ret () none⟩]
        ⟨fun _ k => k, []⟩ ⟨fun n => 1000 + n, 0, []⟩ = (.ok res, w1) ∧
      res.Stats.Count = 150 ∧ res.Stats.Skips = 50 ∧ res.Stats.Errors = 50 ∧
      res.Stats.Passed = 50 ∧ mapTotal res.Stats.Errorm = 50 := by
  obtain ⟨res, w1, h, h1, h2, h3, h4, h5⟩ := single_user_counts
    { defaultConfig with Iterations := 50 }
    [⟨"pass", fun _ => (true, ""), fun _ => .ret [] none, fun _ a => .ret a none,
        fun _ _ => .ret () none⟩,
     ⟨"fail", fun _ => (true, ""), fun _ => .ret [] none,
        fun _ a => .ret a (some "whooops"), fun _ _ => .ret () none⟩,
     ⟨"skip", fun _ => (false, "leave me alone"), fun _ => .ret [] none,
        fun _ a => .ret a none, fun _ _ => .ret () none⟩]
    ⟨fun _ k => k, []⟩ ⟨fun n => 1000 + n, 0, []⟩ rfl (by decide) (by decide) (by decide)
    (by
      intro t ht
      simp only [List.mem_cons, List.mem_singleton, List.not_mem_nil, or_false] at ht
      rcases ht with rfl | rfl | rfl <;>
        exact ⟨fun _ => rfl, fun _ => rfl, fun _ _ => rfl, fun _ _ => rfl⟩)
  refine ⟨res, w1, h, ?_, ?_, ?_, ?_, ?_⟩
  · rw [h1]; rfl
  · rw [h2]; rfl
  · rw [h3]; rfl
  · rw [h4]; rfl
  · rw [h5, h3]; rfl


/-! ## Joining results -/

theorem mapCount_mapAdd (m : List (String × Int)) (k : String) (v : Int) (k' : String) :
    mapCount (mapAdd m k v) k' = mapCount m k' + (if k = k' then v else 0) := by
  unfold mapCount mapAdd
  rw [mapGet_mapSet]
  by_cases h : k = k'
  · subst h; simp [mapCount]
  · simp [h]

theorem mem_mapKeys_mapAdd (m : List (String × Int)) (k : String) (v : Int) (k' : String) :
    k' ∈ mapKeys (mapAdd m k v) ↔ k' = k ∨ k' ∈ mapKeys m := by
  rw [← mapGet_isSome_iff, ← mapGet_isSome_iff, mapAdd, mapGet_mapSet]
  by_cases h : k = k'
  · simp [h]
  · simp [h, Ne.symm h]

theorem mapKeys_mapSet_nodup {β : Type} (m : List (String × β)) (k : String) (v : β)
    (h : (mapKeys m).Nodup) : (mapKeys (mapSet m k v)).Nodup := by
  induction m with
  | nil => simp [mapSet, mapKeys]
  | cons e m ih =>
    obtain ⟨k1, v1⟩ := e
    simp only [mapKeys, List.map_cons, List.nodup_cons] at h
    by_cases h1 : k1 = k
    · simp only [mapSet, if_pos h1, mapKeys, List.map_cons, List.nodup_cons]
      exact h
    · simp only [mapSet, if_neg h1, mapKeys, List.map_cons, List.nodup_cons]
      refine ⟨?_, ih h.2⟩
      intro hmem
      have h2 : k1 ∈ mapKeys (mapSet m k v) := hmem
      rw [← mapGet_isSome_iff, mapGet_mapSet, if_neg (Ne.symm h1), mapGet_isSome_iff] at h2
      exact h.1 h2

/-- The loop `for k, v := range r.Stats.Errorm { errorm[k] += v }`. -/
theorem mergeErrorm_count (es : List (String × Int)) (hes : (mapKeys es).Nodup) :
    ∀ (m : List (String × Int)) (k : String),
      mapCount (es.foldl (fun m (kv : String × Int) => mapAdd m kv.1 kv.2) m) k
        = mapCount m k + mapCount es k := by
  induction es with
  | nil => intro m k; simp [mapCount, mapGet]
  | cons e es ih =>
    intro m k
    obtain ⟨k1, v1⟩ := e
    simp only [mapKeys, List.map_cons, List.nodup_cons] at hes
    simp only [List.foldl_cons]
    rw [ih hes.2, mapCount_mapAdd]
    by_cases h : k1 = k
    · subst h
      have hno : mapGet es k1 = none := by
        rcases hg : mapGet es k1 with _ | v
        · rfl
        · exfalso
          apply hes.1
          have := (mapGet_isSome_iff es k1).1 (by simp [hg])
          exact this
      simp [mapCount, mapGet, hno]
    · simp [mapCount, mapGet, h]

theorem mergeErrorm_keys (es : List (String × Int)) :
    ∀ (m : List (String × Int)) (k : String),
      k ∈ mapKeys (es.foldl (fun m (kv : String × Int) => mapAdd m kv.1 kv.2) m)
        ↔ k ∈ mapKeys m ∨ k ∈ mapKeys es := by
  induction es with
  | nil => intro m k; simp [mapKeys]
  | cons e es ih =>
    intro m k
    obtain ⟨k1, v1⟩ := e
    simp only [List.foldl_cons]
    rw [ih, mem_mapKeys_mapAdd]
    simp only [mapKeys, List.map_cons, List.mem_cons]
    tauto

theorem mergeErrorm_nodup (es : List (String × Int)) :
    ∀ (m : List (String × Int)), (mapKeys m).Nodup →
      (mapKeys (es.foldl (fun m (kv : String × Int) => mapAdd m kv.1 kv.2) m)).Nodup := by
  induction es with
  | nil => intro m h; exact h
  | cons e es ih =>
    intro m h
    simp only [List.foldl_cons]
    exact ih _ (mapKeys_mapSet_nodup _ _ _ h)

/-- The variables of `JoinResults` after its first loop, from any starting values. -/
theorem joinStep_foldl (rs : List Result) :
    ∀ a : JoinVars,
      (rs.foldl joinStep a).count = a.count + (rs.map (fun r => r.Stats.Count)).sum ∧
      (rs.foldl joinStep a).err = a.err + (rs.map (fun r => r.Stats.Errors)).sum ∧
      (rs.foldl joinStep a).skips = a.skips + (rs.map (fun r => r.Stats.Skips)).sum ∧
      (rs.foldl joinStep a).ok = a.ok +
        (rs.map (fun r => r.Stats.Count - r.Stats.Skips - r.Stats.Errors)).sum ∧
      (rs.foldl joinStep a).accduration = a.accduration +
        (rs.map (fun r => r.Stats.Duration)).sum ∧
      (rs.foldl joinStep a).durations = a.durations ++
        (rs.map (fun r => r.Stats.Durations)).flatten ∧
      (rs.foldl joinStep a).starts = a.starts ++
        ((rs.filter (fun r => !timeIsZero r.Stats.Start)).map (fun r => r.Stats.Start)) ∧
      (rs.foldl joinStep a).ends = a.ends ++
        ((rs.filter (fun r => !timeIsZero r.Stats.Start)).map (fun r => r.Stats.End)) := by
  induction rs with
  | nil => intro a; simp
  | cons r rs ih =>
    intro a
    obtain ⟨h1, h2, h3, h4, h5, h6, h7, h8⟩ := ih (joinStep a r)
    simp only [List.foldl_cons]
    rw [h1, h2, h3, h4, h5, h6, h7, h8]
    by_cases hz : timeIsZero r.Stats.Start = true
    · simp [joinStep, hz]
      refine ⟨by ring, by ring, by ring, by ring, by ring⟩
    · simp [joinStep, hz]
      refine ⟨by ring, by ring, by ring, by ring, by ring⟩

theorem joinStep_foldl_errorm (rs : List Result)
    (hmap : ∀ r ∈ rs, (mapKeys r.Stats.Errorm).Nodup) :
    ∀ a : JoinVars, (mapKeys a.errorm).Nodup →
      (mapKeys (rs.foldl joinStep a).errorm).Nodup ∧
      (∀ k, mapCount (rs.foldl joinStep a).errorm k = mapCount a.errorm k +
        (rs.map (fun r => mapCount r.Stats.Errorm k)).sum) ∧
      (∀ k, k ∈ mapKeys (rs.foldl joinStep a).errorm ↔
        k ∈ mapKeys a.errorm ∨ ∃ r ∈ rs, k ∈ mapKeys r.Stats.Errorm) := by
  induction rs with
  | nil => intro a ha; simp [ha]
  | cons r rs ih =>
    intro a ha
    have he : (joinStep a r).errorm =
        r.Stats.Errorm.foldl (fun m (kv : String × Int) => mapAdd m kv.1 kv.2) a.errorm := by
      unfold joinStep
      by_cases hz : timeIsZero r.Stats.Start = true <;> simp [hz]
    have hr := hmap r (List.mem_cons_self _ _)
    obtain ⟨h1, h2, h3⟩ := ih (fun r' hr' => hmap r' (List.mem_cons_of_mem _ hr'))
      (joinStep a r) (by rw [he]; exact mergeErrorm_nodup _ _ ha)
    simp only [List.foldl_cons]
    refine ⟨h1, ?_, ?_⟩
    · intro k
      rw [h2, he, mergeErrorm_count _ hr]
      simp; ring
    · intro k
      rw [h3, he, mergeErrorm_keys]
      simp only [List.mem_cons, exists_eq_or_imp]
      tauto


theorem insertionSort_le_head (l : List Int) (s : Int) (tl : List Int)
    (h : l.insertionSort (· ≤ ·) = s :: tl) : s ∈ l ∧ ∀ x ∈ l, s ≤ x := by
  have hp := List.perm_insertionSort (· ≤ ·) l
  have hs := List.sorted_insertionSort (· ≤ ·) l
  rw [h] at hp hs
  refine ⟨hp.subset (List.mem_cons_self _ _), fun x hx => ?_⟩
  rcases List.mem_cons.1 (hp.symm.subset hx) with e | e
  · rw [e]
  · exact List.rel_of_sorted_cons hs x e

theorem insertionSort_ge_head (l : List Int) (s : Int) (tl : List Int)
    (h : l.insertionSort (· ≥ ·) = s :: tl) : s ∈ l ∧ ∀ x ∈ l, x ≤ s := by
  have hp := List.perm_insertionSort (· ≥ ·) l
  have hs := List.sorted_insertionSort (· ≥ ·) l
  rw [h] at hp hs
  refine ⟨hp.subset (List.mem_cons_self _ _), fun x hx => ?_⟩
  rcases List.mem_cons.1 (hp.symm.subset hx) with e | e
  · rw [e]
  · exact List.rel_of_sorted_cons hs x e

/-- What `JoinResults` returns when the sorted starts and ends are not empty and the
resolution is positive, in terms of the variables after its first loop. -/
theorem JoinResults_ok (histogramBuckets : Int) (percentiles : List Int)
    (results : List Result) (w : World) (hR : 1 ≤ histogramBuckets)
    (start : Time) (ss : List Time) (fin : Time) (es : List Time)
    (hstart : (joinVars results).starts.insertionSort (· ≤ ·) = start :: ss)
    (hend : (joinVars results).ends.insertionSort (· ≥ ·) = fin :: es) :
    ∃ hist testStats,
      histogram histogramBuckets ((joinVars results).durations.insertionSort (· ≤ ·))
        (fastestSlowest ((joinVars results).durations.insertionSort (· ≤ ·))).2
        (fastestSlowest ((joinVars results).durations.insertionSort (· ≤ ·))).1 = .ok hist ∧
      calcTestStats histogramBuckets percentiles (joinTestStats results) = .ok testStats ∧
      JoinResults histogramBuckets percentiles results w =
        (.ok { ChildResults := results
               Date := w.now.1
               Stats :=
                { Average := avgDuration (joinVars results).accduration (joinVars results).ok
                  Count := (joinVars results).count
                  Description := ""
                  Distributions := distributions percentiles
                    ((joinVars results).durations.insertionSort (· ≤ ·))
                  Duration := timeSub fin start
                  Durations := (joinVars results).durations.insertionSort (· ≤ ·)
                  End := fin
                  Errors := (joinVars results).err
                  Errorm := (joinVars results).errorm
                  Fastest := (fastestSlowest
                    ((joinVars results).durations.insertionSort (· ≤ ·))).1
                  Histogram := hist
                  Passed := (joinVars results).ok
                  Skips := (joinVars results).skips
                  Slowest := (fastestSlowest
                    ((joinVars results).durations.insertionSort (· ≤ ·))).2
                  Start := start }
               TestStats := testStats }, w.now.2) := by
  obtain ⟨hist, hh⟩ := histogram_sorted_ok histogramBuckets (joinVars results).durations hR
  obtain ⟨ts, hts, _⟩ := calcTestStats_ok histogramBuckets percentiles hR
    (joinTestStats results)
  refine ⟨hist, ts, hh, hts, ?_⟩
  unfold JoinResults
  simp only [hstart, hend, hh, hts]

/-- When every input has a non-zero start, all starts and ends enter the join. -/
theorem joinVars_starts (rs : List Result) (hstart : ∀ r ∈ rs, r.Stats.Start ≠ 0) :
    (joinVars rs).starts = rs.map (fun r => r.Stats.Start) ∧
    (joinVars rs).ends = rs.map (fun r => r.Stats.End) := by
  obtain ⟨_, _, _, _, _, _, h7, h8⟩ := joinStep_foldl rs
    { count := 0, ok := 0, skips := 0, err := 0, accduration := 0, starts := [],
      ends := [], durations := [], errorm := [] }
  have hf : rs.filter (fun r => !timeIsZero r.Stats.Start) = rs := by
    rw [List.filter_eq_self]
    intro r hr
    simpa [timeIsZero] using hstart r hr
  rw [hf] at h7 h8
  exact ⟨by simpa [joinVars] using h7, by simpa [joinVars] using h8⟩

theorem insertionSort_ne_nil (r : Int → Int → Prop) [DecidableRel r] (l : List Int)
    (h : l ≠ []) : ∃ s tl, l.insertionSort r = s :: tl := by
  have hl := (List.perm_insertionSort r l).length_eq
  rcases hs : l.insertionSort r with _ | ⟨s, tl⟩
  · rw [hs] at hl
    exact absurd (List.length_eq_zero.1 hl.symm) h
  · exact ⟨s, tl, rfl⟩



/-- C2.  For a non-empty list of Results that each have a non-zero start and
`Passed = Count - Errors - Skips`, `JoinResults` returns Stats whose Count, Passed,
Errors and Skips are the sums of those fields over the inputs, and whose `Errorm` maps
every message to the sum of its counts over the inputs and has exactly the keys of
the inputs (so it is empty when every input map is empty). -/
theorem JoinResults_sums (histogramBuckets : Int) (percentiles : List Int)
    (results : List Result) (w : World) (hR : 1 ≤ histogramBuckets)
    (hne : results ≠ [])
    (hstart : ∀ r ∈ results, r.Stats.Start ≠ 0)
    (hpassed : ∀ r ∈ results, r.Stats.Passed = r.Stats.Count - r.Stats.Errors - r.Stats.Skips)
    (hmap : ∀ r ∈ results, (mapKeys r.Stats.Errorm).Nodup) :
    ∃ res w1, JoinResults histogramBuckets percentiles results w = (.ok res, w1) ∧
      res.Stats.Count = (results.map (fun r => r.Stats.Count)).sum ∧
      res.Stats.Passed = (results.map (fun r => r.Stats.Passed)).sum ∧
      res.Stats.Errors = (results.map (fun r => r.Stats.Errors)).sum ∧
      res.Stats.Skips = (results.map (fun r => r.Stats.Skips)).sum ∧
      (∀ msg, mapCount res.Stats.Errorm msg
        = (results.map (fun r => mapCount r.Stats.Errorm msg)).sum) ∧
      (∀ msg, msg ∈ mapKeys res.Stats.Errorm ↔ ∃ r ∈ results, msg ∈ mapKeys r.Stats.Errorm) := by
  obtain ⟨hs, he⟩ := joinVars_starts results hstart
  obtain ⟨start, ss, hss⟩ := insertionSort_ne_nil (· ≤ ·) (joinVars results).starts
    (by rw [hs]; simpa using hne)
  obtain ⟨fin, es, hes⟩ := insertionSort_ne_nil (· ≥ ·) (joinVars results).ends
    (by rw [he]; simpa using hne)
  obtain ⟨hist, ts, _, _, hj⟩ := JoinResults_ok histogramBuckets percentiles results w hR
    start ss fin es hss hes
  obtain ⟨h1, h2, h3, h4, _⟩ := joinStep_foldl results
    { count := 0, ok := 0, skips := 0, err := 0, accduration := 0, starts := [],
      ends := [], durations := [], errorm := [] }
  obtain ⟨_, g2, g3⟩ := joinStep_foldl_errorm results hmap
    { count := 0, ok := 0, skips := 0, err := 0, accduration := 0, starts := [],
      ends := [], durations := [], errorm := [] } (by simp [mapKeys])
  have hp : (results.map (fun r => r.Stats.Passed)).sum
      = (results.map (fun r => r.Stats.Count - r.Stats.Skips - r.Stats.Errors)).sum := by
    congr 1
    apply List.map_congr_left
    intro r hr
    rw [hpassed r hr]; ring
  refine ⟨_, _, hj, ?_, ?_, ?_, ?_, ?_, ?_⟩
  · show (joinVars results).count = _
    rw [joinVars, h1]; simp
  · show (joinVars results).ok = _
    rw [joinVars, h4, hp]; simp
  · show (joinVars results).err = _
    rw [joinVars, h2]; simp
  · show (joinVars results).skips = _
    rw [joinVars, h3]; simp
  · intro msg
    show mapCount (joinVars results).errorm msg = _
    rw [joinVars, g2]; simp [mapCount, mapGet]
  · intro msg
    show msg ∈ mapKeys (joinVars results).errorm ↔ _
    rw [joinVars, g3]; simp [mapKeys]

theorem JoinResults_sums_witness :
    ∃ res w1, JoinResults DefaultHistogramBuckets DefaultPercentiles
        [{ ChildResults := [], Date := 2001, TestStats := [],
           Stats := { Stats.zero with
             Count := 50, Passed := 50, Start := 1000, End := 2000, Duration := 1000 } },
         { ChildResults := [], Date := 2501, TestStats := [],
           Stats := { Stats.zero with
             Count := 50, Passed := 50, Start := 1500, End := 2500, Duration := 1000 } }]
        ⟨fun n => 3000 + n, 0, []⟩ = (.ok res, w1) ∧
      res.Stats.Count = 100 ∧ res.Stats.Passed = 100 ∧ res.Stats.Errors = 0 ∧
      res.Stats.Skips = 0 ∧ res.Stats.Errorm = [] := by
  obtain ⟨res, w1, h, h1, h2, h3, h4, _, h6⟩ := JoinResults_sums
    DefaultHistogramBuckets DefaultPercentiles
    [{ ChildResults := [], Date := 2001, TestStats := [],
       Stats := { Stats.zero with
         Count := 50, Passed := 50, Start := 1000, End := 2000, Duration := 1000 } },
     { ChildResults := [], Date := 2501, TestStats := [],
       Stats := { Stats.zero with
         Count := 50, Passed := 50, Start := 1500, End := 2500, Duration := 1000 } }]
    ⟨fun n => 3000 + n, 0, []⟩ (by decide) (by simp)
    (by intro r hr; simp at hr; rcases hr with rfl | rfl <;> decide)
    (by intro r hr; simp at hr; rcases hr with rfl | rfl <;> decide)
    (by intro r hr; simp at hr; rcases hr with rfl | rfl <;> decide)
  refine ⟨res, w1, h, by rw [h1]; rfl, by rw [h2]; rfl, by rw [h3]; rfl, by rw [h4]; rfl, ?_⟩
  have hk : mapKeys res.Stats.Errorm = [] := by
    rw [List.eq_nil_iff_forall_not_mem]
    intro msg hm
    obtain ⟨r, hr, hmem⟩ := (h6 msg).1 hm
    simp at hr
    rcases hr with rfl | rfl <;> simp [mapKeys, Stats.zero] at hmem
  simpa [mapKeys] using hk

/-- C10.  For a non-empty list of Results that all have a non-zero start,
`JoinResults` sets `Start` to the earliest input start, `End` to the latest input
end, and `Duration` to `End.Sub(Start)`, which is `End - Start` whenever that fits a
`time.Duration`. -/
theorem JoinResults_span (histogramBuckets : Int) (percentiles : List Int)
    (results : List Result) (w : World) (hR : 1 ≤ histogramBuckets)
    (hne : results ≠ []) (hstart : ∀ r ∈ results, r.Stats.Start ≠ 0) :
    ∃ res w1, JoinResults histogramBuckets percentiles results w = (.ok res, w1) ∧
      (∃ r ∈ results, res.Stats.Start = r.Stats.Start) ∧
      (∀ r ∈ results, res.Stats.Start ≤ r.Stats.Start) ∧
      (∃ r ∈ results, res.Stats.End = r.Stats.End) ∧
      (∀ r ∈ results, r.Stats.End ≤ res.Stats.End) ∧
      res.Stats.Duration = timeSub res.Stats.End res.Stats.Start ∧
      (minDuration ≤ res.Stats.End - res.Stats.Start →
        res.Stats.End - res.Stats.Start ≤ maxDuration →
        res.Stats.Duration = res.Stats.End - res.Stats.Start) := by
  obtain ⟨hs, he⟩ := joinVars_starts results hstart
  obtain ⟨start, ss, hss⟩ := insertionSort_ne_nil (· ≤ ·) (joinVars results).starts
    (by rw [hs]; simpa using hne)
  obtain ⟨fin, es, hes⟩ := insertionSort_ne_nil (· ≥ ·) (joinVars results).ends
    (by rw [he]; simpa using hne)
  obtain ⟨hist, ts, _, _, hj⟩ := JoinResults_ok histogramBuckets percentiles results w hR
    start ss fin es hss hes
  obtain ⟨a1, a2⟩ := insertionSort_le_head _ _ _ hss
  obtain ⟨b1, b2⟩ := insertionSort_ge_head _ _ _ hes
  rw [hs] at a1 a2
  rw [he] at b1 b2
  refine ⟨_, _, hj, ?_, ?_, ?_, ?_, rfl, ?_⟩
  · obtain ⟨r, hr, e⟩ := List.mem_map.1 a1
    exact ⟨r, hr, e.symm⟩
  · intro r hr
    exact a2 _ (List.mem_map.2 ⟨r, hr, rfl⟩)
  · obtain ⟨r, hr, e⟩ := List.mem_map.1 b1
    exact ⟨r, hr, e.symm⟩
  · intro r hr
    exact b2 _ (List.mem_map.2 ⟨r, hr, rfl⟩)
  · intro h1 h2
    show timeSub fin start = fin - start
    have h1' : minDuration ≤ fin - start := h1
    have h2' : fin - start ≤ maxDuration := h2
    have n1 : ¬ maxDuration < fin - start := by omega
    have n2 : ¬ fin - start < minDuration := by omega
    unfold timeSub
    rw [if_neg n1, if_neg n2]


theorem JoinResults_span_witness :
    ∃ res w1, JoinResults DefaultHistogramBuckets DefaultPercentiles
        [{ ChildResults := [], Date := 1011, TestStats := [],
           Stats := { Stats.zero with Start := 1005, End := 1021, Duration := 16 } },
         { ChildResults := [], Date := 1022, TestStats := [],
           Stats := { Stats.zero with Start := 1000, End := 1010, Duration := 10 } }]
        ⟨fun n => 3000 + n, 0, []⟩ = (.ok res, w1) ∧
      res.Stats.Start = 1000 ∧ res.Stats.End = 1021 ∧ res.Stats.Duration = 21 ∧
      res.Stats.Duration ≠ 16 + 10 := by
  obtain ⟨res, w1, h, ⟨r, hr, e1⟩, h2, ⟨r', hr', e3⟩, h4, _, h6⟩ := JoinResults_span
    DefaultHistogramBuckets DefaultPercentiles
    [{ ChildResults := [], Date := 1011, TestStats := [],
       Stats := { Stats.zero with Start := 1005, End := 1021, Duration := 16 } },
     { ChildResults := [], Date := 1022, TestStats := [],
       Stats := { Stats.zero with Start := 1000, End := 1010, Duration := 10 } }]
    ⟨fun n => 3000 + n, 0, []⟩ (by decide) (by simp)
    (by intro r hr; simp at hr; rcases hr with rfl | rfl <;> decide)
  have hs : res.Stats.Start = 1000 := by
    have := h2 _ (List.mem_cons_of_mem _ (List.mem_cons_self _ _))
    simp at hr
    rcases hr with rfl | rfl
    · have t1 : @LE.le Int _ res.Stats.Start 1000 := this
      have t2 : @Eq Int res.Stats.Start 1005 := e1
      omega
    · exact e1
  have he : res.Stats.End = 1021 := by
    have := h4 _ (List.mem_cons_self _ _)
    simp at hr'
    rcases hr' with rfl | rfl
    · exact e3
    · have t1 : @LE.le Int _ 1021 res.Stats.End := this
      have t2 : @Eq Int res.Stats.End 1010 := e3
      omega
  have hd : res.Stats.Duration = 21 := by
    rw [h6 (by rw [hs, he]; decide) (by rw [hs, he]; decide), hs, he]; rfl
  exact ⟨res, w1, h, hs, he, hd, by rw [hd]; decide⟩


/-! ## Several users -/

theorem run_count_start (cfg : Config) (tests : List TestUnit) (w : World)
    (hdup : hasDuplicateIDs tests = false) (hR : 1 ≤ cfg.HistogramBuckets) :
    ∃ res w1, Runner.run cfg tests w = (.ok res, w1) ∧
      res.Stats.Count = (tests.length : Int) * cfg.Iterations ∧
      res.Stats.Start = w.clock w.tick := by
  obtain ⟨hist, ts, _, _, hrun⟩ := run_ok cfg tests w hdup hR
  exact ⟨_, _, hrun, rfl, rfl⟩

theorem hasDuplicateIDs_passUnit (f : Nat → Nat) (tests : List TestUnit) :
    hasDuplicateIDs (tests.map (passUnit f)) = hasDuplicateIDs tests := by
  have h : (tests.map (passUnit f)).map TestUnit.ID = tests.map TestUnit.ID := by
    simp [List.map_map, Function.comp_def, passUnit]
  have h1 := hasDuplicateIDs_iff_not_nodup (tests.map (passUnit f))
  have h2 := hasDuplicateIDs_iff_not_nodup tests
  rw [h] at h1
  cases ha : hasDuplicateIDs (tests.map (passUnit f)) <;>
    cases hb : hasDuplicateIDs tests <;> simp_all

theorem collect_ok (P : Result → Prop) :
    ∀ passes : List (Except Fault Result × World),
      (∀ p ∈ passes, ∃ r, p.1 = .ok r ∧ P r) →
      ∃ rs, collect passes = .ok rs ∧ rs.length = passes.length ∧ ∀ r ∈ rs, P r := by
  intro passes
  induction passes with
  | nil => intro _; exact ⟨[], rfl, rfl, by simp⟩
  | cons p ps ih =>
    intro h
    obtain ⟨r, hr, hP⟩ := h p (List.mem_cons_self _ _)
    obtain ⟨rs, h1, h2, h3⟩ := ih (fun q hq => h q (List.mem_cons_of_mem _ hq))
    obtain ⟨p1, p2⟩ := p
    simp only at hr
    subst hr
    refine ⟨r :: rs, by simp [collect, h1], by simp [h2], ?_⟩
    intro x hx
    rcases List.mem_cons.1 hx with e | e
    · rw [e]; exact hP
    · exact h3 x e

theorem JoinResults_count (histogramBuckets : Int) (percentiles : List Int)
    (results : List Result) (w : World) (hR : 1 ≤ histogramBuckets)
    (hne : results ≠ []) (hstart : ∀ r ∈ results, r.Stats.Start ≠ 0) :
    ∃ res w1, JoinResults histogramBuckets percentiles results w = (.ok res, w1) ∧
      res.Stats.Count = (results.map (fun r => r.Stats.Count)).sum := by
  obtain ⟨hs, he⟩ := joinVars_starts results hstart
  obtain ⟨start, ss, hss⟩ := insertionSort_ne_nil (· ≤ ·) (joinVars results).starts
    (by rw [hs]; simpa using hne)
  obtain ⟨fin, es, hes⟩ := insertionSort_ne_nil (· ≥ ·) (joinVars results).ends
    (by rw [he]; simpa using hne)
  obtain ⟨hist, ts, _, _, hj⟩ := JoinResults_ok histogramBuckets percentiles results w hR
    start ss fin es hss hes
  obtain ⟨h1, _⟩ := joinStep_foldl results
    { count := 0, ok := 0, skips := 0, err := 0, accduration := 0, starts := [],
      ends := [], durations := [], errorm := [] }
  refine ⟨_, _, hj, ?_⟩
  show (joinVars results).count = _
  rw [joinVars, h1]; simp

theorem sum_map_const (rs : List Result) (c : Int) (h : ∀ r ∈ rs, r.Stats.Count = c) :
    (rs.map (fun r => r.Stats.Count)).sum = (rs.length : Int) * c := by
  induction rs with
  | nil => simp
  | cons r rs ih =>
    simp only [List.map_cons, List.sum_cons, List.length_cons]
    rw [ih (fun r' hr' => h r' (List.mem_cons_of_mem _ hr')), h r (List.mem_cons_self _ _)]
    push_cast; ring

theorem foldl_call_clock (g : String → Event) :
    ∀ (hs : List String) (w : World),
      (hs.foldl (fun w h => w.call (g h)) w).clock = w.clock := by
  intro hs
  induction hs with
  | nil => intro w; rfl
  | cons a l ih => intro w; simp only [List.foldl_cons]; rw [ih]; rfl

/-- The passes of a run with several users all return, each with the count of one
pass and a non-zero start. -/
theorem passes_ok (cfg : Config) (tests : List TestUnit) (s : Schedule) (w : World)
    (hR : 1 ≤ cfg.HistogramBuckets) (hdup : hasDuplicateIDs tests = false)
    (hclock : ∀ n, w.clock n ≠ 0) :
    ∃ rs, collect (s.order.map (runPass cfg tests s w)) = .ok rs ∧
      rs.length = s.order.length ∧
      ∀ r ∈ rs, r.Stats.Count = (tests.length : Int) * cfg.Iterations ∧ r.Stats.Start ≠ 0 := by
  obtain ⟨rs, hc, hl, hP⟩ := collect_ok
    (fun r => r.Stats.Count = (tests.length : Int) * cfg.Iterations ∧ r.Stats.Start ≠ 0)
    (s.order.map (runPass cfg tests s w))
    (by
      intro p hp
      obtain ⟨i, _, rfl⟩ := List.mem_map.1 hp
      obtain ⟨res, w1, h1, h2, h3⟩ := run_count_start cfg (tests.map (passUnit (s.view i)))
        (passWorld (s.view i) w)
        (by rw [hasDuplicateIDs_passUnit]; exact hdup) hR
      refine ⟨res, by rw [runPass, h1], by simpa using h2, ?_⟩
      rw [h3]
      exact hclock _)
  exact ⟨rs, hc, by simpa using hl, hP⟩

/-- C3.  With `U >= 2` users and test units with distinct IDs, `Runner.Run` returns a
Result with `Count = U * I * K`, whatever views the passes have of the test units and
in whatever order they append their results; this is the Count of a run with one
user and `U * I` iterations. -/
theorem multi_user_count (cfg : Config) (tests : List TestUnit) (s : Schedule)
    (w : World) (hU : 2 ≤ cfg.Users) (hR : 1 ≤ cfg.HistogramBuckets)
    (hid : (tests.map TestUnit.ID).Nodup) (hclock : ∀ n, w.clock n ≠ 0)
    (hs : s.complete cfg.Users.toNat) :
    ∃ res w1, Runner.Run cfg tests s w = (.ok res, w1) ∧
      res.Stats.Count = cfg.Users * cfg.Iterations * (tests.length : Int) ∧
      ∀ (s1 : Schedule) (w2 : World), ∃ res1 w3,
        Runner.Run { cfg with Users := 1, Iterations := cfg.Users * cfg.Iterations } tests s1 w2
          = (.ok res1, w3) ∧
        res1.Stats.Count = res.Stats.Count := by
  have hdup : hasDuplicateIDs tests = false := by
    rcases h : hasDuplicateIDs tests with _ | _
    · rfl
    · exact absurd hid ((hasDuplicateIDs_iff_not_nodup tests).1 h)
  have hlen : s.order.length = cfg.Users.toNat := by
    have := List.Perm.length_eq hs
    simpa using this
  obtain ⟨rs, hc, hl, hP⟩ := passes_ok cfg tests s
    (cfg.Handlers.foldl (fun w h => w.call (.runnerStarted h cfg.ID cfg.Description
      ((tests.length : Int) * cfg.Iterations * cfg.Users))) w) hR hdup
    (by rw [foldl_call_clock]; exact hclock)
  have hne : rs ≠ [] := by
    intro e
    rw [e] at hl
    simp at hl
    omega
  obtain ⟨res, w1, hj, hcount⟩ := JoinResults_count cfg.HistogramBuckets cfg.Percentiles rs
    { (cfg.Handlers.foldl (fun w h => w.call (.runnerStarted h cfg.ID cfg.Description
        ((tests.length : Int) * cfg.Iterations * cfg.Users))) w) with
      tick := (cfg.Handlers.foldl (fun w h => w.call (.runnerStarted h cfg.ID cfg.Description
          ((tests.length : Int) * cfg.Iterations * cfg.Users))) w).tick
        + ((s.order.map (runPass cfg tests s
            (cfg.Handlers.foldl (fun w h => w.call (.runnerStarted h cfg.ID cfg.Description
              ((tests.length : Int) * cfg.Iterations * cfg.Users))) w))).map
            (fun p => p.2.tick)).sum
      trace := (cfg.Handlers.foldl (fun w h => w.call (.runnerStarted h cfg.ID
          cfg.Description ((tests.length : Int) * cfg.Iterations * cfg.Users))) w).trace
        ++ ((s.order.map (runPass cfg tests s
            (cfg.Handlers.foldl (fun w h => w.call (.runnerStarted h cfg.ID cfg.Description
              ((tests.length : Int) * cfg.Iterations * cfg.Users))) w))).map
            (fun p => p.2.trace)).flatten }
    hR hne (fun r hr => (hP r hr).2)
  have hC : res.Stats.Count = cfg.Users * cfg.Iterations * (tests.length : Int) := by
    rw [hcount, sum_map_const rs _ (fun r hr => (hP r hr).1), hl, hlen,
      Int.toNat_of_nonneg (by omega)]
    ring
  have hU1 : ¬ cfg.Users = 1 := by omega
  have hU0 : ¬ cfg.Users < 0 := by omega
  refine ⟨res, notifyDone cfg w1, ?_, hC, ?_⟩
  · simp only [Runner.Run, if_neg hU1, if_neg hU0, hc, hj]
  · intro s1 w2
    obtain ⟨res1, w3, h1, h2, _⟩ := run_count_start
      { cfg with Users := 1, Iterations := cfg.Users * cfg.Iterations } tests
      (cfg.Handlers.foldl (fun w h => w.call (.runnerStarted h cfg.ID cfg.Description
        ((tests.length : Int) * (cfg.Users * cfg.Iterations) * 1))) w2) hdup hR
    refine ⟨res1, notifyDone cfg w3, ?_, ?_⟩
    · simp only [Runner.Run, if_true, h1]
      rfl
    · rw [h2, hC]
      show (tests.length : Int) * (cfg.Users * cfg.Iterations) = _
      ring


theorem multi_user_count_witness :
    ∃ res w1, Runner.Run { defaultConfig with Iterations := 50, Users := 10 }
        [⟨"awesome_test", fun _ => (true, ""), fun _ => .ret [] none,
            fun _ a => .ret a none, fun _ _ => .ret () none⟩,
         ⟨"not_always_an_awesome_test", fun _ => (true, ""), fun _ => .ret [] none,
            fun n a => if n % 3 = 0 then .ret a (some "whooops") else .ret a none,
            fun _ _ => .ret () none⟩,
         ⟨"skipped_test", fun _ => (false, "leave me alone"), fun _ => .ret [] none,
            fun _ a => .ret a none, fun _ _ => .ret () none⟩]
        ⟨fun i k => 10 * k + i, [3, 9, 0, 7, 1, 8, 2, 6, 5, 4]⟩
        ⟨fun n => 1000 + n, 0, []⟩ = (.ok res, w1) ∧
      res.Stats.Count = 1500 := by
  obtain ⟨res, w1, h, h1, _⟩ := multi_user_count
    { defaultConfig with Iterations := 50, Users := 10 }
    [⟨"awesome_test", fun _ => (true, ""), fun _ => .ret [] none,
        fun _ a => .ret a none, fun _ _ => .ret () none⟩,
     ⟨"not_always_an_awesome_test", fun _ => (true, ""), fun _ => .ret [] none,
        fun n a => if n % 3 = 0 then .ret a (some "whooops") else .ret a none,
        fun _ _ => .ret () none⟩,
     ⟨"skipped_test", fun _ => (false, "leave me alone"), fun _ => .ret [] none,
        fun _ a => .ret a none, fun _ _ => .ret () none⟩]
    ⟨fun i k => 10 * k + i, [3, 9, 0, 7, 1, 8, 2, 6, 5, 4]⟩
    ⟨fun n => 1000 + n, 0, []⟩ (by decide) (by decide) (by decide)
    (by intro n; show (1000 : Int) + (n : Int) ≠ 0; omega)
    (by show List.Perm [3, 9, 0, 7, 1, 8, 2, 6, 5, 4] (List.range 10); decide)
  exact ⟨res, w1, h, by rw [h1]; rfl⟩

/-! ## The buckets of the histogram -/

theorem firstBucket_eq (marks : List Duration) (x : Duration) (bi : Nat)
    (hbi : bi < marks.length) (hx : x ≤ marks.getD bi 0)
    (hlt : ∀ j, j < bi → marks.getD j 0 < x) : firstBucket marks x = bi := by
  unfold firstBucket
  rw [List.findIdx_eq hbi]
  constructor
  · have : marks.getD bi 0 = marks[bi] := by
      simp [List.getD_eq_getElem?_getD, List.getElem?_eq_getElem hbi]
    rw [this] at hx
    simpa using hx
  · intro j hj
    have h1 := hlt j hj
    have : marks.getD j 0 = marks[j] := by
      simp [List.getD_eq_getElem?_getD, List.getElem?_eq_getElem (Nat.lt_trans hj hbi)]
    rw [this] at h1
    simpa using h1

theorem getD_set_incr (counts : List Int) (bi i : Nat) (h : bi < counts.length) :
    (counts.set bi (counts.getD bi 0 + 1)).getD i 0
      = counts.getD i 0 + (if bi = i then 1 else 0) := by
  simp only [List.getD_eq_getElem?_getD]
  by_cases e : bi = i
  · subst e
    rw [List.getElem?_set_self h]
    simp
  · rw [List.getElem?_set_ne e]
    simp [e]

/-- The counting loop gives every latency to its first bucket. -/
theorem histLoop_counts (buckets : List Duration) :
    ∀ (fuel : Nat) (lat : List Duration) (bi : Nat) (counts c : List Int),
      histLoop buckets fuel lat bi counts = .ok c →
      lat.Sorted (· ≤ ·) → (∀ x ∈ lat, ∀ j, j < bi → buckets.getD j 0 < x) →
      bi < buckets.length → counts.length = buckets.length →
      ∀ i, c.getD i 0 = counts.getD i 0
        + ((lat.filter (fun x => decide (firstBucket buckets x = i))).length : Int) := by
  intro fuel
  induction fuel with
  | zero =>
    intro lat bi counts c h _ _ _ _ i
    cases lat with
    | nil => simp only [histLoop, Except.ok.injEq] at h; subst h; simp
    | cons x r => simp [histLoop] at h
  | succ fuel ih =>
    intro lat bi counts c h hs hlt hbi hc i
    cases lat with
    | nil => simp only [histLoop, Except.ok.injEq] at h; subst h; simp
    | cons x rest =>
      have hs' : rest.Sorted (· ≤ ·) := List.Sorted.of_cons hs
      by_cases hx : x ≤ buckets.getD bi 0
      · simp only [histLoop, if_pos hx] at h
        have hfb := firstBucket_eq buckets x bi hbi hx
          (fun j hj => hlt x (List.mem_cons_self _ _) j hj)
        rw [ih rest bi _ c h hs' (fun y hy => hlt y (List.mem_cons_of_mem _ hy)) hbi
          (by simpa using hc) i, getD_set_incr counts bi i (by omega)]
        by_cases e : bi = i
        · simp [List.filter_cons, hfb, e]; ring
        · simp [List.filter_cons, hfb, e]
      · by_cases hb : bi + 1 < buckets.length
        · simp only [histLoop, if_neg hx, if_pos hb] at h
          refine ih (x :: rest) (bi + 1) counts c h hs ?_ hb hc i
          intro y hy j hj
          rcases Nat.eq_or_lt_of_le (Nat.lt_succ_iff.1 hj) with e | e
          · subst e
            have hxy : x ≤ y := by
              rcases List.mem_cons.1 hy with e2 | e2
              · rw [e2]
              · exact List.rel_of_sorted_cons hs y e2
            exact lt_of_lt_of_le (not_le.1 hx) hxy
          · exact hlt y hy j e
        · simp only [histLoop, if_neg hx, if_neg hb] at h
          cases h


theorem histMarks_sorted (resolution : Int) (slowest fastest : Duration)
    (hR : 1 ≤ resolution) (hle : fastest ≤ slowest) :
    (histMarks resolution slowest fastest).Sorted (· ≤ ·) := by
  have hle' : @LE.le Int _ fastest slowest := hle
  have hd : (0 : Int) ≤ slowest - fastest := by omega
  have hbs : 0 ≤ Int.tdiv (slowest - fastest) resolution := by
    rw [Int.tdiv_eq_ediv hd (by omega)]
    exact Int.ediv_nonneg hd (by omega)
  have hmul : Int.tdiv (slowest - fastest) resolution * resolution ≤ slowest - fastest := by
    rw [Int.tdiv_eq_ediv hd (by omega)]
    exact Int.ediv_mul_le _ (by omega)
  unfold histMarks
  simp only [List.Sorted, List.pairwise_append, List.pairwise_map, List.pairwise_singleton,
    List.mem_map, List.mem_singleton, true_and, and_true]
  constructor
  · refine List.Pairwise.imp ?_ (List.pairwise_lt_range _)
    intro a b hab
    have h1 : (a : Int) ≤ b := by exact_mod_cast Nat.le_of_lt hab
    have h2 := mul_le_mul_of_nonneg_left h1 hbs
    show @LE.le Int _ (fastest + Int.tdiv (slowest - fastest) resolution * (a : Int))
      (fastest + Int.tdiv (slowest - fastest) resolution * (b : Int))
    omega
  · rintro a ⟨i, hi, rfl⟩ b hb
    rw [hb]
    have hi' : (i : Int) ≤ resolution := by
      have h1 := List.mem_range.1 hi
      have h2 : (i : Int) < (resolution.toNat : Int) := by exact_mod_cast h1
      rw [Int.toNat_of_nonneg (by omega)] at h2
      omega
    have h3 := mul_le_mul_of_nonneg_left hi' hbs
    show @LE.le Int _ (fastest + Int.tdiv (slowest - fastest) resolution * (i : Int)) slowest
    omega

/-- The result of `histogram` in terms of the result of its counting loop. -/
theorem histogram_of_loop (resolution : Int) (latencies : List Duration)
    (slowest fastest : Duration) (hR : 1 ≤ resolution) (c : List Int)
    (hc : histLoop (histMarks resolution slowest fastest)
      (latencies.length + (histMarks resolution slowest fastest).length) latencies 0
      (List.replicate (histMarks resolution slowest fastest).length 0) = .ok c) :
    histogram resolution latencies slowest fastest =
      .ok (if 0 < (latencies.length : Int) then
        List.zipWith (fun m c =>
            { Mark := m, Count := c, Frequency := Int.tdiv c (latencies.length : Int) })
          (histMarks resolution slowest fastest) c
        else List.replicate (histMarks resolution slowest fastest).length Bucket.zero) := by
  have e1 : ¬ resolution < -1 := by omega
  have e2 : ¬ resolution = 0 := by omega
  have e3 : ¬ resolution = -1 := by omega
  simp only [histogram, if_neg e1, if_neg e2, if_neg e3, hc]
  split_ifs <;> rfl

/-- C16.  For a resolution of at least 1 and an ascending latency list, with
`fastest` its first and `slowest` its last element, the marks of the returned buckets
are non-decreasing; for a non-empty list they are `fastest + width * i` for `i < R`,
with `width = (slowest - fastest) / R` truncating, and then `slowest`; and the count
of bucket `i` is the number of latencies whose first bucket with a mark at least the
latency is bucket `i`. -/
theorem histogram_first_bucket (resolution : Int) (latencies : List Duration)
    (slowest fastest : Duration) (hR : 1 ≤ resolution)
    (hs : latencies.Sorted (· ≤ ·))
    (hf : latencies ≠ [] →
      latencies.head? = some fastest ∧ latencies.getLast? = some slowest) :
    ∃ buckets, histogram resolution latencies slowest fastest = .ok buckets ∧
      (buckets.map Bucket.Mark).Sorted (· ≤ ·) ∧
      (latencies ≠ [] → buckets.map Bucket.Mark =
        (List.range resolution.toNat).map
          (fun (i : Nat) => fastest + Int.tdiv (slowest - fastest) resolution * (i : Int))
          ++ [slowest]) ∧
      ∀ i, i < buckets.length →
        buckets[i]?.map Bucket.Count = some
          ((latencies.filter (fun x =>
            decide (firstBucket (buckets.map Bucket.Mark) x = i))).length : Int) := by
  have hl := histMarks_length resolution slowest fastest
  cases hlat : latencies with
  | nil =>
    obtain ⟨c, h1, h2, h3⟩ := histLoop_ok (histMarks resolution slowest fastest) slowest
      (by rw [hl]; simpa using histMarks_getD_last resolution slowest fastest)
      (([] : List Duration).length + (histMarks resolution slowest fastest).length) [] 0
      (List.replicate (histMarks resolution slowest fastest).length 0) (by simp)
      (by rw [hl]; omega) (by simp) (by simp)
    refine ⟨_, histogram_of_loop resolution [] slowest fastest hR c h1, ?_, ?_, ?_⟩
    · simp [List.Sorted, List.pairwise_replicate]
    · intro h; exact absurd rfl h
    · intro i hi
      simp only [List.length_nil, Nat.cast_zero, lt_self_iff_false, if_false,
        List.length_replicate] at hi ⊢
      rw [List.getElem?_replicate, if_pos hi]
      rfl
  | cons x rest =>
    have hne : latencies ≠ [] := by rw [hlat]; simp
    rw [← hlat]
    obtain ⟨hhead, hlast⟩ := hf hne
    have hlast' : latencies.getLast hne = slowest := by
      simpa [List.getLast?_eq_getLast _ hne] using hlast
    have hhead' : fastest ∈ latencies := List.mem_of_mem_head? hhead
    have hle : ∀ y ∈ latencies, y ≤ slowest := by
      intro y hy
      rw [← hlast']
      exact sorted_le_getLast latencies hs hne y hy
    obtain ⟨c, h1, h2, h3⟩ := histLoop_ok (histMarks resolution slowest fastest) slowest
      (by rw [hl]; simpa using histMarks_getD_last resolution slowest fastest)
      (latencies.length + (histMarks resolution slowest fastest).length) latencies 0
      (List.replicate (histMarks resolution slowest fastest).length 0) hle
      (by rw [hl]; omega) (by simp) (by omega)
    have hcnt := histLoop_counts (histMarks resolution slowest fastest) _ latencies 0 _ c h1 hs
      (fun _ _ j hj => absurd hj (Nat.not_lt_zero j)) (by rw [hl]; omega) (by simp)
    have hpos : 0 < (latencies.length : Int) := by
      have := List.length_pos.2 hne
      omega
    have hmark := map_Mark_zipWith (latencies.length : Int)
      (histMarks resolution slowest fastest) c (by rw [h2])
    have hcount := map_Count_zipWith (latencies.length : Int)
      (histMarks resolution slowest fastest) c (by rw [h2])
    refine ⟨_, histogram_of_loop resolution latencies slowest fastest hR c h1, ?_, ?_, ?_⟩
    · rw [if_pos hpos, hmark]
      exact histMarks_sorted resolution slowest fastest hR (hle fastest hhead')
    · intro _
      rw [if_pos hpos, hmark]
      rfl
    · intro i hi
      rw [if_pos hpos] at hi ⊢
      rw [hmark, ← List.getElem?_map, hcount]
      have hi' : i < c.length := by
        rw [List.length_zipWith, h2, min_self] at hi
        rw [h2]; exact hi
      rw [List.getElem?_eq_getElem hi']
      have := hcnt i
      simp only [List.getD_eq_getElem?_getD, List.getElem?_eq_getElem hi',
        List.getElem?_replicate, Option.getD_some] at this
      rw [this]
      have hi2 : i < (histMarks resolution slowest fastest).length := by rw [← h2]; exact hi'
      simp [hi2]

theorem histogram_first_bucket_witness :
    (1 : Int) ≤ 2 ∧ List.Sorted (· ≤ ·) ([1, 2, 3, 10] : List Duration) ∧
    ∃ buckets, histogram 2 [1, 2, 3, 10] 10 1 = .ok buckets ∧
      (buckets.map Bucket.Mark).Sorted (· ≤ ·) ∧
      (([1, 2, 3, 10] : List Duration) ≠ [] → buckets.map Bucket.Mark =
        (List.range (2 : Int).toNat).map
          (fun (i : Nat) => (1 : Duration) + Int.tdiv (10 - 1) 2 * (i : Int)) ++ [10]) ∧
      ∀ i, i < buckets.length →
        buckets[i]?.map Bucket.Count = some
          ((([1, 2, 3, 10] : List Duration).filter (fun x =>
            decide (firstBucket (buckets.map Bucket.Mark) x = i))).length : Int) :=
  ⟨by decide, by decide,
    histogram_first_bucket 2 [1, 2, 3, 10] 10 1 (by decide) (by decide) (by decide)⟩


/-! ## The average of a joined result -/

/-- C11, as the code has it.  For a non-empty list of Results that all have a
non-zero start, `JoinResults` sets `Average` to the sum of the `Duration`s of the
inputs divided (truncating) by the joined passed count, and to 0 when that count is
0. -/
theorem JoinResults_average (histogramBuckets : Int) (percentiles : List Int)
    (results : List Result) (w : World) (hR : 1 ≤ histogramBuckets)
    (hne : results ≠ []) (hstart : ∀ r ∈ results, r.Stats.Start ≠ 0) :
    ∃ res w1, JoinResults histogramBuckets percentiles results w = (.ok res, w1) ∧
      res.Stats.Passed
        = (results.map (fun r => r.Stats.Count - r.Stats.Skips - r.Stats.Errors)).sum ∧
      (res.Stats.Passed = 0 → res.Stats.Average = 0) ∧
      (res.Stats.Passed ≠ 0 → res.Stats.Average
        = Int.tdiv (results.map (fun r => r.Stats.Duration)).sum res.Stats.Passed) := by
  obtain ⟨hs, he⟩ := joinVars_starts results hstart
  obtain ⟨start, ss, hss⟩ := insertionSort_ne_nil (· ≤ ·) (joinVars results).starts
    (by rw [hs]; simpa using hne)
  obtain ⟨fin, es, hes⟩ := insertionSort_ne_nil (· ≥ ·) (joinVars results).ends
    (by rw [he]; simpa using hne)
  obtain ⟨hist, ts, _, _, hj⟩ := JoinResults_ok histogramBuckets percentiles results w hR
    start ss fin es hss hes
  obtain ⟨_, _, _, h4, h5, _⟩ := joinStep_foldl results
    { count := 0, ok := 0, skips := 0, err := 0, accduration := 0, starts := [],
      ends := [], durations := [], errorm := [] }
  have hacc : (joinVars results).accduration
      = (results.map (fun r => r.Stats.Duration)).sum := by
    rw [joinVars, h5]; simp
  refine ⟨_, _, hj, ?_, ?_, ?_⟩
  · show (joinVars results).ok = _
    rw [joinVars, h4]; simp
  · intro h0
    have h0' : (joinVars results).ok = 0 := h0
    show avgDuration _ _ = 0
    rw [avgDuration, if_pos h0']
  · intro h0
    have h0' : ¬ (joinVars results).ok = 0 := h0
    show avgDuration _ (joinVars results).ok = Int.tdiv _ (joinVars results).ok
    rw [avgDuration, if_neg h0', hacc]

/-- C11 as stated fails: two passes with the overlapping spans 1005..1021 and
1000..1010 and one passed invocation each join to the span 21 and the passed count 2,
but the joined average is (16 + 10) / 2 = 13, not 21 / 2 = 10. -/
theorem JoinResults_average_not_span :
    ∃ res w1, JoinResults DefaultHistogramBuckets DefaultPercentiles
        [{ ChildResults := [], Date := 1022, TestStats := [],
           Stats := { Stats.zero with
             Count := 1, Passed := 1, Durations := [4], Start := 1005, End := 1021,
             Duration := 16 } },
         { ChildResults := [], Date := 1011, TestStats := [],
           Stats := { Stats.zero with
             Count := 1, Passed := 1, Durations := [3], Start := 1000, End := 1010,
             Duration := 10 } }]
        ⟨fun n => 3000 + n, 0, []⟩ = (.ok res, w1) ∧
      res.Stats.Duration = 21 ∧ res.Stats.Passed = 2 ∧ res.Stats.Average = 13 ∧
      avgDuration res.Stats.Duration res.Stats.Passed = 10 :=
  ⟨_, _, rfl, by decide, by decide, by decide, by decide⟩


theorem JoinResults_average_witness :
    ∃ res w1, JoinResults DefaultHistogramBuckets DefaultPercentiles
        [{ ChildResults := [], Date := 1022, TestStats := [],
           Stats := { Stats.zero with
             Count := 1, Passed := 1, Durations := [4], Start := 1005, End := 1021,
             Duration := 16 } },
         { ChildResults := [], Date := 1011, TestStats := [],
           Stats := { Stats.zero with
             Count := 1, Passed := 1, Durations := [3], Start := 1000, End := 1010,
             Duration := 10 } }]
        ⟨fun n => 3000 + n, 0, []⟩ = (.ok res, w1) ∧
      res.Stats.Passed = 2 ∧ res.Stats.Average = 13 := by
  obtain ⟨res, w1, h, h1, _, h3⟩ := JoinResults_average
    DefaultHistogramBuckets DefaultPercentiles
    [{ ChildResults := [], Date := 1022, TestStats := [],
       Stats := { Stats.zero with
         Count := 1, Passed := 1, Durations := [4], Start := 1005, End := 1021,
         Duration := 16 } },
     { ChildResults := [], Date := 1011, TestStats := [],
       Stats := { Stats.zero with
         Count := 1, Passed := 1, Durations := [3], Start := 1000, End := 1010,
         Duration := 10 } }]
    ⟨fun n => 3000 + n, 0, []⟩ (by decide) (by simp)
    (by intro r hr; simp at hr; rcases hr with rfl | rfl <;> decide)
  have hp : res.Stats.Passed = 2 := by rw [h1]; rfl
  refine ⟨res, w1, h, hp, ?_⟩
  rw [h3 (by rw [hp]; decide), hp]
  rfl


/-! ## Per-test aggregation -/

/-- The variables of `calcTestStats` after its loop, from any starting values. -/
theorem calcStep_foldl (l : List TestResult) :
    ∀ a : TestVars,
      (l.foldl calcStep a).accduration = a.accduration + (l.map (fun r => r.Duration)).sum ∧
      (l.foldl calcStep a).ok = a.ok + ((passResults l).length : Int) ∧
      (l.foldl calcStep a).err = a.err
        + ((l.filter (fun r => decide (r.Outcome = TestOutcome.Fail))).length : Int) ∧
      (l.foldl calcStep a).skips = a.skips
        + ((l.filter (fun r => decide (r.Outcome = TestOutcome.Skip))).length : Int) ∧
      (l.foldl calcStep a).durations = a.durations
        ++ (passResults l).map (fun r => r.Duration) ∧
      (l.foldl calcStep a).starts = a.starts
        ++ (l.filter (fun r => !timeIsZero r.Start)).map (fun r => r.Start) ∧
      (l.foldl calcStep a).ends = a.ends
        ++ (l.filter (fun r => !timeIsZero r.Start)).map (fun r => r.End) := by
  induction l with
  | nil => intro a; simp [passResults]
  | cons r l ih =>
    intro a
    obtain ⟨h1, h2, h3, h4, h5, h6, h7⟩ := ih (calcStep a r)
    simp only [List.foldl_cons]
    rw [h1, h2, h3, h4, h5, h6, h7]
    unfold calcStep passResults
    cases hE : r.Error <;> cases hz : timeIsZero r.Start <;> cases hO : r.Outcome <;>
      simp [hz, hO, List.filter_cons] <;> refine ⟨by ring, ?_⟩ <;> ring


/-- What `calcTestStats` computes for one test, for a positive resolution. -/
theorem calcOne_eq (buckets : Int) (percentiles : List Int) (v : TestStats)
    (hR : 1 ≤ buckets) :
    ∃ hist,
      histogram buckets ((testVars v.TestResults).durations.insertionSort (· ≤ ·))
        (fastestSlowest ((testVars v.TestResults).durations.insertionSort (· ≤ ·))).2
        (fastestSlowest ((testVars v.TestResults).durations.insertionSort (· ≤ ·))).1
        = .ok hist ∧
      calcOne buckets percentiles v = .ok
        { TestResults := v.TestResults
          Stats :=
            { Average := avgDuration (testVars v.TestResults).accduration
                (testVars v.TestResults).ok
              Count := (v.TestResults.length : Int)
              Description := v.Stats.Description
              Distributions := distributions percentiles
                ((testVars v.TestResults).durations.insertionSort (· ≤ ·))
              Duration := timeSub
                (if 0 < ((testVars v.TestResults).ends.insertionSort (· ≥ ·)).length then
                  ((testVars v.TestResults).ends.insertionSort (· ≥ ·)).getD 0 0 else 0)
                (if 0 < ((testVars v.TestResults).starts.insertionSort (· ≤ ·)).length then
                  ((testVars v.TestResults).starts.insertionSort (· ≤ ·)).getD 0 0 else 0)
              Durations := (testVars v.TestResults).durations.insertionSort (· ≤ ·)
              End := v.Stats.End
              Errorm := (testVars v.TestResults).errorm
              Errors := (testVars v.TestResults).err
              Fastest := (fastestSlowest
                ((testVars v.TestResults).durations.insertionSort (· ≤ ·))).1
              Histogram := hist
              Passed := (testVars v.TestResults).ok
              Skips := (testVars v.TestResults).skips
              Slowest := (fastestSlowest
                ((testVars v.TestResults).durations.insertionSort (· ≤ ·))).2
              Start := v.Stats.Start } } := by
  obtain ⟨hist, hh⟩ := histogram_sorted_ok buckets (testVars v.TestResults).durations hR
  refine ⟨hist, hh, ?_⟩
  unfold testVars at hh
  unfold calcOne testVars
  simp only [hh]

theorem calcTestStats_get (buckets : Int) (percentiles : List Int) :
    ∀ (m m1 : List (String × TestStats)), calcTestStats buckets percentiles m = .ok m1 →
      ∀ id, (mapGet m id = none → mapGet m1 id = none) ∧
        (∀ v, mapGet m id = some v →
          ∃ v1, calcOne buckets percentiles v = .ok v1 ∧ mapGet m1 id = some v1) := by
  intro m
  induction m with
  | nil =>
    intro m1 h id
    simp only [calcTestStats, Except.ok.injEq] at h
    subst h
    simp [mapGet]
  | cons e m ih =>
    intro m1 h id
    obtain ⟨k, v⟩ := e
    simp only [calcTestStats] at h
    rcases hv : calcOne buckets percentiles v with e1 | v1
    · rw [hv] at h; cases h
    · rw [hv] at h
      rcases hm : calcTestStats buckets percentiles m with e2 | m2
      · rw [hm] at h; cases h
      · rw [hm] at h
        simp only [Except.ok.injEq] at h
        subst h
        obtain ⟨g1, g2⟩ := ih m2 hm id
        by_cases hk : k = id
        · have e1 : mapGet ((k, v) :: m) id = some v := by simp [mapGet, hk]
          have e2 : mapGet ((k, v1) :: m2) id = some v1 := by simp [mapGet, hk]
          rw [e1, e2]
          refine ⟨fun h0 => (by cases h0), fun v0 h0 => ?_⟩
          simp only [Option.some.injEq] at h0
          subst h0
          exact ⟨v1, hv, rfl⟩
        · have e1 : mapGet ((k, v) :: m) id = mapGet m id := by simp [mapGet, hk]
          have e2 : mapGet ((k, v1) :: m2) id = mapGet m2 id := by simp [mapGet, hk]
          rw [e1, e2]
          exact ⟨g1, g2⟩

theorem sum_pass_durations (l : List TestResult)
    (hzero : ∀ r ∈ l, r.Outcome ≠ TestOutcome.Pass → r.Duration = 0) :
    (l.map (fun r => r.Duration)).sum = ((passResults l).map (fun r => r.Duration)).sum := by
  induction l with
  | nil => rfl
  | cons r l ih =>
    have ih' := ih (fun r' hr' => hzero r' (List.mem_cons_of_mem _ hr'))
    unfold passResults at ih' ⊢
    by_cases hp : r.Outcome = TestOutcome.Pass
    · simp [List.filter_cons, hp, ih']
    · have h0 : @Eq Int r.Duration 0 := hzero r (List.mem_cons_self _ _) hp
      simp [List.filter_cons, hp, ih', h0]

/-- The average that `calcTestStats` sets for a test whose Skip and Fail results
carry the duration 0: the sum of the durations of its Pass results divided
(truncating) by the number of its Pass results, and 0 when it has no Pass result. -/
theorem calcTestStats_average_of_zero (buckets : Int) (percentiles : List Int)
    (testStats : List (String × TestStats)) (id : String) (v : TestStats)
    (hR : 1 ≤ buckets) (hget : mapGet testStats id = some v)
    (hzero : ∀ r ∈ v.TestResults, r.Outcome ≠ TestOutcome.Pass → r.Duration = 0) :
    ∃ m1 v1, calcTestStats buckets percentiles testStats = .ok m1 ∧
      mapGet m1 id = some v1 ∧ v1.TestResults = v.TestResults ∧
      (passResults v.TestResults = [] → v1.Stats.Average = 0) ∧
      (passResults v.TestResults ≠ [] → v1.Stats.Average =
        Int.tdiv ((passResults v.TestResults).map (fun r => r.Duration)).sum
          ((passResults v.TestResults).length : Int)) := by
  obtain ⟨m1, hm, _⟩ := calcTestStats_ok buckets percentiles hR testStats
  obtain ⟨v1, hv, hg⟩ := (calcTestStats_get buckets percentiles testStats m1 hm id).2 v hget
  obtain ⟨hist, _, hc⟩ := calcOne_eq buckets percentiles v hR
  rw [hc] at hv
  simp only [Except.ok.injEq] at hv
  obtain ⟨h1, h2, _⟩ := calcStep_foldl v.TestResults
    { durations := [], accduration := 0, starts := [], ends := [], errorm := [],
      ok := 0, skips := 0, err := 0 }
  have hacc : (testVars v.TestResults).accduration
      = ((passResults v.TestResults).map (fun r => r.Duration)).sum := by
    rw [testVars, h1, sum_pass_durations _ hzero]; simp
  have hok : (testVars v.TestResults).ok = ((passResults v.TestResults).length : Int) := by
    rw [testVars, h2]; simp
  refine ⟨m1, v1, hm, hg, by rw [← hv], ?_, ?_⟩
  · intro h0
    rw [← hv]
    show avgDuration _ _ = 0
    rw [hok, h0]
    rfl
  · intro h0
    have hpos : ¬ ((passResults v.TestResults).length : Int) = 0 := by
      have := List.length_pos.2 h0
      omega
    rw [← hv]
    show avgDuration _ _ = _
    rw [hok, hacc, avgDuration, if_neg hpos]


/-! ## Runs without invocations -/

theorem foldl_call_trace (g : String → Event) :
    ∀ (hs : List String) (w : World),
      (hs.foldl (fun w h => w.call (g h)) w).trace = w.trace ++ hs.map g := by
  intro hs
  induction hs with
  | nil => intro w; simp
  | cons a l ih => intro w; simp only [List.foldl_cons]; rw [ih]; simp [World.call]

theorem passRun_no_iterations (cfg : Config) (tests : List TestUnit) (w : World)
    (hI : cfg.Iterations ≤ 0) :
    (passRun cfg tests w).1.2
      = { durations := [], skipped := 0, errored := 0, errorm := [], testStats := [] } ∧
    (passRun cfg tests w).2.trace = w.trace ∧
    (passRun cfg tests w).2.clock = w.clock := by
  have h0 : cfg.Iterations.toNat = 0 := Int.toNat_of_nonpos hI
  simp [passRun, runner.Runner.Run, runner.New, h0, runIterations, Timer.Begin, Timer.Finish,
    World.now]

/-- A scheduler pass with a non-positive iteration count makes no call to a test unit
and notifies no handler. -/
theorem run_no_iterations (cfg : Config) (tests : List TestUnit) (w : World)
    (hdup : hasDuplicateIDs tests = false) (hR : 1 ≤ cfg.HistogramBuckets)
    (hI : cfg.Iterations ≤ 0) :
    ∃ res w1, Runner.run cfg tests w = (.ok res, w1) ∧
      w1.trace = w.trace ∧ res.Stats.Start = w.clock w.tick ∧
      res.Stats.Count = (tests.length : Int) * cfg.Iterations ∧
      res.TestStats = [] ∧ res.Stats.Durations = [] := by
  obtain ⟨hist, ts, _, hts, hrun⟩ := run_ok cfg tests w hdup hR
  obtain ⟨h1, h2, _⟩ := passRun_no_iterations cfg tests w hI
  refine ⟨_, _, hrun, ?_, rfl, rfl, ?_, ?_⟩
  · show (passRun cfg tests w).2.now.2.trace = _
    rw [← h2]; rfl
  · show ts = []
    rw [h1] at hts
    simp only [calcTestStats, Except.ok.injEq] at hts
    exact hts.symm
  · show List.insertionSort _ (passRun cfg tests w).1.2.durations = []
    rw [h1]; rfl


theorem joinTestStats_nil (rs : List Result) (h : ∀ r ∈ rs, r.TestStats = []) :
    joinTestStats rs = [] := by
  have key : ∀ (rs : List Result), (∀ r ∈ rs, r.TestStats = []) →
      ∀ m : List (String × TestStats),
        rs.foldl (fun testStats r =>
          r.TestStats.foldl (fun testStats (e : String × TestStats) =>
            match mapGet testStats e.1 with
            | some v =>
              mapSet testStats e.1 { v with TestResults := v.TestResults ++ e.2.TestResults }
            | none => mapSet testStats e.1 e.2) testStats) m = m := by
    intro rs
    induction rs with
    | nil => intro _ m; rfl
    | cons r rs ih =>
      intro h m
      simp only [List.foldl_cons, h r (List.mem_cons_self _ _), List.foldl_nil]
      exact ih (fun r' hr' => h r' (List.mem_cons_of_mem _ hr')) m
  exact key rs h []

/-- The fields of the result of `JoinResults`, for a non-empty list of inputs with
non-zero starts and a positive resolution. -/
theorem JoinResults_fields (histogramBuckets : Int) (percentiles : List Int)
    (results : List Result) (w : World) (hR : 1 ≤ histogramBuckets)
    (hne : results ≠ []) (hstart : ∀ r ∈ results, r.Stats.Start ≠ 0) :
    ∃ res, JoinResults histogramBuckets percentiles results w = (.ok res, w.now.2) ∧
      res.Stats.Count = (results.map (fun r => r.Stats.Count)).sum ∧
      res.Stats.Errors = (results.map (fun r => r.Stats.Errors)).sum ∧
      res.Stats.Skips = (results.map (fun r => r.Stats.Skips)).sum ∧
      res.Stats.Passed
        = (results.map (fun r => r.Stats.Count - r.Stats.Skips - r.Stats.Errors)).sum ∧
      res.Stats.Average = avgDuration (results.map (fun r => r.Stats.Duration)).sum
        (results.map (fun r => r.Stats.Count - r.Stats.Skips - r.Stats.Errors)).sum ∧
      res.Stats.Durations
        = ((results.map (fun r => r.Stats.Durations)).flatten).insertionSort (· ≤ ·) ∧
      res.Stats.Fastest = (fastestSlowest res.Stats.Durations).1 ∧
      res.Stats.Slowest = (fastestSlowest res.Stats.Durations).2 ∧
      res.Stats.Distributions = distributions percentiles res.Stats.Durations ∧
      histogram histogramBuckets res.Stats.Durations res.Stats.Slowest res.Stats.Fastest
        = .ok res.Stats.Histogram ∧
      (res.Stats.Start ∈ results.map (fun r => r.Stats.Start) ∧
        ∀ x ∈ results.map (fun r => r.Stats.Start), res.Stats.Start ≤ x) ∧
      (res.Stats.End ∈ results.map (fun r => r.Stats.End) ∧
        ∀ x ∈ results.map (fun r => r.Stats.End), x ≤ res.Stats.End) ∧
      res.Stats.Duration = timeSub res.Stats.End res.Stats.Start ∧
      res.Stats.Errorm = (joinVars results).errorm ∧
      calcTestStats histogramBuckets percentiles (joinTestStats results) = .ok res.TestStats := by
  obtain ⟨hs, he⟩ := joinVars_starts results hstart
  obtain ⟨start, ss, hss⟩ := insertionSort_ne_nil (· ≤ ·) (joinVars results).starts
    (by rw [hs]; simpa using hne)
  obtain ⟨fin, es, hes⟩ := insertionSort_ne_nil (· ≥ ·) (joinVars results).ends
    (by rw [he]; simpa using hne)
  obtain ⟨hist, ts, hh, hts, hj⟩ := JoinResults_ok histogramBuckets percentiles results w hR
    start ss fin es hss hes
  obtain ⟨h1, h2, h3, h4, h5, h6, _⟩ := joinStep_foldl results
    { count := 0, ok := 0, skips := 0, err := 0, accduration := 0, starts := [],
      ends := [], durations := [], errorm := [] }
  have a := insertionSort_le_head _ _ _ hss
  have b := insertionSort_ge_head _ _ _ hes
  rw [hs] at a
  rw [he] at b
  have hd : (joinVars results).durations
      = (results.map (fun r => r.Stats.Durations)).flatten := by
    rw [joinVars, h6]; simp
  have hok : (joinVars results).ok
      = (results.map (fun r => r.Stats.Count - r.Stats.Skips - r.Stats.Errors)).sum := by
    rw [joinVars, h4]; simp
  have hacc : (joinVars results).accduration
      = (results.map (fun r => r.Stats.Duration)).sum := by
    rw [joinVars, h5]; simp
  refine ⟨_, hj, ?_, ?_, ?_, hok, ?_, ?_, rfl, rfl, rfl, hh, a, b, rfl, rfl, hts⟩
  · show (joinVars results).count = _
    rw [joinVars, h1]; simp
  · show (joinVars results).err = _
    rw [joinVars, h2]; simp
  · show (joinVars results).skips = _
    rw [joinVars, h3]; simp
  · show avgDuration (joinVars results).accduration (joinVars results).ok = _
    rw [hacc, hok]
  · show List.insertionSort _ (joinVars results).durations = _
    rw [hd]


theorem flatten_map_nil {α β : Type} (l : List α) (f : α → List β)
    (h : ∀ x ∈ l, f x = []) : (l.map f).flatten = [] := by
  induction l with
  | nil => rfl
  | cons a l ih =>
    simp only [List.map_cons, List.flatten_cons, h a (List.mem_cons_self _ _), List.nil_append]
    exact ih (fun x hx => h x (List.mem_cons_of_mem _ hx))

/-- Where a run without iterations does return: with at least one user, a
non-positive iteration count, a resolution of at least 1 and test units with distinct
IDs, `Runner.Run` does not panic and returns a Result; the only events of the run are
the notifications that it started and that it is done, so no operation of a test unit
was invoked, and the Result holds no invocation record and no duration. -/
theorem no_iterations_no_invocation (cfg : Config) (tests : List TestUnit) (s : Schedule)
    (w : World) (hU : 1 ≤ cfg.Users) (hI : cfg.Iterations ≤ 0)
    (hR : 1 ≤ cfg.HistogramBuckets) (hid : (tests.map TestUnit.ID).Nodup)
    (hclock : ∀ n, w.clock n ≠ 0) (hs : cfg.Users ≠ 1 → s.complete cfg.Users.toNat) :
    ∃ res w1, Runner.Run cfg tests s w = (.ok res, w1) ∧
      w1.trace = w.trace
        ++ cfg.Handlers.map (fun h => Event.runnerStarted h cfg.ID cfg.Description
            ((tests.length : Int) * cfg.Iterations * cfg.Users))
        ++ cfg.Handlers.map Event.runnerDone ∧
      res.TestStats = [] ∧ res.Stats.Durations = [] := by
  have hdup : hasDuplicateIDs tests = false := by
    rcases h : hasDuplicateIDs tests with _ | _
    · rfl
    · exact absurd hid ((hasDuplicateIDs_iff_not_nodup tests).1 h)
  obtain ⟨w0, hw0d⟩ : ∃ w0, w0 = cfg.Handlers.foldl (fun w h => w.call
      (Event.runnerStarted h cfg.ID cfg.Description
        ((tests.length : Int) * cfg.Iterations * cfg.Users))) w := ⟨_, rfl⟩
  have hw0 : w0.trace = w.trace ++ cfg.Handlers.map (fun h => Event.runnerStarted h cfg.ID
      cfg.Description ((tests.length : Int) * cfg.Iterations * cfg.Users)) := by
    rw [hw0d, foldl_call_trace]
  have hc0 : w0.clock = w.clock := by rw [hw0d, foldl_call_clock]
  by_cases hU1 : cfg.Users = 1
  · obtain ⟨res, w1, hrun, ht, _, _, h5, h6⟩ := run_no_iterations cfg tests w0 hdup hR hI
    refine ⟨res, notifyDone cfg w1, ?_, ?_, h5, h6⟩
    · simp only [Runner.Run, if_pos hU1]
      rw [← hw0d, hrun]
    · rw [notifyDone, foldl_call_trace, ht, hw0]
  · have hU2 : 2 ≤ cfg.Users := by omega
    have hU0 : ¬ cfg.Users < 0 := by omega
    have hcomp := hs hU1
    have hlen : s.order.length = cfg.Users.toNat := by
      have := List.Perm.length_eq hcomp
      simpa using this
    -- every pass returns without a call
    have hpass : ∀ i, ∃ res w1, runPass cfg tests s w0 i = (.ok res, w1) ∧ w1.trace = [] ∧
        res.Stats.Start ≠ 0 ∧ res.TestStats = [] ∧ res.Stats.Durations = [] := by
      intro i
      obtain ⟨res, w1, h1, h2, h3, _, h5, h6⟩ := run_no_iterations cfg
        (tests.map (passUnit (s.view i))) (passWorld (s.view i) w0)
        (by rw [hasDuplicateIDs_passUnit]; exact hdup) hR hI
      refine ⟨res, w1, by rw [runPass, h1], by rw [h2]; rfl, ?_, h5, h6⟩
      rw [h3]
      show w0.clock _ ≠ 0
      rw [hc0]
      exact hclock _
    obtain ⟨rs, hc, hl, hP⟩ := collect_ok
      (fun r => r.Stats.Start ≠ 0 ∧ r.TestStats = [] ∧ r.Stats.Durations = [])
      (s.order.map (runPass cfg tests s w0))
      (by
        intro p hp
        obtain ⟨i, _, rfl⟩ := List.mem_map.1 hp
        obtain ⟨res, w1, h1, _, h3⟩ := hpass i
        exact ⟨res, by rw [h1], h3⟩)
    have htr : ((s.order.map (runPass cfg tests s w0)).map (fun p => p.2.trace)).flatten
        = [] := by
      apply flatten_map_nil
      intro p hp
      obtain ⟨i, _, rfl⟩ := List.mem_map.1 hp
      obtain ⟨res, w1, h1, h2, _⟩ := hpass i
      rw [h1]; exact h2
    have hne : rs ≠ [] := by
      intro e
      rw [e] at hl
      simp at hl
      omega
    obtain ⟨wj, hwj⟩ : ∃ wj : World, wj = { w0 with
        tick := w0.tick + ((s.order.map (runPass cfg tests s w0)).map (fun p => p.2.tick)).sum
        trace := w0.trace
          ++ ((s.order.map (runPass cfg tests s w0)).map (fun p => p.2.trace)).flatten } :=
      ⟨_, rfl⟩
    have hwjt : wj.trace = w0.trace := by rw [hwj]; simp only [htr, List.append_nil]
    obtain ⟨res, hj, _, _, _, _, _, hd, _, _, _, _, _, _, _, _, hts⟩ := JoinResults_fields
      cfg.HistogramBuckets cfg.Percentiles rs wj hR hne (fun r hr => (hP r hr).1)
    refine ⟨res, notifyDone cfg wj.now.2, ?_, ?_, ?_, ?_⟩
    · simp only [Runner.Run, if_neg hU1, if_neg hU0]
      rw [← hw0d]
      simp only [hc]
      rw [← hwj, hj]
    · rw [notifyDone, foldl_call_trace]
      show wj.trace ++ _ = _
      rw [hwjt, hw0]
    · rw [joinTestStats_nil rs (fun r hr => (hP r hr).2.1)] at hts
      simp only [calcTestStats, Except.ok.injEq] at hts
      exact hts.symm
    · rw [hd, flatten_map_nil rs _ (fun r hr => (hP r hr).2.2)]
      rfl

theorem no_iterations_no_invocation_witness :
    ∃ res w1, Runner.Run { defaultConfig with Iterations := -3, Users := 2, Handlers := ["log"] }
        [⟨"a", fun _ => (true, ""), fun _ => .ret [] none, fun _ a => .ret a none,
            fun _ _ => .ret () none⟩]
        ⟨fun i k => 2 * k + i, [1, 0]⟩ ⟨fun n => 1000 + n, 0, []⟩ = (.ok res, w1) ∧
      w1.trace = [Event.runnerStarted "log" "" "" (-6), Event.runnerDone "log"] ∧
      res.TestStats = [] ∧ res.Stats.Durations = [] := by
  obtain ⟨res, w1, h, h1, h2, h3⟩ := no_iterations_no_invocation
    { defaultConfig with Iterations := -3, Users := 2, Handlers := ["log"] }
    [⟨"a", fun _ => (true, ""), fun _ => .ret [] none, fun _ a => .ret a none,
        fun _ _ => .ret () none⟩]
    ⟨fun i k => 2 * k + i, [1, 0]⟩ ⟨fun n => 1000 + n, 0, []⟩
    (by decide) (by decide) (by decide) (by decide)
    (by intro n; show (1000 : Int) + (n : Int) ≠ 0; omega)
    (by intro _; show List.Perm [1, 0] (List.range 2); decide)
  exact ⟨res, w1, h, by rw [h1]; rfl, h2, h3⟩

/-- A run without iterations and with the resolution 0 panics in `histogram`, which
divides by the resolution. -/
theorem zero_buckets_panic :
    (Runner.Run { defaultConfig with Iterations := 0, HistogramBuckets := 0 }
        [⟨"a", fun _ => (true, ""), fun _ => .ret [] none, fun _ a => .ret a none,
            fun _ _ => .ret () none⟩]
        ⟨fun _ k => k, [0]⟩ ⟨fun n => 1000 + n, 0, []⟩).1
      = .error (.panic "integer divide by zero") :=
  rfl

/-- C13.  The code panics where the claim promises a Result: with `Users = 0` no pass
is started and `JoinResults` reads `starts[0]` of the empty slice, an index that
`calcTestStats` guards with `len(starts) > 0`; with a negative `Users` the call
`wg.Add` panics. -/
theorem zero_users_panic :
    (Runner.Run { defaultConfig with Users := 0 }
        [⟨"a", fun _ => (true, ""), fun _ => .ret [] none, fun _ a => .ret a none,
            fun _ _ => .ret () none⟩]
        ⟨fun _ k => k, []⟩ ⟨fun n => 1000 + n, 0, []⟩).1
      = .error (.panic "index out of range [0] with length 0") ∧
    (Runner.Run { defaultConfig with Users := -1 }
        [⟨"a", fun _ => (true, ""), fun _ => .ret [] none, fun _ a => .ret a none,
            fun _ _ => .ret () none⟩]
        ⟨fun _ k => k, []⟩ ⟨fun n => 1000 + n, 0, []⟩).1
      = .error (.panic "sync: negative WaitGroup counter") :=
  ⟨rfl, rfl⟩


/-! ## The durations of a result -/

/-- An invariant of the variables of a pass that every completion callback keeps is
kept by one iteration over the test units. -/
theorem runTests_inv (cfg : Config) (Q : RunVars → Nat → Prop)
    (hstep : ∀ t timer err a w n, Q a n → Q (testUnitDone cfg t timer err a w).1 (n + 1)) :
    ∀ (tests : List TestUnit) (a : RunVars) (w : World) (n : Nat), Q a n →
      Q (runTests (some (testUnitDone cfg)) tests a w).1 (n + tests.length) := by
  intro tests
  induction tests with
  | nil => intro a w n h; simpa [runTests] using h
  | cons t ts ih =>
    intro a w n h
    simp only [runTests, List.length_cons]
    have e : n + (ts.length + 1) = (n + 1) + ts.length := by omega
    rw [e]
    exact ih _ _ _ (hstep _ _ _ _ _ _ h)

theorem runIterations_inv (cfg : Config) (Q : RunVars → Nat → Prop)
    (hstep : ∀ t timer err a w n, Q a n → Q (testUnitDone cfg t timer err a w).1 (n + 1))
    (tests : List TestUnit) :
    ∀ (k : Nat) (a : RunVars) (w : World) (n : Nat), Q a n →
      Q (runIterations (some (testUnitDone cfg)) tests k a w).1 (n + k * tests.length) := by
  intro k
  induction k with
  | zero => intro a w n h; simpa [runIterations] using h
  | succ k ih =>
    intro a w n h
    simp only [runIterations]
    have e : n + (k + 1) * tests.length = (n + tests.length) + k * tests.length := by ring
    rw [e]
    exact ih _ _ _ (runTests_inv cfg Q hstep tests a w n h)

theorem passRun_inv (cfg : Config) (Q : RunVars → Nat → Prop)
    (hstep : ∀ t timer err a w n, Q a n → Q (testUnitDone cfg t timer err a w).1 (n + 1))
    (tests : List TestUnit) (w : World)
    (h0 : Q { durations := [], skipped := 0, errored := 0, errorm := [], testStats := [] } 0) :
    Q (passRun cfg tests w).1.2 (cfg.Iterations.toNat * tests.length) := by
  have := runIterations_inv cfg Q hstep tests cfg.Iterations.toNat _
    (Timer.Begin NewTimer w).2 0 h0
  rw [passRun_vars]
  simpa using this

theorem allResults_mapSet (m : List (String × TestStats)) (id : String) (tr : TestResult) :
    (allResults (mapSet m id
      { (match mapGet m id with
          | some v => v
          | none => { TestResults := [], Stats := Stats.zero }) with
        TestResults := (match mapGet m id with
          | some v => v
          | none => ({ TestResults := [], Stats := Stats.zero } : TestStats)).TestResults
            ++ [tr] })).Perm (allResults m ++ [tr]) := by
  induction m with
  | nil => simp [mapSet, mapGet, allResults]
  | cons e m ih =>
    obtain ⟨k1, v1⟩ := e
    by_cases h : k1 = id
    · simp only [mapGet, mapSet, if_pos h, allResults, List.flatMap_cons]
      rw [List.append_assoc, List.append_assoc]
      exact List.Perm.append_left _ List.perm_append_comm
    · simp only [mapGet, mapSet, if_neg h, allResults, List.flatMap_cons]
      rw [List.append_assoc]
      exact List.Perm.append_left _ ih

/-- Every completion callback adds one record, and either one skip, one error or
one duration, the duration of the record when its outcome is Pass. -/
theorem testUnitDone_records (cfg : Config) (t : TestUnit) (timer : Timer)
    (err : Option String) (a : RunVars) (w : World) :
    (testUnitDone cfg t timer err a w).1.skipped + (testUnitDone cfg t timer err a w).1.errored
        + ((testUnitDone cfg t timer err a w).1.durations.length : Int)
      = a.skipped + a.errored + (a.durations.length : Int) + 1 ∧
    (a.durations.Perm ((passResults (allResults a.testStats)).map (fun r => r.Duration)) →
      (testUnitDone cfg t timer err a w).1.durations.Perm
        ((passResults (allResults (testUnitDone cfg t timer err a w).1.testStats)).map
          (fun r => r.Duration))) := by
  unfold testUnitDone
  rcases he : (t.Enabled w.tick) with ⟨en, d⟩
  cases en <;> cases err
  all_goals
    simp only [Bool.not_true, Bool.not_false, Bool.false_eq_true, if_true, if_false,
      Option.isSome_none, Option.isSome_some, World.now]
    refine ⟨by first | ring1 | (simp; ring1), ?_⟩
    intro hp
    refine List.Perm.trans ?_ (List.Perm.map _ (List.Perm.filter _
      (allResults_mapSet _ _ _).symm))
    simp only [passResults] at hp
    simp [passResults, List.filter_append, List.filter_cons]
    first | exact hp | exact List.Perm.append_right _ hp

theorem calcOne_TestResults (buckets : Int) (percentiles : List Int) (v v1 : TestStats)
    (h : calcOne buckets percentiles v = .ok v1) : v1.TestResults = v.TestResults := by
  unfold calcOne at h
  simp only at h
  split at h
  · cases h
  · simp only [Except.ok.injEq] at h
    rw [← h]

theorem calcTestStats_allResults (buckets : Int) (percentiles : List Int) :
    ∀ (m m1 : List (String × TestStats)), calcTestStats buckets percentiles m = .ok m1 →
      allResults m1 = allResults m := by
  intro m
  induction m with
  | nil =>
    intro m1 h
    simp only [calcTestStats, Except.ok.injEq] at h
    rw [← h]
  | cons e m ih =>
    intro m1 h
    obtain ⟨k, v⟩ := e
    simp only [calcTestStats] at h
    rcases hv : calcOne buckets percentiles v with e1 | v1
    · rw [hv] at h; cases h
    · rw [hv] at h
      rcases hm : calcTestStats buckets percentiles m with e2 | m2
      · rw [hm] at h; cases h
      · rw [hm] at h
        simp only [Except.ok.injEq] at h
        rw [← h]
        simp only [allResults, List.flatMap_cons]
        rw [calcOne_TestResults _ _ _ _ hv]
        have := ih m2 hm
        simp only [allResults] at this
        rw [this]

theorem fastestSlowest_head_last (l : List Duration) (h : l ≠ []) :
    l.head? = some (fastestSlowest l).1 ∧ l.getLast? = some (fastestSlowest l).2 := by
  have hpos : 0 < l.length := List.length_pos.2 h
  simp only [fastestSlowest, if_pos hpos, List.getD_eq_getElem?_getD]
  constructor
  · rw [List.getElem?_eq_getElem hpos, List.head?_eq_head h, List.head_eq_getElem]
    rfl
  · rw [List.getElem?_eq_getElem (by omega), List.getLast?_eq_getLast _ h,
      List.getLast_eq_getElem]
    rfl

/-- C15, as the code has it.  In the Result of a scheduler pass `Durations` is sorted
ascending and is a permutation of the durations of the recorded invocations with
outcome Pass; its length is `Passed` when the iteration count is not negative.  In the
Result of `JoinResults`, `Durations` is sorted ascending and a permutation of the
concatenation of the `Durations` of the inputs, and `Fastest` and `Slowest` are its
first and last elements. -/
theorem durations_sorted_pass (cfg : Config) (tests : List TestUnit) (w : World)
    (histogramBuckets : Int) (percentiles : List Int) (results : List Result) (w2 : World)
    (hid : (tests.map TestUnit.ID).Nodup) (hR1 : 1 ≤ cfg.HistogramBuckets)
    (hR2 : 1 ≤ histogramBuckets) (hne : results ≠ [])
    (hstart : ∀ r ∈ results, r.Stats.Start ≠ 0) :
    (∃ res w1, Runner.run cfg tests w = (.ok res, w1) ∧
      res.Stats.Durations.Sorted (· ≤ ·) ∧
      res.Stats.Durations.Perm
        ((passResults (allResults res.TestStats)).map (fun r => r.Duration)) ∧
      (0 ≤ cfg.Iterations → (res.Stats.Durations.length : Int) = res.Stats.Passed)) ∧
    (∃ res w3, JoinResults histogramBuckets percentiles results w2 = (.ok res, w3) ∧
      res.Stats.Durations.Sorted (· ≤ ·) ∧
      res.Stats.Durations.Perm ((results.map (fun r => r.Stats.Durations)).flatten) ∧
      (res.Stats.Durations ≠ [] →
        res.Stats.Durations.head? = some res.Stats.Fastest ∧
        res.Stats.Durations.getLast? = some res.Stats.Slowest)) := by
  have hdup : hasDuplicateIDs tests = false := by
    rcases h : hasDuplicateIDs tests with _ | _
    · rfl
    · exact absurd hid ((hasDuplicateIDs_iff_not_nodup tests).1 h)
  constructor
  · obtain ⟨hist, ts, _, hts, hrun⟩ := run_ok cfg tests w hdup hR1
    have hinv := passRun_inv cfg
      (fun a n => a.skipped + a.errored + (a.durations.length : Int) = n ∧
        a.durations.Perm ((passResults (allResults a.testStats)).map (fun r => r.Duration)))
      (fun t timer err a w n h => by
        obtain ⟨h1, h2⟩ := testUnitDone_records cfg t timer err a w
        refine ⟨?_, h2 h.2⟩
        rw [h1, h.1]
        push_cast
        ring)
      tests w ⟨by simp, by simp [passResults, allResults]⟩
    obtain ⟨hcnt, hperm⟩ := hinv
    refine ⟨_, _, hrun, ?_, ?_, ?_⟩
    · exact List.sorted_insertionSort _ _
    · show (List.insertionSort _ (passRun cfg tests w).1.2.durations).Perm _
      refine (List.perm_insertionSort _ _).trans ?_
      show List.Perm _ ((passResults (allResults ts)).map _)
      rw [calcTestStats_allResults _ _ _ _ hts]
      exact hperm
    · intro hI
      show ((List.insertionSort _ (passRun cfg tests w).1.2.durations).length : Int)
        = (tests.length : Int) * cfg.Iterations - (passRun cfg tests w).1.2.errored
          - (passRun cfg tests w).1.2.skipped
      rw [(List.perm_insertionSort _ _).length_eq]
      have hc : ((cfg.Iterations.toNat * tests.length : Nat) : Int)
          = (tests.length : Int) * cfg.Iterations := by
        push_cast
        rw [Int.toNat_of_nonneg hI]
        ring
      rw [← hc, ← hcnt]
      ring
  · obtain ⟨res, hj, _, _, _, _, _, hd, hf, hs, _⟩ := JoinResults_fields histogramBuckets
      percentiles results w2 hR2 hne hstart
    refine ⟨res, _, hj, ?_, ?_, ?_⟩
    · rw [hd]; exact List.sorted_insertionSort _ _
    · rw [hd]; exact List.perm_insertionSort _ _
    · intro hne2
      rw [hf, hs]
      exact fastestSlowest_head_last _ hne2

theorem durations_sorted_pass_witness :
    (∃ res w1, Runner.run { defaultConfig with Iterations := 2 }
        [⟨"a", fun _ => (true, ""), fun _ => .ret [] none, fun _ a => .ret a none,
            fun _ _ => .ret () none⟩] ⟨fun n => 1000 + n * n, 0, []⟩ = (.ok res, w1) ∧
      res.Stats.Durations.Sorted (· ≤ ·) ∧ (res.Stats.Durations.length : Int) = res.Stats.Passed) ∧
    (∃ res w3, JoinResults DefaultHistogramBuckets DefaultPercentiles
        [{ ChildResults := [], Date := 1022, TestStats := [],
           Stats := { Stats.zero with
             Count := 2, Passed := 2, Durations := [4, 9], Start := 1005, End := 1021,
             Duration := 16 } },
         { ChildResults := [], Date := 1011, TestStats := [],
           Stats := { Stats.zero with
             Count := 1, Passed := 1, Durations := [6], Start := 1000, End := 1010,
             Duration := 10 } }]
        ⟨fun n => 3000 + n, 0, []⟩ = (.ok res, w3) ∧
      res.Stats.Durations.Sorted (· ≤ ·) ∧
      res.Stats.Durations.Perm [4, 9, 6]) := by
  obtain ⟨⟨res, w1, h1, h2, _, h4⟩, ⟨res2, w3, g1, g2, g3, _⟩⟩ := durations_sorted_pass
    { defaultConfig with Iterations := 2 }
    [⟨"a", fun _ => (true, ""), fun _ => .ret [] none, fun _ a => .ret a none,
        fun _ _ => .ret () none⟩] ⟨fun n => 1000 + n * n, 0, []⟩
    DefaultHistogramBuckets DefaultPercentiles
    [{ ChildResults := [], Date := 1022, TestStats := [],
       Stats := { Stats.zero with
         Count := 2, Passed := 2, Durations := [4, 9], Start := 1005, End := 1021,
         Duration := 16 } },
     { ChildResults := [], Date := 1011, TestStats := [],
       Stats := { Stats.zero with
         Count := 1, Passed := 1, Durations := [6], Start := 1000, End := 1010,
         Duration := 10 } }]
    ⟨fun n => 3000 + n, 0, []⟩ (by decide) (by decide) (by decide) (by simp)
    (by intro r hr; simp at hr; rcases hr with rfl | rfl <;> decide)
  exact ⟨⟨res, w1, h1, h2, h4 (by decide)⟩, ⟨res2, w3, g1, g2, g3⟩⟩

/-- C15 as stated fails: a pass with `Iterations = -1` over one test unit runs no
invocation, so `Durations` is empty, but `Passed` is `1 * (-1) - 0 - 0 = -1`. -/
theorem negative_iterations_passed :
    ∃ res w1, Runner.run { defaultConfig with Iterations := -1 }
        [⟨"a", fun _ => (true, ""), fun _ => .ret [] none, fun _ a => .ret a none,
            fun _ _ => .ret () none⟩] ⟨fun n => 1000 + n, 0, []⟩ = (.ok res, w1) ∧
      res.Stats.Durations = [] ∧ res.Stats.Passed = -1 ∧
      (res.Stats.Durations.length : Int) ≠ res.Stats.Passed :=
  ⟨_, _, rfl, by decide, by decide, by decide⟩

/-! ## Joining joined results -/

theorem sameMap_of_counts (a b : List (String × Int))
    (hc : ∀ k, mapCount a k = mapCount b k)
    (hk : ∀ k, k ∈ mapKeys a ↔ k ∈ mapKeys b) : sameMap a b := by
  intro k
  have h1 := mapGet_isSome_iff a k
  have h2 := mapGet_isSome_iff b k
  have h3 := hc k
  have h4 := hk k
  unfold mapCount at h3
  rcases ha : mapGet a k with _ | x <;> rcases hb : mapGet b k with _ | y
  · rfl
  · rw [ha] at h1; rw [hb] at h2
    simp only [Option.isSome_none, Option.isSome_some, Bool.false_eq_true, false_iff,
      true_iff] at h1 h2
    exact absurd (h4.2 h2) h1
  · rw [ha] at h1; rw [hb] at h2
    simp only [Option.isSome_none, Option.isSome_some, Bool.false_eq_true, false_iff,
      true_iff] at h1 h2
    exact absurd (h4.1 h1) h2
  · rw [ha, hb] at h3
    simp only [Option.getD_some] at h3
    rw [h3]

theorem joinVars_errorm (rs : List Result)
    (hmap : ∀ r ∈ rs, (mapKeys r.Stats.Errorm).Nodup) :
    (mapKeys (joinVars rs).errorm).Nodup ∧
    (∀ k, mapCount (joinVars rs).errorm k
      = (rs.map (fun r => mapCount r.Stats.Errorm k)).sum) ∧
    (∀ k, k ∈ mapKeys (joinVars rs).errorm ↔ ∃ r ∈ rs, k ∈ mapKeys r.Stats.Errorm) := by
  obtain ⟨g1, g2, g3⟩ := joinStep_foldl_errorm rs hmap
    { count := 0, ok := 0, skips := 0, err := 0, accduration := 0, starts := [],
      ends := [], durations := [], errorm := [] } (by simp [mapKeys])
  refine ⟨g1, ?_, ?_⟩
  · intro k; rw [joinVars, g2]; simp [mapCount, mapGet]
  · intro k; rw [joinVars, g3]; simp [mapKeys]

theorem insertionSort_perm_eq (l1 l2 : List Int) (h : l1.Perm l2) :
    l1.insertionSort (· ≤ ·) = l2.insertionSort (· ≤ ·) :=
  List.eq_of_perm_of_sorted
    (((List.perm_insertionSort _ l1).trans h).trans (List.perm_insertionSort _ l2).symm)
    (List.sorted_insertionSort _ l1) (List.sorted_insertionSort _ l2)

theorem least_unique (l : List Int) (x y : Int)
    (hx : x ∈ l ∧ ∀ z ∈ l, x ≤ z) (hy : y ∈ l ∧ ∀ z ∈ l, y ≤ z) : x = y :=
  le_antisymm (hx.2 y hy.1) (hy.2 x hx.1)

theorem greatest_unique (l : List Int) (x y : Int)
    (hx : x ∈ l ∧ ∀ z ∈ l, z ≤ x) (hy : y ∈ l ∧ ∀ z ∈ l, z ≤ y) : x = y :=
  le_antisymm (hy.2 x hx.1) (hx.2 y hy.1)

/-- The least element of `l1 ++ l2` from the least elements of the two parts. -/
theorem least_append (l1 l2 : List Int) (x y z : Int)
    (hx : x ∈ l1 ∧ ∀ u ∈ l1, x ≤ u) (hy : y ∈ l2 ∧ ∀ u ∈ l2, y ≤ u)
    (hz : z ∈ [x, y] ∧ ∀ u ∈ [x, y], z ≤ u) :
    z ∈ l1 ++ l2 ∧ ∀ u ∈ l1 ++ l2, z ≤ u := by
  have hzx : z ≤ x := hz.2 x (by simp)
  have hzy : z ≤ y := hz.2 y (by simp)
  constructor
  · rcases List.mem_cons.1 hz.1 with e | e
    · rw [e]; exact List.mem_append_left _ hx.1
    · simp only [List.mem_singleton] at e
      rw [e]; exact List.mem_append_right _ hy.1
  · intro u hu
    rcases List.mem_append.1 hu with h | h
    · exact le_trans hzx (hx.2 u h)
    · exact le_trans hzy (hy.2 u h)

theorem greatest_append (l1 l2 : List Int) (x y z : Int)
    (hx : x ∈ l1 ∧ ∀ u ∈ l1, u ≤ x) (hy : y ∈ l2 ∧ ∀ u ∈ l2, u ≤ y)
    (hz : z ∈ [x, y] ∧ ∀ u ∈ [x, y], u ≤ z) :
    z ∈ l1 ++ l2 ∧ ∀ u ∈ l1 ++ l2, u ≤ z := by
  have hzx : x ≤ z := hz.2 x (by simp)
  have hzy : y ≤ z := hz.2 y (by simp)
  constructor
  · rcases List.mem_cons.1 hz.1 with e | e
    · rw [e]; exact List.mem_append_left _ hx.1
    · simp only [List.mem_singleton] at e
      rw [e]; exact List.mem_append_right _ hy.1
  · intro u hu
    rcases List.mem_append.1 hu with h | h
    · exact le_trans (hx.2 u h) hzx
    · exact le_trans (hy.2 u h) hzy

/-- The Stats of the join of two Results with non-zero starts. -/
theorem JoinResults_pair (histogramBuckets : Int) (percentiles : List Int)
    (x y : Result) (w : World) (hR : 1 ≤ histogramBuckets)
    (hx : x.Stats.Start ≠ 0) (hy : y.Stats.Start ≠ 0)
    (hxm : (mapKeys x.Stats.Errorm).Nodup) (hym : (mapKeys y.Stats.Errorm).Nodup) :
    ∃ res, JoinResults histogramBuckets percentiles [x, y] w = (.ok res, w.now.2) ∧
      res.Stats.Count = x.Stats.Count + y.Stats.Count ∧
      res.Stats.Errors = x.Stats.Errors + y.Stats.Errors ∧
      res.Stats.Skips = x.Stats.Skips + y.Stats.Skips ∧
      res.Stats.Passed = (x.Stats.Count - x.Stats.Skips - x.Stats.Errors)
        + (y.Stats.Count - y.Stats.Skips - y.Stats.Errors) ∧
      res.Stats.Average = avgDuration (x.Stats.Duration + y.Stats.Duration)
        ((x.Stats.Count - x.Stats.Skips - x.Stats.Errors)
          + (y.Stats.Count - y.Stats.Skips - y.Stats.Errors)) ∧
      res.Stats.Durations
        = (x.Stats.Durations ++ y.Stats.Durations).insertionSort (· ≤ ·) ∧
      res.Stats.Fastest = (fastestSlowest res.Stats.Durations).1 ∧
      res.Stats.Slowest = (fastestSlowest res.Stats.Durations).2 ∧
      res.Stats.Distributions = distributions percentiles res.Stats.Durations ∧
      histogram histogramBuckets res.Stats.Durations res.Stats.Slowest res.Stats.Fastest
        = .ok res.Stats.Histogram ∧
      (res.Stats.Start ∈ [x.Stats.Start, y.Stats.Start] ∧
        ∀ u ∈ [x.Stats.Start, y.Stats.Start], res.Stats.Start ≤ u) ∧
      (res.Stats.End ∈ [x.Stats.End, y.Stats.End] ∧
        ∀ u ∈ [x.Stats.End, y.Stats.End], u ≤ res.Stats.End) ∧
      res.Stats.Duration = timeSub res.Stats.End res.Stats.Start ∧
      res.Stats.Start ≠ 0 ∧
      (mapKeys res.Stats.Errorm).Nodup ∧
      (∀ k, mapCount res.Stats.Errorm k
        = mapCount x.Stats.Errorm k + mapCount y.Stats.Errorm k) ∧
      (∀ k, k ∈ mapKeys res.Stats.Errorm
        ↔ k ∈ mapKeys x.Stats.Errorm ∨ k ∈ mapKeys y.Stats.Errorm) := by
  have hstart : ∀ r ∈ [x, y], r.Stats.Start ≠ 0 := by
    intro r hr
    simp only [List.mem_cons, List.mem_singleton, List.not_mem_nil, or_false] at hr
    rcases hr with rfl | rfl
    · exact hx
    · exact hy
  have hmap : ∀ r ∈ [x, y], (mapKeys r.Stats.Errorm).Nodup := by
    intro r hr
    simp only [List.mem_cons, List.mem_singleton, List.not_mem_nil, or_false] at hr
    rcases hr with rfl | rfl
    · exact hxm
    · exact hym
  obtain ⟨res, hj, h1, h2, h3, h4, h5, h6, h7, h8, h9, h10, h11, h12, h13, h14, _⟩ :=
    JoinResults_fields histogramBuckets percentiles [x, y] w hR (by simp) hstart
  obtain ⟨g1, g2, g3⟩ := joinVars_errorm [x, y] hmap
  refine ⟨res, hj, by simpa using h1, by simpa using h2, by simpa using h3,
    by simpa using h4, by simpa using h5, by simpa using h6, h7, h8, h9, h10,
    by simpa using h11, by simpa using h12, h13, ?_, ?_, ?_, ?_⟩
  · have hm := h11.1
    simp only [List.map_cons, List.map_nil, List.mem_cons, List.mem_singleton,
      List.not_mem_nil, or_false] at hm
    rcases hm with e | e
    · rw [e]; exact hx
    · rw [e]; exact hy
  · rw [h14]; exact g1
  · intro k; rw [h14, g2]; simp
  · intro k; rw [h14, g3]; simp

/-- C12, as the code has it.  For Results `a`, `b`, `c` produced by runs,
`JoinResults(JoinResults(a, b), c)` and `JoinResults(a, JoinResults(b, c))` agree on
Count, Passed, Errors, Skips, Errorm, Durations, Fastest, Slowest, Start, End,
Duration, Histogram and Distributions.  The two Averages divide by the same passed
count, but the first divides the span of `a` and `b` plus the duration of `c`, the
second the duration of `a` plus the span of `b` and `c`. -/
theorem JoinResults_assoc (histogramBuckets : Int) (percentiles : List Int)
    (a b c : Result) (w1 w2 w3 w4 : World) (hR : 1 ≤ histogramBuckets)
    (ha : FromRun a) (hb : FromRun b) (hc : FromRun c) :
    ∃ ab bc l r v1 v2 v3 v4,
      JoinResults histogramBuckets percentiles [a, b] w1 = (.ok ab, v1) ∧
      JoinResults histogramBuckets percentiles [ab, c] w2 = (.ok l, v2) ∧
      JoinResults histogramBuckets percentiles [b, c] w3 = (.ok bc, v3) ∧
      JoinResults histogramBuckets percentiles [a, bc] w4 = (.ok r, v4) ∧
      sameButAverage l.Stats r.Stats ∧
      l.Stats.Average = avgDuration (ab.Stats.Duration + c.Stats.Duration) l.Stats.Passed ∧
      r.Stats.Average = avgDuration (a.Stats.Duration + bc.Stats.Duration) l.Stats.Passed := by
  obtain ⟨ab, hab, p1, p2, p3, p4, p5, p6, p7, p8, p9, p10, p11, p12, p13, p14, p15, p16, p17⟩ :=
    JoinResults_pair histogramBuckets percentiles a b w1 hR ha.1 hb.1 ha.2.1 hb.2.1
  obtain ⟨bc, hbc, q1, q2, q3, q4, q5, q6, q7, q8, q9, q10, q11, q12, q13, q14, q15, q16, q17⟩ :=
    JoinResults_pair histogramBuckets percentiles b c w3 hR hb.1 hc.1 hb.2.1 hc.2.1
  obtain ⟨l, hl, l1, l2, l3, l4, l5, l6, l7, l8, l9, l10, l11, l12, l13, l14, l15, l16, l17⟩ :=
    JoinResults_pair histogramBuckets percentiles ab c w2 hR p14 hc.1 p15 hc.2.1
  obtain ⟨r, hr, r1, r2, r3, r4, r5, r6, r7, r8, r9, r10, r11, r12, r13, r14, r15, r16, r17⟩ :=
    JoinResults_pair histogramBuckets percentiles a bc w4 hR ha.1 q14 ha.2.1 q15
  have hD : l.Stats.Durations = r.Stats.Durations := by
    rw [l6, r6, p6, q6]
    apply insertionSort_perm_eq
    refine ((List.perm_insertionSort _ _).append_right _).trans ?_
    rw [List.append_assoc]
    exact ((List.perm_insertionSort _ _).append_left _).symm
  have hF : l.Stats.Fastest = r.Stats.Fastest := by rw [l7, r7, hD]
  have hS : l.Stats.Slowest = r.Stats.Slowest := by rw [l8, r8, hD]
  have hP : l.Stats.Passed = r.Stats.Passed := by
    rw [l4, r4, p1, p2, p3, q1, q2, q3]; ring
  have hStart : l.Stats.Start = r.Stats.Start := by
    have e1 := least_append [a.Stats.Start, b.Stats.Start] [c.Stats.Start]
      ab.Stats.Start c.Stats.Start l.Stats.Start p11 (by simp) l11
    have e2 := least_append [a.Stats.Start] [b.Stats.Start, c.Stats.Start]
      a.Stats.Start bc.Stats.Start r.Stats.Start (by simp) q11 r11
    exact least_unique _ _ _ e1 e2
  have hEnd : l.Stats.End = r.Stats.End := by
    have e1 := greatest_append [a.Stats.End, b.Stats.End] [c.Stats.End]
      ab.Stats.End c.Stats.End l.Stats.End p12 (by simp) l12
    have e2 := greatest_append [a.Stats.End] [b.Stats.End, c.Stats.End]
      a.Stats.End bc.Stats.End r.Stats.End (by simp) q12 r12
    exact greatest_unique _ _ _ e1 e2
  refine ⟨ab, bc, l, r, _, _, _, _, hab, hl, hbc, hr, ?_, ?_, ?_⟩
  · refine ⟨?_, hP, ?_, ?_, ?_, hD, hF, hS, hStart, hEnd, ?_, ?_, ?_⟩
    · rw [l1, r1, p1, q1]; ring
    · rw [l2, r2, p2, q2]; ring
    · rw [l3, r3, p3, q3]; ring
    · apply sameMap_of_counts
      · intro k; rw [l16, r16, p16, q16]; ring
      · intro k; rw [l17, r17, p17, q17]; tauto
    · rw [l13, r13, hStart, hEnd]
    · have h1 := l10
      rw [hD, hS, hF, r10] at h1
      simp only [Except.ok.injEq] at h1
      exact h1.symm
    · rw [l9, r9, hD]
  · rw [l5, l4]
  · rw [r5, ← r4, hP]

/-- C12 as stated fails on Average: three passes of one iteration over one passing
test unit, started at 1000, 1005 and 1100 and each lasting 9, join to the Average
`(14 + 9) / 3 = 7` when the first two are joined first, and to
`(9 + 104) / 3 = 37` when the last two are joined first. -/
theorem nested_join_average_differs :
    ∃ a b c ab l bc r,
      (Runner.run defaultConfig
        [⟨"a", fun _ => (true, ""), fun _ => .ret [] none, fun _ a => .ret a none,
            fun _ _ => .ret () none⟩] ⟨fun n => 1000 + n, 0, []⟩).1 = .ok a ∧
      (Runner.run defaultConfig
        [⟨"a", fun _ => (true, ""), fun _ => .ret [] none, fun _ a => .ret a none,
            fun _ _ => .ret () none⟩] ⟨fun n => 1005 + n, 0, []⟩).1 = .ok b ∧
      (Runner.run defaultConfig
        [⟨"a", fun _ => (true, ""), fun _ => .ret [] none, fun _ a => .ret a none,
            fun _ _ => .ret () none⟩] ⟨fun n => 1100 + n, 0, []⟩).1 = .ok c ∧
      FromRun a ∧ FromRun b ∧ FromRun c ∧
      (JoinResults DefaultHistogramBuckets DefaultPercentiles [a, b]
        ⟨fun n => 3000 + n, 0, []⟩).1 = .ok ab ∧
      (JoinResults DefaultHistogramBuckets DefaultPercentiles [ab, c]
        ⟨fun n => 3000 + n, 0, []⟩).1 = .ok l ∧
      (JoinResults DefaultHistogramBuckets DefaultPercentiles [b, c]
        ⟨fun n => 3000 + n, 0, []⟩).1 = .ok bc ∧
      (JoinResults DefaultHistogramBuckets DefaultPercentiles [a, bc]
        ⟨fun n => 3000 + n, 0, []⟩).1 = .ok r ∧
      l.Stats.Average = 7 ∧ r.Stats.Average = 37 ∧ l.Stats.Average ≠ r.Stats.Average :=
  ⟨_, _, _, _, _, _, _, rfl, rfl, rfl,
    ⟨by decide, by decide, by decide, by decide⟩,
    ⟨by decide, by decide, by decide, by decide⟩,
    ⟨by decide, by decide, by decide, by decide⟩,
    rfl, rfl, rfl, rfl, by decide, by decide, by decide⟩

theorem JoinResults_assoc_witness :
    ∃ ab bc l r v1 v2 v3 v4,
      JoinResults DefaultHistogramBuckets DefaultPercentiles
        [{ ChildResults := [], Date := 1010, TestStats := [],
           Stats := { Stats.zero with
             Count := 2, Passed := 1, Errors := 1, Errorm := [("boom", 1)],
             Durations := [4], Start := 1000, End := 1009, Duration := 9 } },
         { ChildResults := [], Date := 1015, TestStats := [],
           Stats := { Stats.zero with
             Count := 2, Passed := 1, Skips := 1, Durations := [7], Start := 1005,
             End := 1014, Duration := 9 } }]
        ⟨fun n => 3000 + n, 0, []⟩ = (.ok ab, v1) ∧
      JoinResults DefaultHistogramBuckets DefaultPercentiles
        [ab,
         { ChildResults := [], Date := 1110, TestStats := [],
           Stats := { Stats.zero with
             Count := 2, Passed := 1, Errors := 1, Errorm := [("boom", 1)],
             Durations := [2], Start := 1100, End := 1109, Duration := 9 } }]
        ⟨fun n => 3000 + n, 0, []⟩ = (.ok l, v2) ∧
      JoinResults DefaultHistogramBuckets DefaultPercentiles
        [{ ChildResults := [], Date := 1015, TestStats := [],
           Stats := { Stats.zero with
             Count := 2, Passed := 1, Skips := 1, Durations := [7], Start := 1005,
             End := 1014, Duration := 9 } },
         { ChildResults := [], Date := 1110, TestStats := [],
           Stats := { Stats.zero with
             Count := 2, Passed := 1, Errors := 1, Errorm := [("boom", 1)],
             Durations := [2], Start := 1100, End := 1109, Duration := 9 } }]
        ⟨fun n => 3000 + n, 0, []⟩ = (.ok bc, v3) ∧
      JoinResults DefaultHistogramBuckets DefaultPercentiles
        [{ ChildResults := [], Date := 1010, TestStats := [],
           Stats := { Stats.zero with
             Count := 2, Passed := 1, Errors := 1, Errorm := [("boom", 1)],
             Durations := [4], Start := 1000, End := 1009, Duration := 9 } },
         bc]
        ⟨fun n => 3000 + n, 0, []⟩ = (.ok r, v4) ∧
      sameButAverage l.Stats r.Stats ∧
      l.Stats.Average = avgDuration (ab.Stats.Duration + 9) l.Stats.Passed ∧
      r.Stats.Average = avgDuration (9 + bc.Stats.Duration) l.Stats.Passed :=
  JoinResults_assoc DefaultHistogramBuckets DefaultPercentiles _ _ _ _ _ _ _ (by decide)
    ⟨by decide, by decide, by decide, by decide⟩
    ⟨by decide, by decide, by decide, by decide⟩
    ⟨by decide, by decide, by decide, by decide⟩

/-! ## Joining in another order -/

theorem insertionSort_ge_perm_eq (l1 l2 : List Int) (h : l1.Perm l2) :
    l1.insertionSort (· ≥ ·) = l2.insertionSort (· ≥ ·) := by
  haveI : IsAntisymm Int (· ≥ ·) := ⟨fun a b h1 h2 => le_antisymm h2 h1⟩
  haveI : IsTotal Int (· ≥ ·) := ⟨fun a b => le_total b a⟩
  haveI : IsTrans Int (· ≥ ·) := ⟨fun a b c h1 h2 => le_trans h2 h1⟩
  exact List.eq_of_perm_of_sorted
    (((List.perm_insertionSort _ l1).trans h).trans (List.perm_insertionSort _ l2).symm)
    (List.sorted_insertionSort _ l1) (List.sorted_insertionSort _ l2)

/-- The joined Stats of a list of Results with non-zero starts do not depend on the
order of the list. -/
theorem JoinResults_perm_stats (histogramBuckets : Int) (percentiles : List Int)
    (rs1 rs2 : List Result) (w1 w2 : World) (hR : 1 ≤ histogramBuckets)
    (hne : rs1 ≠ []) (hp : rs1.Perm rs2)
    (hstart : ∀ r ∈ rs1, r.Stats.Start ≠ 0)
    (hmap : ∀ r ∈ rs1, (mapKeys r.Stats.Errorm).Nodup) :
    ∃ res1 res2,
      JoinResults histogramBuckets percentiles rs1 w1 = (.ok res1, w1.now.2) ∧
      JoinResults histogramBuckets percentiles rs2 w2 = (.ok res2, w2.now.2) ∧
      sameStats res1.Stats res2.Stats ∧
      calcTestStats histogramBuckets percentiles (joinTestStats rs1) = .ok res1.TestStats ∧
      calcTestStats histogramBuckets percentiles (joinTestStats rs2) = .ok res2.TestStats := by
  have hne2 : rs2 ≠ [] := by
    intro e
    rw [e] at hp
    exact hne hp.eq_nil
  have hstart2 : ∀ r ∈ rs2, r.Stats.Start ≠ 0 := fun r hr => hstart r (hp.mem_iff.2 hr)
  have hmap2 : ∀ r ∈ rs2, (mapKeys r.Stats.Errorm).Nodup :=
    fun r hr => hmap r (hp.mem_iff.2 hr)
  obtain ⟨l, hl, l1, l2, l3, l4, l5, l6, l7, l8, l9, l10, l11, l12, l13, l14, l15⟩ :=
    JoinResults_fields histogramBuckets percentiles rs1 w1 hR hne hstart
  obtain ⟨r, hr, r1, r2, r3, r4, r5, r6, r7, r8, r9, r10, r11, r12, r13, r14, r15⟩ :=
    JoinResults_fields histogramBuckets percentiles rs2 w2 hR hne2 hstart2
  obtain ⟨_, g2, g3⟩ := joinVars_errorm rs1 hmap
  obtain ⟨_, k2, k3⟩ := joinVars_errorm rs2 hmap2
  have hsum : ∀ f : Result → Int, (rs1.map f).sum = (rs2.map f).sum :=
    fun f => (hp.map f).sum_eq
  have hD : l.Stats.Durations = r.Stats.Durations := by
    rw [l6, r6]
    exact insertionSort_perm_eq _ _ (hp.map _).flatten
  have hF : l.Stats.Fastest = r.Stats.Fastest := by rw [l7, r7, hD]
  have hS : l.Stats.Slowest = r.Stats.Slowest := by rw [l8, r8, hD]
  have hStart : l.Stats.Start = r.Stats.Start := by
    refine least_unique (rs1.map (fun r => r.Stats.Start)) _ _ l11 ?_
    refine ⟨((hp.map _).mem_iff).2 r11.1, fun z hz => r11.2 z (((hp.map _).mem_iff).1 hz)⟩
  have hEnd : l.Stats.End = r.Stats.End := by
    refine greatest_unique (rs1.map (fun r => r.Stats.End)) _ _ l12 ?_
    refine ⟨((hp.map _).mem_iff).2 r12.1, fun z hz => r12.2 z (((hp.map _).mem_iff).1 hz)⟩
  refine ⟨l, r, hl, hr, ⟨⟨?_, ?_, ?_, ?_, ?_, hD, hF, hS, hStart, hEnd, ?_, ?_, ?_⟩, ?_⟩,
    l15, r15⟩
  · rw [l1, r1]; exact hsum _
  · rw [l4, r4]; exact hsum _
  · rw [l2, r2]; exact hsum _
  · rw [l3, r3]; exact hsum _
  · apply sameMap_of_counts
    · intro k; rw [l14, r14, g2, k2]; exact hsum _
    · intro k
      rw [l14, r14, g3, k3]
      constructor
      · rintro ⟨x, hx, hk⟩; exact ⟨x, hp.mem_iff.1 hx, hk⟩
      · rintro ⟨x, hx, hk⟩; exact ⟨x, hp.mem_iff.2 hx, hk⟩
  · rw [l13, r13, hStart, hEnd]
  · have h1 := l10
    rw [hD, hS, hF, r10] at h1
    simp only [Except.ok.injEq] at h1
    exact h1.symm
  · rw [l9, r9, hD]
  · rw [l5, r5, hsum, hsum]

theorem calcStep_errorm (a : TestVars) (r : TestResult) :
    (calcStep a r).errorm
      = match r.Error with
        | some e => mapAdd a.errorm e 1
        | none => a.errorm := by
  unfold calcStep
  rcases r.Error with _ | e <;> rcases r.Outcome <;> by_cases hz : timeIsZero r.Start <;>
    simp [hz]

theorem calcStep_foldl_errorm (l : List TestResult) :
    ∀ a : TestVars, (mapKeys a.errorm).Nodup →
      (mapKeys (l.foldl calcStep a).errorm).Nodup ∧
      (∀ k, mapCount (l.foldl calcStep a).errorm k = mapCount a.errorm k
        + ((l.filter (fun r => decide (r.Error = some k))).length : Int)) ∧
      (∀ k, k ∈ mapKeys (l.foldl calcStep a).errorm
        ↔ k ∈ mapKeys a.errorm ∨ ∃ r ∈ l, r.Error = some k) := by
  induction l with
  | nil => intro a h; simpa using h
  | cons r l ih =>
    intro a h
    have hn : (mapKeys (calcStep a r).errorm).Nodup := by
      rw [calcStep_errorm]
      rcases r.Error with _ | e
      · exact h
      · exact mapKeys_mapSet_nodup _ _ _ h
    obtain ⟨i1, i2, i3⟩ := ih (calcStep a r) hn
    simp only [List.foldl_cons]
    refine ⟨i1, ?_, ?_⟩
    · intro k
      have hf : (((r :: l).filter (fun r => decide (r.Error = some k))).length : Int)
          = (if r.Error = some k then 1 else 0)
            + ((l.filter (fun r => decide (r.Error = some k))).length : Int) := by
        by_cases hk : r.Error = some k
        · simp [List.filter_cons, hk]; ring
        · simp [List.filter_cons, hk]
      rw [i2 k, calcStep_errorm, hf]
      rcases he : r.Error with _ | e
      · simp
      · simp only [mapCount_mapAdd, Option.some.injEq]
        ring
    · intro k
      rw [i3 k, calcStep_errorm]
      rcases he : r.Error with _ | e
      · simp [he]
      · simp only [mem_mapKeys_mapAdd, List.mem_cons, exists_eq_or_imp, he, Option.some.injEq]
        constructor
        · rintro ((h1 | h1) | h1)
          · exact Or.inr (Or.inl h1.symm)
          · exact Or.inl h1
          · exact Or.inr (Or.inr h1)
        · rintro (h1 | h1 | h1)
          · exact Or.inl (Or.inr h1)
          · exact Or.inl (Or.inl h1.symm)
          · exact Or.inr h1

/-- What the loop of `calcTestStats` over the results of one test collects does not
depend on the order of the results, up to the order of the lists that are sorted
afterwards. -/
theorem testVars_perm (l1 l2 : List TestResult) (h : l1.Perm l2) :
    (testVars l1).accduration = (testVars l2).accduration ∧
    (testVars l1).ok = (testVars l2).ok ∧
    (testVars l1).err = (testVars l2).err ∧
    (testVars l1).skips = (testVars l2).skips ∧
    (testVars l1).durations.insertionSort (· ≤ ·)
      = (testVars l2).durations.insertionSort (· ≤ ·) ∧
    (testVars l1).starts.insertionSort (· ≤ ·)
      = (testVars l2).starts.insertionSort (· ≤ ·) ∧
    (testVars l1).ends.insertionSort (· ≥ ·)
      = (testVars l2).ends.insertionSort (· ≥ ·) ∧
    sameMap (testVars l1).errorm (testVars l2).errorm := by
  obtain ⟨a1, a2, a3, a4, a5, a6, a7⟩ := calcStep_foldl l1
    { durations := [], accduration := 0, starts := [], ends := [], errorm := [],
      ok := 0, skips := 0, err := 0 }
  obtain ⟨b1, b2, b3, b4, b5, b6, b7⟩ := calcStep_foldl l2
    { durations := [], accduration := 0, starts := [], ends := [], errorm := [],
      ok := 0, skips := 0, err := 0 }
  obtain ⟨_, c2, c3⟩ := calcStep_foldl_errorm l1
    { durations := [], accduration := 0, starts := [], ends := [], errorm := [],
      ok := 0, skips := 0, err := 0 } (by simp [mapKeys])
  obtain ⟨_, d2, d3⟩ := calcStep_foldl_errorm l2
    { durations := [], accduration := 0, starts := [], ends := [], errorm := [],
      ok := 0, skips := 0, err := 0 } (by simp [mapKeys])
  unfold testVars
  refine ⟨?_, ?_, ?_, ?_, ?_, ?_, ?_, ?_⟩
  · rw [a1, b1, (h.map _).sum_eq]
  · rw [a2, b2]
    unfold passResults
    rw [(h.filter _).length_eq]
  · rw [a3, b3, (h.filter _).length_eq]
  · rw [a4, b4, (h.filter _).length_eq]
  · rw [a5, b5]
    unfold passResults
    exact insertionSort_perm_eq _ _ (((h.filter _).map _).append_left _)
  · rw [a6, b6]
    exact insertionSort_perm_eq _ _ (((h.filter _).map _).append_left _)
  · rw [a7, b7]
    exact insertionSort_ge_perm_eq _ _ (((h.filter _).map _).append_left _)
  · apply sameMap_of_counts
    · intro k; rw [c2, d2, (h.filter _).length_eq]
    · intro k
      rw [c3, d3]
      constructor
      · rintro (h1 | ⟨x, hx, hk⟩)
        · exact Or.inl h1
        · exact Or.inr ⟨x, h.mem_iff.1 hx, hk⟩
      · rintro (h1 | ⟨x, hx, hk⟩)
        · exact Or.inl h1
        · exact Or.inr ⟨x, h.mem_iff.2 hx, hk⟩

/-- The recomputed Stats of one test do not depend on the order of its results. -/
theorem calcOne_perm (buckets : Int) (percentiles : List Int) (v1 v2 : TestStats)
    (hR : 1 ≤ buckets) (h : v1.TestResults.Perm v2.TestResults)
    (hs : v1.Stats.Start = v2.Stats.Start) (he : v1.Stats.End = v2.Stats.End) :
    ∃ u1 u2, calcOne buckets percentiles v1 = .ok u1 ∧
      calcOne buckets percentiles v2 = .ok u2 ∧ sameStats u1.Stats u2.Stats := by
  obtain ⟨h1, x1, y1⟩ := calcOne_eq buckets percentiles v1 hR
  obtain ⟨h2, x2, y2⟩ := calcOne_eq buckets percentiles v2 hR
  obtain ⟨t1, t2, t3, t4, t5, t6, t7, t8⟩ := testVars_perm _ _ h
  have hh : h1 = h2 := by
    rw [t5, x2] at x1
    simp only [Except.ok.injEq] at x1
    exact x1.symm
  refine ⟨_, _, y1, y2, ⟨⟨?_, ?_, ?_, ?_, ?_, ?_, ?_, ?_, ?_, ?_, ?_, ?_, ?_⟩, ?_⟩⟩
  · show (v1.TestResults.length : Int) = (v2.TestResults.length : Int)
    rw [h.length_eq]
  · exact t2
  · exact t3
  · exact t4
  · exact t8
  · exact t5
  · show (fastestSlowest _).1 = (fastestSlowest _).1
    rw [t5]
  · show (fastestSlowest _).2 = (fastestSlowest _).2
    rw [t5]
  · exact hs
  · exact he
  · show timeSub _ _ = timeSub _ _
    rw [t6, t7]
  · exact hh
  · show distributions _ _ = distributions _ _
    rw [t5]
  · show avgDuration _ _ = avgDuration _ _
    rw [t1, t2]

theorem mapGet_mem {β : Type} (m : List (String × β)) (k : String) (v : β)
    (h : mapGet m k = some v) : (k, v) ∈ m := by
  induction m with
  | nil => simp [mapGet] at h
  | cons e m ih =>
    obtain ⟨k1, v1⟩ := e
    simp only [mapGet] at h
    by_cases hk : k1 = k
    · rw [if_pos hk] at h
      simp only [Option.some.injEq] at h
      rw [hk, h]
      exact List.mem_cons_self _ _
    · rw [if_neg hk] at h
      exact List.mem_cons_of_mem _ (ih h)

theorem mapGet_none_of_not_mem {β : Type} (m : List (String × β)) (k : String)
    (h : k ∉ mapKeys m) : mapGet m k = none := by
  have h1 := mapGet_isSome_iff m k
  rcases hg : mapGet m k with _ | v
  · rfl
  · rw [hg] at h1
    exact absurd (h1.1 rfl) h

/-- The entry of test `id` after the inner loop of the closure of `JoinResults` over
the per-test map of one Result. -/
theorem joinInner_get (id : String) :
    ∀ (ts : List (String × TestStats)) (m : List (String × TestStats)),
      (mapKeys ts).Nodup →
      mapGet (ts.foldl (fun testStats (e : String × TestStats) =>
          match mapGet testStats e.1 with
          | some v =>
            mapSet testStats e.1 { v with TestResults := v.TestResults ++ e.2.TestResults }
          | none => mapSet testStats e.1 e.2) m) id
        = match mapGet ts id, mapGet m id with
          | none, x => x
          | some s, some v => some { v with TestResults := v.TestResults ++ s.TestResults }
          | some s, none => some s := by
  intro ts
  induction ts with
  | nil => intro m _; simp [mapGet]
  | cons e ts ih =>
    intro m hn
    obtain ⟨k, s0⟩ := e
    have hn1 : k ∉ mapKeys ts ∧ (mapKeys ts).Nodup := by
      simpa [mapKeys] using hn
    simp only [List.foldl_cons]
    rw [ih _ hn1.2]
    by_cases hk : k = id
    · subst hk
      rw [mapGet_none_of_not_mem ts k hn1.1]
      simp only [mapGet, if_true]
      rcases hm : mapGet m k with _ | v
      · simp [mapGet_mapSet]
      · simp [mapGet_mapSet]
    · have hg : ∀ x, mapGet (mapSet m k x) id = mapGet m id := by
        intro x; rw [mapGet_mapSet, if_neg hk]
      have hm : mapGet (match mapGet m k with
          | some v =>
            mapSet m k { v with TestResults := v.TestResults ++ s0.TestResults }
          | none => mapSet m k s0) id = mapGet m id := by
        rcases mapGet m k with _ | v
        · exact hg _
        · exact hg _
      rw [hm]
      simp only [mapGet, if_neg hk]

/-- The entry of test `id` in the per-test map that the closure of `JoinResults`
builds, started from the map `m`. -/
theorem joinOuter_get (id : String) :
    ∀ (rs : List Result) (m : List (String × TestStats)),
      (∀ r ∈ rs, (mapKeys r.TestStats).Nodup) →
      (∀ v, mapGet m id = some v →
        mapGet (rs.foldl (fun testStats r =>
          r.TestStats.foldl (fun testStats (e : String × TestStats) =>
            match mapGet testStats e.1 with
            | some v =>
              mapSet testStats e.1 { v with TestResults := v.TestResults ++ e.2.TestResults }
            | none => mapSet testStats e.1 e.2) testStats) m) id
          = some { v with TestResults := v.TestResults ++ testResultsOf rs id }) ∧
      (mapGet m id = none → (∀ r ∈ rs, mapGet r.TestStats id = none) →
        mapGet (rs.foldl (fun testStats r =>
          r.TestStats.foldl (fun testStats (e : String × TestStats) =>
            match mapGet testStats e.1 with
            | some v =>
              mapSet testStats e.1 { v with TestResults := v.TestResults ++ e.2.TestResults }
            | none => mapSet testStats e.1 e.2) testStats) m) id = none) ∧
      (mapGet m id = none → (∃ r ∈ rs, mapGet r.TestStats id ≠ none) →
        ∃ r ∈ rs, ∃ s, mapGet r.TestStats id = some s ∧
          mapGet (rs.foldl (fun testStats r =>
            r.TestStats.foldl (fun testStats (e : String × TestStats) =>
              match mapGet testStats e.1 with
              | some v =>
                mapSet testStats e.1 { v with TestResults := v.TestResults ++ e.2.TestResults }
              | none => mapSet testStats e.1 e.2) testStats) m) id
            = some { s with TestResults := testResultsOf rs id }) := by
  intro rs
  induction rs with
  | nil =>
    intro m _
    refine ⟨?_, ?_, ?_⟩
    · intro v hv; simp [testResultsOf, hv]
    · intro hm _; simpa using hm
    · rintro _ ⟨r, hr, _⟩; cases hr
  | cons r rs ih =>
    intro m hn
    have hnr := hn r (List.mem_cons_self _ _)
    have hnrs : ∀ x ∈ rs, (mapKeys x.TestStats).Nodup :=
      fun x hx => hn x (List.mem_cons_of_mem _ hx)
    have hin := joinInner_get id r.TestStats m hnr
    obtain ⟨i1, i2, i3⟩ := ih (r.TestStats.foldl (fun testStats (e : String × TestStats) =>
          match mapGet testStats e.1 with
          | some v =>
            mapSet testStats e.1 { v with TestResults := v.TestResults ++ e.2.TestResults }
          | none => mapSet testStats e.1 e.2) m) hnrs
    have hT : testResultsOf (r :: rs) id
        = (match mapGet r.TestStats id with
            | some s => s.TestResults
            | none => []) ++ testResultsOf rs id := by
      rcases hg : mapGet r.TestStats id with _ | s <;> simp [testResultsOf, hg]
    simp only [List.foldl_cons]
    refine ⟨?_, ?_, ?_⟩
    · intro v hv
      rw [hv] at hin
      rcases hr : mapGet r.TestStats id with _ | s
      · rw [hr] at hin hT
        rw [i1 v hin, hT]
        simp
      · rw [hr] at hin hT
        rw [i1 _ hin, hT]
        simp
    · intro hm hall
      have hr := hall r (List.mem_cons_self _ _)
      rw [hm, hr] at hin
      exact i2 hin (fun x hx => hall x (List.mem_cons_of_mem _ hx))
    · intro hm hex
      rw [hm] at hin
      rcases hr : mapGet r.TestStats id with _ | s
      · rw [hr] at hin hT
        obtain ⟨r0, hr0, hne⟩ := hex
        have hr0' : r0 ∈ rs := by
          rcases List.mem_cons.1 hr0 with e | e
          · rw [e] at hne; exact absurd hr hne
          · exact e
        obtain ⟨r1, hr1, s1, hs1, hg⟩ := i3 hin ⟨r0, hr0', hne⟩
        refine ⟨r1, List.mem_cons_of_mem _ hr1, s1, hs1, ?_⟩
        rw [hg, hT]
        simp
      · rw [hr] at hin hT
        refine ⟨r, List.mem_cons_self _ _, s, hr, ?_⟩
        rw [i1 s hin, hT]

/-- The recomputed per-test Stats of the join of Results produced by runs do not
depend on the order of the Results. -/
theorem joinTestStats_perm (buckets : Int) (percentiles : List Int)
    (rs1 rs2 : List Result) (m1 m2 : List (String × TestStats)) (hR : 1 ≤ buckets)
    (hp : rs1.Perm rs2) (hfrom : ∀ r ∈ rs1, FromRun r)
    (h1 : calcTestStats buckets percentiles (joinTestStats rs1) = .ok m1)
    (h2 : calcTestStats buckets percentiles (joinTestStats rs2) = .ok m2) :
    samePerTest m1 m2 := by
  intro id
  have hfrom2 : ∀ r ∈ rs2, FromRun r := fun r hr => hfrom r (hp.mem_iff.2 hr)
  obtain ⟨_, a2, a3⟩ := joinOuter_get id rs1 [] (fun r hr => (hfrom r hr).2.2.1)
  obtain ⟨_, b2, b3⟩ := joinOuter_get id rs2 [] (fun r hr => (hfrom2 r hr).2.2.1)
  obtain ⟨c1, c2⟩ := calcTestStats_get buckets percentiles _ _ h1 id
  obtain ⟨d1, d2⟩ := calcTestStats_get buckets percentiles _ _ h2 id
  by_cases hex : ∃ r ∈ rs1, mapGet r.TestStats id ≠ none
  · have hex2 : ∃ r ∈ rs2, mapGet r.TestStats id ≠ none := by
      obtain ⟨r, hr, hne⟩ := hex
      exact ⟨r, hp.mem_iff.1 hr, hne⟩
    obtain ⟨r1, hr1, s1, hs1, g1⟩ := a3 rfl hex
    obtain ⟨r2, hr2, s2, hs2, g2⟩ := b3 rfl hex2
    obtain ⟨u1, e1, f1⟩ := c2 _ g1
    obtain ⟨u2, e2, f2⟩ := d2 _ g2
    have z1 := (hfrom r1 hr1).2.2.2 _ (mapGet_mem _ _ _ hs1)
    have z2 := (hfrom2 r2 hr2).2.2.2 _ (mapGet_mem _ _ _ hs2)
    obtain ⟨x1, x2, y1, y2, hsame⟩ := calcOne_perm buckets percentiles
      { s1 with TestResults := testResultsOf rs1 id }
      { s2 with TestResults := testResultsOf rs2 id } hR
      (by
        show (testResultsOf rs1 id).Perm (testResultsOf rs2 id)
        exact List.Perm.flatMap_right _ hp)
      (by show s1.Stats.Start = s2.Stats.Start; rw [z1.1, z2.1])
      (by show s1.Stats.End = s2.Stats.End; rw [z1.2, z2.2])
    rw [e1] at y1
    rw [e2] at y2
    simp only [Except.ok.injEq] at y1 y2
    rw [f1, f2, y1, y2]
    exact hsame
  · have hall : ∀ r ∈ rs1, mapGet r.TestStats id = none := by
      intro r hr
      by_contra hne
      exact hex ⟨r, hr, hne⟩
    have hall2 : ∀ r ∈ rs2, mapGet r.TestStats id = none :=
      fun r hr => hall r (hp.mem_iff.2 hr)
    rw [c1 (a2 rfl hall), d1 (b2 rfl hall2)]
    trivial

/-! ## Results produced by runs -/

theorem mem_mapSet {β : Type} (m : List (String × β)) (k : String) (v : β)
    (e : String × β) (h : e ∈ mapSet m k v) : e ∈ m ∨ e = (k, v) := by
  induction m with
  | nil =>
    simp only [mapSet, List.mem_singleton] at h
    exact Or.inr h
  | cons e1 m ih =>
    obtain ⟨k1, v1⟩ := e1
    simp only [mapSet] at h
    by_cases hk : k1 = k
    · rw [if_pos hk] at h
      rcases List.mem_cons.1 h with h1 | h1
      · right; rw [h1, hk]
      · left; exact List.mem_cons_of_mem _ h1
    · rw [if_neg hk] at h
      rcases List.mem_cons.1 h with h1 | h1
      · left; rw [h1]; exact List.mem_cons_self _ _
      · rcases ih h1 with h2 | h2
        · left; exact List.mem_cons_of_mem _ h2
        · right; exact h2

/-- Every completion callback keeps the maps of a pass free of repeated keys and the
per-test Stats untouched. -/
theorem testUnitDone_shape (cfg : Config) (t : TestUnit) (timer : Timer)
    (err : Option String) (a : RunVars) (w : World)
    (h : (mapKeys a.errorm).Nodup ∧ (mapKeys a.testStats).Nodup ∧
      ∀ e ∈ a.testStats, e.2.Stats = Stats.zero) :
    (mapKeys (testUnitDone cfg t timer err a w).1.errorm).Nodup ∧
    (mapKeys (testUnitDone cfg t timer err a w).1.testStats).Nodup ∧
    ∀ e ∈ (testUnitDone cfg t timer err a w).1.testStats, e.2.Stats = Stats.zero := by
  obtain ⟨h1, h2, h3⟩ := h
  have hv : (match mapGet a.testStats t.ID with
      | some v => v
      | none => ({ TestResults := [], Stats := Stats.zero } : TestStats)).Stats
        = Stats.zero := by
    rcases hg : mapGet a.testStats t.ID with _ | v
    · rfl
    · exact h3 _ (mapGet_mem _ _ _ hg)
  unfold testUnitDone
  rcases ht : t.Enabled w.tick with ⟨en, description⟩
  simp only
  cases en <;> cases err
  all_goals
    simp only [Bool.not_true, Bool.not_false, Bool.false_eq_true, if_true, if_false,
      Option.isSome_none, Option.isSome_some, World.now]
    refine ⟨?_, mapKeys_mapSet_nodup _ _ _ h2, ?_⟩
    · first | exact h1 | exact mapKeys_mapSet_nodup _ _ _ h1
    · intro e he
      rcases mem_mapSet _ _ _ _ he with h4 | h4
      · exact h3 e h4
      · rw [h4]; exact hv

theorem calcOne_Start_End (buckets : Int) (percentiles : List Int) (v v1 : TestStats)
    (h : calcOne buckets percentiles v = .ok v1) :
    v1.Stats.Start = v.Stats.Start ∧ v1.Stats.End = v.Stats.End := by
  unfold calcOne at h
  simp only at h
  split at h
  · cases h
  · simp only [Except.ok.injEq] at h
    rw [← h]
    exact ⟨rfl, rfl⟩

theorem calcTestStats_mem (buckets : Int) (percentiles : List Int) :
    ∀ (m m1 : List (String × TestStats)), calcTestStats buckets percentiles m = .ok m1 →
      mapKeys m1 = mapKeys m ∧
      ∀ e ∈ m1, ∃ v, (e.1, v) ∈ m ∧ calcOne buckets percentiles v = .ok e.2 := by
  intro m
  induction m with
  | nil =>
    intro m1 h
    simp only [calcTestStats, Except.ok.injEq] at h
    rw [← h]
    exact ⟨rfl, by simp⟩
  | cons e m ih =>
    intro m1 h
    obtain ⟨k, v⟩ := e
    simp only [calcTestStats] at h
    rcases hv : calcOne buckets percentiles v with e1 | v1
    · rw [hv] at h; cases h
    · rw [hv] at h
      rcases hm : calcTestStats buckets percentiles m with e2 | m2
      · rw [hm] at h; cases h
      · rw [hm] at h
        simp only [Except.ok.injEq] at h
        rw [← h]
        obtain ⟨i1, i2⟩ := ih m2 hm
        refine ⟨by simp only [mapKeys, List.map_cons] at i1 ⊢; rw [i1], ?_⟩
        intro x hx
        rcases List.mem_cons.1 hx with e | e
        · rw [e]
          exact ⟨v, List.mem_cons_self _ _, hv⟩
        · obtain ⟨y, hy1, hy2⟩ := i2 x e
          exact ⟨y, List.mem_cons_of_mem _ hy1, hy2⟩

/-- A Result that one scheduler pass returns, on a clock that never shows the zero
time, has a non-zero start, maps without repeated keys, and per-test Stats whose
Start and End are zero. -/
theorem run_FromRun (cfg : Config) (tests : List TestUnit) (w : World)
    (hdup : hasDuplicateIDs tests = false) (hR : 1 ≤ cfg.HistogramBuckets)
    (hclock : ∀ n, w.clock n ≠ 0) :
    ∃ res w1, Runner.run cfg tests w = (.ok res, w1) ∧ FromRun res := by
  obtain ⟨hist, ts, _, hts, hrun⟩ := run_ok cfg tests w hdup hR
  obtain ⟨res, w1, hrun2, _, hstart⟩ := run_count_start cfg tests w hdup hR
  have hinv := passRun_inv cfg
    (fun a _ => (mapKeys a.errorm).Nodup ∧ (mapKeys a.testStats).Nodup ∧
      ∀ e ∈ a.testStats, e.2.Stats = Stats.zero)
    (fun t timer err a w _ h => testUnitDone_shape cfg t timer err a w h) tests w
    (by simp [mapKeys])
  obtain ⟨q1, q2, q3⟩ := hinv
  obtain ⟨k1, k2⟩ := calcTestStats_mem _ _ _ _ hts
  have hres : res = _ := (Prod.mk.inj (hrun2.symm.trans hrun)).1 |> Except.ok.inj
  refine ⟨res, w1, hrun2, ?_, ?_, ?_, ?_⟩
  · rw [hstart]; exact hclock _
  · rw [hres]; exact q1
  · rw [hres]
    show (mapKeys ts).Nodup
    rw [k1]; exact q2
  · rw [hres]
    intro e he
    obtain ⟨v, hv1, hv2⟩ := k2 e he
    obtain ⟨s1, s2⟩ := calcOne_Start_End _ _ _ _ hv2
    have hz := q3 _ hv1
    simp only at hz
    rw [s1, s2, hz]
    exact ⟨rfl, rfl⟩

/-- The per-test map that the closure of `JoinResults` builds has no repeated key, and
the Stats of its entries are Stats of entries of the inputs. -/
theorem joinTestStats_shape (P : Stats → Prop) :
    ∀ (rs : List Result) (m : List (String × TestStats)),
      (mapKeys m).Nodup → (∀ e ∈ m, P e.2.Stats) →
      (∀ r ∈ rs, ∀ e ∈ r.TestStats, P e.2.Stats) →
      (mapKeys (rs.foldl (fun testStats r =>
          r.TestStats.foldl (fun testStats (e : String × TestStats) =>
            match mapGet testStats e.1 with
            | some v =>
              mapSet testStats e.1 { v with TestResults := v.TestResults ++ e.2.TestResults }
            | none => mapSet testStats e.1 e.2) testStats) m)).Nodup ∧
      ∀ e ∈ rs.foldl (fun testStats r =>
          r.TestStats.foldl (fun testStats (e : String × TestStats) =>
            match mapGet testStats e.1 with
            | some v =>
              mapSet testStats e.1 { v with TestResults := v.TestResults ++ e.2.TestResults }
            | none => mapSet testStats e.1 e.2) testStats) m, P e.2.Stats := by
  have inner : ∀ (ts : List (String × TestStats)) (m : List (String × TestStats)),
      (mapKeys m).Nodup → (∀ e ∈ m, P e.2.Stats) → (∀ e ∈ ts, P e.2.Stats) →
      (mapKeys (ts.foldl (fun testStats (e : String × TestStats) =>
            match mapGet testStats e.1 with
            | some v =>
              mapSet testStats e.1 { v with TestResults := v.TestResults ++ e.2.TestResults }
            | none => mapSet testStats e.1 e.2) m)).Nodup ∧
      ∀ e ∈ ts.foldl (fun testStats (e : String × TestStats) =>
            match mapGet testStats e.1 with
            | some v =>
              mapSet testStats e.1 { v with TestResults := v.TestResults ++ e.2.TestResults }
            | none => mapSet testStats e.1 e.2) m, P e.2.Stats := by
    intro ts
    induction ts with
    | nil => intro m h1 h2 _; exact ⟨h1, h2⟩
    | cons x ts ih =>
      intro m h1 h2 h3
      simp only [List.foldl_cons]
      apply ih
      · rcases mapGet m x.1 with _ | v
        · exact mapKeys_mapSet_nodup _ _ _ h1
        · exact mapKeys_mapSet_nodup _ _ _ h1
      · intro e he
        rcases hg : mapGet m x.1 with _ | v
        · rw [hg] at he
          rcases mem_mapSet _ _ _ _ he with h4 | h4
          · exact h2 e h4
          · rw [h4]; exact h3 x (List.mem_cons_self _ _)
        · rw [hg] at he
          rcases mem_mapSet _ _ _ _ he with h4 | h4
          · exact h2 e h4
          · rw [h4]; exact h2 (x.1, v) (mapGet_mem _ _ _ hg)
      · exact fun e he => h3 e (List.mem_cons_of_mem _ he)
  intro rs
  induction rs with
  | nil => intro m h1 h2 _; exact ⟨h1, h2⟩
  | cons r rs ih =>
    intro m h1 h2 h3
    simp only [List.foldl_cons]
    obtain ⟨i1, i2⟩ := inner r.TestStats m h1 h2 (h3 r (List.mem_cons_self _ _))
    exact ih _ i1 i2 (fun x hx => h3 x (List.mem_cons_of_mem _ hx))

/-- The join of Results produced by runs has again a non-zero start, maps without
repeated keys, and per-test Stats whose Start and End are zero. -/
theorem JoinResults_FromRun (histogramBuckets : Int) (percentiles : List Int)
    (rs : List Result) (w : World) (hR : 1 ≤ histogramBuckets) (hne : rs ≠ [])
    (hfrom : ∀ r ∈ rs, FromRun r) :
    ∃ res, JoinResults histogramBuckets percentiles rs w = (.ok res, w.now.2) ∧
      FromRun res := by
  obtain ⟨res, hj, _, _, _, _, _, _, _, _, _, _, h11, _, _, h14, h15⟩ :=
    JoinResults_fields histogramBuckets percentiles rs w hR hne (fun r hr => (hfrom r hr).1)
  obtain ⟨g1, _, _⟩ := joinVars_errorm rs (fun r hr => (hfrom r hr).2.1)
  obtain ⟨k1, k2⟩ := calcTestStats_mem _ _ _ _ h15
  obtain ⟨s1, s2⟩ := joinTestStats_shape (fun s => s.Start = 0 ∧ s.End = 0) rs []
    (by simp [mapKeys]) (by simp) (fun r hr => (hfrom r hr).2.2.2)
  refine ⟨res, hj, ?_, ?_, ?_, ?_⟩
  · obtain ⟨r, hr, e⟩ := List.mem_map.1 h11.1
    rw [← e]; exact (hfrom r hr).1
  · rw [h14]; exact g1
  · rw [k1]; exact s1
  · intro e he
    obtain ⟨v, hv1, hv2⟩ := k2 e he
    obtain ⟨c1, c2⟩ := calcOne_Start_End _ _ _ _ hv2
    have hz := s2 _ hv1
    simp only at hz
    rw [c1, c2]
    exact hz

theorem collect_map (f : Nat → Except Fault Result × World) (g : Nat → Result) :
    ∀ l : List Nat, (∀ i ∈ l, (f i).1 = .ok (g i)) → collect (l.map f) = .ok (l.map g) := by
  intro l
  induction l with
  | nil => intro _; rfl
  | cons i l ih =>
    intro h
    have h1 := h i (List.mem_cons_self _ _)
    have h2 := ih (fun j hj => h j (List.mem_cons_of_mem _ hj))
    rcases hf : f i with ⟨x, y⟩
    rw [hf] at h1
    simp only at h1
    simp only [List.map_cons, hf, h1, collect, h2]

/-- The passes of a run with several users all return Results as `JoinResults`
expects them, and the slice of their Results follows the order of the schedule. -/
theorem passes_FromRun (cfg : Config) (tests : List TestUnit) (view : Nat → Nat → Nat)
    (w : World) (hR : 1 ≤ cfg.HistogramBuckets) (hdup : hasDuplicateIDs tests = false)
    (hclock : ∀ n, w.clock n ≠ 0) :
    ∃ g : Nat → Result, (∀ i, FromRun (g i)) ∧
      ∀ order : List Nat,
        collect (order.map (runPass cfg tests ⟨view, order⟩ w)) = .ok (order.map g) := by
  have hex : ∀ i, ∃ res, (Runner.run cfg (tests.map (passUnit (view i)))
      (passWorld (view i) w)).1 = .ok res ∧ FromRun res := by
    intro i
    obtain ⟨res, w1, h1, h2⟩ := run_FromRun cfg (tests.map (passUnit (view i)))
      (passWorld (view i) w) (by rw [hasDuplicateIDs_passUnit]; exact hdup) hR
      (fun n => hclock _)
    exact ⟨res, by rw [h1], h2⟩
  refine ⟨fun i =>
    match (Runner.run cfg (tests.map (passUnit (view i))) (passWorld (view i) w)).1 with
    | .ok r => r
    | .error _ => { ChildResults := [], Date := 0, Stats := Stats.zero, TestStats := [] },
    ?_, ?_⟩
  · intro i
    obtain ⟨res, h1, h2⟩ := hex i
    simp only [h1]
    exact h2
  · intro order
    apply collect_map
    intro i _
    obtain ⟨res, h1, _⟩ := hex i
    show (Runner.run cfg (tests.map (passUnit (view i))) (passWorld (view i) w)).1 = _
    simp only [h1]

/-- The combined result of a run with several users does not depend on the order in
which the passes append their results. -/
theorem Run_order (cfg : Config) (tests : List TestUnit) (view : Nat → Nat → Nat)
    (order1 order2 : List Nat) (w : World) (hU : 2 ≤ cfg.Users)
    (hR : 1 ≤ cfg.HistogramBuckets) (hid : (tests.map TestUnit.ID).Nodup)
    (hclock : ∀ n, w.clock n ≠ 0)
    (h1 : Schedule.complete ⟨view, order1⟩ cfg.Users.toNat)
    (h2 : Schedule.complete ⟨view, order2⟩ cfg.Users.toNat) :
    ∃ res1 res2 v1 v2,
      Runner.Run cfg tests ⟨view, order1⟩ w = (.ok res1, v1) ∧
      Runner.Run cfg tests ⟨view, order2⟩ w = (.ok res2, v2) ∧
      sameStats res1.Stats res2.Stats ∧ samePerTest res1.TestStats res2.TestStats := by
  have hdup : hasDuplicateIDs tests = false := by
    rcases h : hasDuplicateIDs tests with _ | _
    · rfl
    · exact absurd hid ((hasDuplicateIDs_iff_not_nodup tests).1 h)
  have hperm : order1.Perm order2 := List.Perm.trans h1 (List.Perm.symm h2)
  have hlen : order1.length = cfg.Users.toNat := by
    have := List.Perm.length_eq h1
    simpa using this
  have hne : order1 ≠ [] := by
    intro e
    rw [e] at hlen
    simp at hlen
    omega
  obtain ⟨w0, hw0⟩ : ∃ w0, w0 = cfg.Handlers.foldl (fun w h => w.call
      (.runnerStarted h cfg.ID cfg.Description
        ((tests.length : Int) * cfg.Iterations * cfg.Users))) w := ⟨_, rfl⟩
  have hclock0 : ∀ n, w0.clock n ≠ 0 := by
    rw [hw0, foldl_call_clock]; exact hclock
  obtain ⟨g, hg, hc⟩ := passes_FromRun cfg tests view w0 hR hdup hclock0
  obtain ⟨wa, hwa⟩ : ∃ wa : World, wa = { w0 with
      tick := w0.tick + ((order1.map (runPass cfg tests ⟨view, order1⟩ w0)).map
        (fun p => p.2.tick)).sum
      trace := w0.trace ++ ((order1.map (runPass cfg tests ⟨view, order1⟩ w0)).map
        (fun p => p.2.trace)).flatten } := ⟨_, rfl⟩
  obtain ⟨wb, hwb⟩ : ∃ wb : World, wb = { w0 with
      tick := w0.tick + ((order2.map (runPass cfg tests ⟨view, order2⟩ w0)).map
        (fun p => p.2.tick)).sum
      trace := w0.trace ++ ((order2.map (runPass cfg tests ⟨view, order2⟩ w0)).map
        (fun p => p.2.trace)).flatten } := ⟨_, rfl⟩
  have hfrom : ∀ r ∈ order1.map g, FromRun r := by
    intro r hr
    obtain ⟨i, _, e⟩ := List.mem_map.1 hr
    rw [← e]; exact hg i
  obtain ⟨res1, res2, j1, j2, hsame, t1, t2⟩ := JoinResults_perm_stats cfg.HistogramBuckets
    cfg.Percentiles (order1.map g) (order2.map g) wa wb hR (by simpa using hne)
    (hperm.map g) (fun r hr => (hfrom r hr).1) (fun r hr => (hfrom r hr).2.1)
  have hper := joinTestStats_perm cfg.HistogramBuckets cfg.Percentiles _ _ _ _ hR
    (hperm.map g) hfrom t1 t2
  have hU1 : ¬ cfg.Users = 1 := by omega
  have hU0 : ¬ cfg.Users < 0 := by omega
  refine ⟨res1, res2, notifyDone cfg wa.now.2, notifyDone cfg wb.now.2, ?_, ?_, hsame, hper⟩
  · simp only [Runner.Run, if_neg hU1, if_neg hU0]
    rw [← hw0, hc order1, ← hwa]
    simp only [j1]
  · simp only [Runner.Run, if_neg hU1, if_neg hU0]
    rw [← hw0, hc order2, ← hwb]
    simp only [j2]

/-! ## The order of the passes -/

/-- C17.  For a resolution of at least 1 and a percentile list, `JoinResults` over a
non-empty list of Results produced by runs and over any permutation of that list
returns, with the same Count, Passed, Errors, Skips, Errorm, Durations, Fastest,
Slowest, Start, End, Duration, Average, Histogram and Distributions and, for every test
ID, the same per-test Stats.  So two runs with at least two users over test units with
distinct IDs, in which every pass sees the same, return results with the same Stats
and per-test Stats whatever the order in which the passes append their results. -/
theorem JoinResults_order_independent (histogramBuckets : Int) (percentiles : List Int)
    (hR : 1 ≤ histogramBuckets) :
    (∀ (rs1 rs2 : List Result) (w1 w2 : World), rs1 ≠ [] → rs1.Perm rs2 →
      (∀ r ∈ rs1, FromRun r) →
      ∃ res1 res2 v1 v2,
        JoinResults histogramBuckets percentiles rs1 w1 = (.ok res1, v1) ∧
        JoinResults histogramBuckets percentiles rs2 w2 = (.ok res2, v2) ∧
        sameStats res1.Stats res2.Stats ∧ samePerTest res1.TestStats res2.TestStats) ∧
    (∀ (cfg : Config) (tests : List TestUnit) (view : Nat → Nat → Nat)
        (order1 order2 : List Nat) (w : World),
      cfg.HistogramBuckets = histogramBuckets → cfg.Percentiles = percentiles →
      2 ≤ cfg.Users → (tests.map TestUnit.ID).Nodup → (∀ n, w.clock n ≠ 0) →
      Schedule.complete ⟨view, order1⟩ cfg.Users.toNat →
      Schedule.complete ⟨view, order2⟩ cfg.Users.toNat →
      ∃ res1 res2 v1 v2,
        Runner.Run cfg tests ⟨view, order1⟩ w = (.ok res1, v1) ∧
        Runner.Run cfg tests ⟨view, order2⟩ w = (.ok res2, v2) ∧
        sameStats res1.Stats res2.Stats ∧ samePerTest res1.TestStats res2.TestStats) := by
  refine ⟨?_, ?_⟩
  · intro rs1 rs2 w1 w2 hne hp hfrom
    obtain ⟨res1, res2, j1, j2, hsame, t1, t2⟩ := JoinResults_perm_stats histogramBuckets
      percentiles rs1 rs2 w1 w2 hR hne hp (fun r hr => (hfrom r hr).1)
      (fun r hr => (hfrom r hr).2.1)
    exact ⟨res1, res2, _, _, j1, j2, hsame,
      joinTestStats_perm histogramBuckets percentiles _ _ _ _ hR hp hfrom t1 t2⟩
  · intro cfg tests view order1 order2 w hb hps hU hid hclock h1 h2
    exact Run_order cfg tests view order1 order2 w hU (by rw [hb]; exact hR) hid hclock h1 h2

theorem JoinResults_order_independent_witness :
    (∃ res1 res2 v1 v2,
      JoinResults DefaultHistogramBuckets DefaultPercentiles
        [{ ChildResults := [], Date := 1010,
           TestStats := [("x", { TestResults := [⟨"", 1004, 4, 1004, none, "x",
                                   TestOutcome.Pass, 1000⟩],
                                 Stats := Stats.zero }),
                         ("y", { TestResults := [⟨"boom", 1009, 3, 1008, some "boom", "y",
                                   TestOutcome.Fail, 1005⟩],
                                 Stats := Stats.zero })],
           Stats := { Stats.zero with
             Count := 2, Passed := 1, Errors := 1, Errorm := [("boom", 1)],
             Durations := [4], Start := 1000, End := 1009, Duration := 9 } },
         { ChildResults := [], Date := 1015,
           TestStats := [("y", { TestResults := [⟨"", 1012, 7, 1012, none, "y",
                                   TestOutcome.Pass, 1005⟩],
                                 Stats := Stats.zero })],
           Stats := { Stats.zero with
             Count := 1, Passed := 1, Durations := [7], Start := 1005,
             End := 1014, Duration := 9 } }]
        ⟨fun n => 3000 + n, 0, []⟩ = (.ok res1, v1) ∧
      JoinResults DefaultHistogramBuckets DefaultPercentiles
        [{ ChildResults := [], Date := 1015,
           TestStats := [("y", { TestResults := [⟨"", 1012, 7, 1012, none, "y",
                                   TestOutcome.Pass, 1005⟩],
                                 Stats := Stats.zero })],
           Stats := { Stats.zero with
             Count := 1, Passed := 1, Durations := [7], Start := 1005,
             End := 1014, Duration := 9 } },
         { ChildResults := [], Date := 1010,
           TestStats := [("x", { TestResults := [⟨"", 1004, 4, 1004, none, "x",
                                   TestOutcome.Pass, 1000⟩],
                                 Stats := Stats.zero }),
                         ("y", { TestResults := [⟨"boom", 1009, 3, 1008, some "boom", "y",
                                   TestOutcome.Fail, 1005⟩],
                                 Stats := Stats.zero })],
           Stats := { Stats.zero with
             Count := 2, Passed := 1, Errors := 1, Errorm := [("boom", 1)],
             Durations := [4], Start := 1000, End := 1009, Duration := 9 } }]
        ⟨fun n => 4000 + n, 0, []⟩ = (.ok res2, v2) ∧
      sameStats res1.Stats res2.Stats ∧ samePerTest res1.TestStats res2.TestStats) ∧
    (∃ res1 res2 v1 v2,
      Runner.Run { defaultConfig with Users := 2, Iterations := 2 }
        [⟨"a", fun _ => (true, ""), fun _ => .ret [] none, fun _ a => .ret a none,
            fun _ _ => .ret () none⟩,
         ⟨"b", fun _ => (true, ""), fun _ => .ret [] none,
            fun k a => .ret a (if k % 2 = 0 then some "boom" else none),
            fun _ _ => .ret () none⟩]
        ⟨fun i k => 2 * k + i, [0, 1]⟩ ⟨fun n => 1000 + n, 0, []⟩ = (.ok res1, v1) ∧
      Runner.Run { defaultConfig with Users := 2, Iterations := 2 }
        [⟨"a", fun _ => (true, ""), fun _ => .ret [] none, fun _ a => .ret a none,
            fun _ _ => .ret () none⟩,
         ⟨"b", fun _ => (true, ""), fun _ => .ret [] none,
            fun k a => .ret a (if k % 2 = 0 then some "boom" else none),
            fun _ _ => .ret () none⟩]
        ⟨fun i k => 2 * k + i, [1, 0]⟩ ⟨fun n => 1000 + n, 0, []⟩ = (.ok res2, v2) ∧
      sameStats res1.Stats res2.Stats ∧ samePerTest res1.TestStats res2.TestStats) :=
  ⟨(JoinResults_order_independent DefaultHistogramBuckets DefaultPercentiles (by decide)).1
      _ _ _ _ (by simp) (List.Perm.swap _ _ _)
      (by
        intro r hr
        simp only [List.mem_cons, List.mem_singleton, List.not_mem_nil, or_false] at hr
        rcases hr with rfl | rfl <;> exact ⟨by decide, by decide, by decide, by decide⟩),
    (JoinResults_order_independent DefaultHistogramBuckets DefaultPercentiles (by decide)).2
      { defaultConfig with Users := 2, Iterations := 2 } _ _ _ _ _ rfl rfl (by decide)
      (by decide)
      (by intro n; show (1000 : Int) + (n : Int) ≠ 0; omega)
      (by show List.Perm [0, 1] (List.range 2); decide)
      (by show List.Perm [1, 0] (List.range 2); decide)⟩

/-! ## The average of one test in a pass -/

theorem runTestUnit_timer_of_error (t : TestUnit) (w : World)
    (h : (runTestUnit t w).1.2 ≠ none) : (runTestUnit t w).1.1 = NewTimer := by
  revert h
  unfold runTestUnit
  rcases hp : t.Prepare w.tick with ⟨args, _ | e⟩ | r | _
  · have htick : (Timer.Begin NewTimer (w.call (.prepare t.ID))).2.tick = w.tick + 2 := rfl
    simp only [htick]
    rcases ht : t.Test (w.tick + 2) args with ⟨args2, _ | e⟩ | r | _
    · have htick2 : (Timer.Finish (Timer.Begin NewTimer (w.call (.prepare t.ID))).1
          ((Timer.Begin NewTimer (w.call (.prepare t.ID))).2.call (.test t.ID))).2.tick
          = w.tick + 4 := rfl
      simp only [htick2]
      rcases hc : t.Cleanup (w.tick + 4) args2 with ⟨u, _ | e⟩ | r | _ <;> simp
    · simp
    · simp
    · simp
  · simp
  · simp
  · simp

/-- A completion callback that gets a timer without duration whenever it records Skip
or Fail keeps every Skip and Fail record of the pass without duration. -/
theorem testUnitDone_zero (cfg : Config) (t : TestUnit) (timer : Timer)
    (err : Option String) (a : RunVars) (w : World)
    (hT : (err.isSome = true ∨ (t.Enabled w.tick).1 = false) → timer.Duration = 0)
    (h : ∀ e ∈ a.testStats, ∀ r ∈ e.2.TestResults,
      r.Outcome ≠ TestOutcome.Pass → r.Duration = 0) :
    ∀ e ∈ (testUnitDone cfg t timer err a w).1.testStats, ∀ r ∈ e.2.TestResults,
      r.Outcome ≠ TestOutcome.Pass → r.Duration = 0 := by
  have hv : ∀ r ∈ (match mapGet a.testStats t.ID with
      | some v => v
      | none => ({ TestResults := [], Stats := Stats.zero } : TestStats)).TestResults,
      r.Outcome ≠ TestOutcome.Pass → r.Duration = 0 := by
    rcases hg : mapGet a.testStats t.ID with _ | v
    · intro r hr; cases hr
    · exact h _ (mapGet_mem _ _ _ hg)
  revert hT
  unfold testUnitDone
  rcases ht : t.Enabled w.tick with ⟨en, description⟩
  simp only
  cases en <;> cases err
  all_goals
    simp only [Bool.not_true, Bool.not_false, Bool.false_eq_true, if_true, if_false,
      Option.isSome_none, Option.isSome_some, World.now]
    intro hT e he r hr hne
    rcases mem_mapSet _ _ _ _ he with h4 | h4
    · exact h e h4 r hr hne
    · rw [h4] at hr
      simp only [List.mem_append, List.mem_singleton] at hr
      rcases hr with h5 | h5
      · exact hv r h5 hne
      · rw [h5] at hne ⊢
        first
          | exact absurd rfl hne
          | exact hT (Or.inl rfl)
          | exact hT (Or.inr rfl)
          | (simp at hT; exact hT)

/-- One iteration over test units whose Enabled answer never changes keeps every
Skip and Fail record of the pass without duration. -/
theorem runTests_zero (cfg : Config) :
    ∀ (tests : List TestUnit) (a : RunVars) (w : World),
      (∀ t ∈ tests, ∀ n, (t.Enabled n).1 = (t.Enabled 0).1) →
      (∀ e ∈ a.testStats, ∀ r ∈ e.2.TestResults,
        r.Outcome ≠ TestOutcome.Pass → r.Duration = 0) →
      ∀ e ∈ (runTests (some (testUnitDone cfg)) tests a w).1.testStats,
        ∀ r ∈ e.2.TestResults, r.Outcome ≠ TestOutcome.Pass → r.Duration = 0 := by
  intro tests
  induction tests with
  | nil => intro a w _ h; simpa [runTests] using h
  | cons t ts ih =>
    intro a w hen h
    have hent := hen t (List.mem_cons_self _ _)
    have hens : ∀ t' ∈ ts, ∀ n, (t'.Enabled n).1 = (t'.Enabled 0).1 :=
      fun t' ht' => hen t' (List.mem_cons_of_mem _ ht')
    simp only [runTests]
    apply ih _ _ hens
    rcases hb : (t.Enabled w.tick).1 with _ | _
    · -- the scheduler sees the unit disabled
      simp only [Bool.false_eq_true, if_false]
      exact testUnitDone_zero cfg t NewTimer none a _ (fun _ => rfl) h
    · -- the scheduler sees the unit enabled
      simp only [if_true]
      apply testUnitDone_zero cfg t _ _ a _ _ h
      rintro (he | he)
      · rw [runTestUnit_timer_of_error t _ (by
          intro h0; rw [h0] at he; cases he)]
        rfl
      · rw [hent] at he
        rw [hent] at hb
        rw [hb] at he
        cases he

theorem runIterations_zero (cfg : Config) (tests : List TestUnit)
    (hen : ∀ t ∈ tests, ∀ n, (t.Enabled n).1 = (t.Enabled 0).1) :
    ∀ (k : Nat) (a : RunVars) (w : World),
      (∀ e ∈ a.testStats, ∀ r ∈ e.2.TestResults,
        r.Outcome ≠ TestOutcome.Pass → r.Duration = 0) →
      ∀ e ∈ (runIterations (some (testUnitDone cfg)) tests k a w).1.testStats,
        ∀ r ∈ e.2.TestResults, r.Outcome ≠ TestOutcome.Pass → r.Duration = 0 := by
  intro k
  induction k with
  | zero => intro a w h; simpa [runIterations] using h
  | succ k ih =>
    intro a w h
    simp only [runIterations]
    exact ih _ _ (runTests_zero cfg tests a w hen h)

/-- In a pass over test units whose Enabled answer never changes, every Skip and Fail
record carries the duration 0. -/
theorem passRun_zero (cfg : Config) (tests : List TestUnit) (w : World)
    (hen : ∀ t ∈ tests, ∀ n, (t.Enabled n).1 = (t.Enabled 0).1) :
    ∀ e ∈ (passRun cfg tests w).1.2.testStats, ∀ r ∈ e.2.TestResults,
      r.Outcome ≠ TestOutcome.Pass → r.Duration = 0 := by
  have := runIterations_zero cfg tests hen cfg.Iterations.toNat
    { durations := [], skipped := 0, errored := 0, errorm := [], testStats := [] }
    (Timer.Begin NewTimer w).2 (by intro e he; cases he)
  rw [passRun_vars]
  exact this

/-- The per-test records of the Result of a pass are the records that the completion
callbacks collected. -/
theorem run_records (P : TestResult → Prop) (cfg : Config) (tests : List TestUnit)
    (w : World) (hdup : hasDuplicateIDs tests = false) (hR : 1 ≤ cfg.HistogramBuckets)
    (h : ∀ e ∈ (passRun cfg tests w).1.2.testStats, ∀ r ∈ e.2.TestResults, P r) :
    ∃ res w1, Runner.run cfg tests w = (.ok res, w1) ∧
      calcTestStats cfg.HistogramBuckets cfg.Percentiles (passRun cfg tests w).1.2.testStats
        = .ok res.TestStats ∧
      ∀ e ∈ res.TestStats, ∀ r ∈ e.2.TestResults, P r := by
  obtain ⟨hist, ts, _, hts, hrun⟩ := run_ok cfg tests w hdup hR
  obtain ⟨_, k2⟩ := calcTestStats_mem _ _ _ _ hts
  refine ⟨_, _, hrun, hts, ?_⟩
  intro e he r hr
  obtain ⟨v, hv1, hv2⟩ := k2 e he
  rw [calcOne_TestResults _ _ _ _ hv2] at hr
  exact h _ hv1 r hr

/-- Every record of the per-test map that the closure of `JoinResults` builds is a
record of one of the inputs. -/
theorem joinTestStats_records (P : TestResult → Prop) :
    ∀ (rs : List Result) (m : List (String × TestStats)),
      (∀ e ∈ m, ∀ r ∈ e.2.TestResults, P r) →
      (∀ x ∈ rs, ∀ e ∈ x.TestStats, ∀ r ∈ e.2.TestResults, P r) →
      ∀ e ∈ rs.foldl (fun testStats r =>
          r.TestStats.foldl (fun testStats (e : String × TestStats) =>
            match mapGet testStats e.1 with
            | some v =>
              mapSet testStats e.1 { v with TestResults := v.TestResults ++ e.2.TestResults }
            | none => mapSet testStats e.1 e.2) testStats) m,
        ∀ r ∈ e.2.TestResults, P r := by
  have inner : ∀ (ts : List (String × TestStats)) (m : List (String × TestStats)),
      (∀ e ∈ m, ∀ r ∈ e.2.TestResults, P r) → (∀ e ∈ ts, ∀ r ∈ e.2.TestResults, P r) →
      ∀ e ∈ ts.foldl (fun testStats (e : String × TestStats) =>
            match mapGet testStats e.1 with
            | some v =>
              mapSet testStats e.1 { v with TestResults := v.TestResults ++ e.2.TestResults }
            | none => mapSet testStats e.1 e.2) m, ∀ r ∈ e.2.TestResults, P r := by
    intro ts
    induction ts with
    | nil => intro m h1 _; exact h1
    | cons x ts ih =>
      intro m h1 h2
      simp only [List.foldl_cons]
      apply ih
      · intro e he r hr
        rcases hg : mapGet m x.1 with _ | v
        · rw [hg] at he
          rcases mem_mapSet _ _ _ _ he with h4 | h4
          · exact h1 e h4 r hr
          · rw [h4] at hr
            exact h2 x (List.mem_cons_self _ _) r hr
        · rw [hg] at he
          rcases mem_mapSet _ _ _ _ he with h4 | h4
          · exact h1 e h4 r hr
          · rw [h4] at hr
            simp only [List.mem_append] at hr
            rcases hr with h5 | h5
            · exact h1 (x.1, v) (mapGet_mem _ _ _ hg) r h5
            · exact h2 x (List.mem_cons_self _ _) r h5
      · exact fun e he => h2 e (List.mem_cons_of_mem _ he)
  intro rs
  induction rs with
  | nil => intro m h1 _; exact h1
  | cons x rs ih =>
    intro m h1 h2
    simp only [List.foldl_cons]
    exact ih _ (inner x.TestStats m h1 (h2 x (List.mem_cons_self _ _)))
      (fun y hy => h2 y (List.mem_cons_of_mem _ hy))

/-- The averages that `calcTestStats` sets in a map whose Skip and Fail records all
carry the duration 0. -/
theorem perTest_average (buckets : Int) (percentiles : List Int)
    (m m1 : List (String × TestStats)) (hR : 1 ≤ buckets)
    (hz : ∀ e ∈ m, ∀ r ∈ e.2.TestResults, r.Outcome ≠ TestOutcome.Pass → r.Duration = 0)
    (hm : calcTestStats buckets percentiles m = .ok m1) :
    ∀ id v, mapGet m1 id = some v →
      (∀ r ∈ v.TestResults, r.Outcome ≠ TestOutcome.Pass → r.Duration = 0) ∧
      (passResults v.TestResults = [] → v.Stats.Average = 0) ∧
      (passResults v.TestResults ≠ [] → v.Stats.Average =
        Int.tdiv ((passResults v.TestResults).map (fun r => r.Duration)).sum
          ((passResults v.TestResults).length : Int)) := by
  intro id v hv
  obtain ⟨c1, c2⟩ := calcTestStats_get _ _ _ _ hm id
  rcases hg : mapGet m id with _ | v0
  · rw [c1 hg] at hv; cases hv
  · have hzero : ∀ r ∈ v0.TestResults, r.Outcome ≠ TestOutcome.Pass → r.Duration = 0 :=
      hz _ (mapGet_mem _ _ _ hg)
    obtain ⟨m2, v1, h1, h2, h3, h4, h5⟩ := calcTestStats_average_of_zero
      buckets percentiles _ id v0 hR hg hzero
    rw [hm] at h1
    simp only [Except.ok.injEq] at h1
    rw [← h1, hv] at h2
    simp only [Option.some.injEq] at h2
    rw [h2, h3]
    exact ⟨hzero, h4, h5⟩

/-- C14, as the code has it.  For test units with distinct IDs whose Enabled answer
is the same on every call, every Skip or Fail record of a scheduler pass carries the
duration 0, and `calcTestStats` sets the Average of every test to the sum of the
durations of its Pass records divided (truncating) by the number of its Pass records,
and to 0 when it has no Pass record; the divisor is the Pass count, not the number of
records.  This holds in the Result of one pass and in the Result of a run with
several users, where `JoinResults` hands the records of all passes to
`calcTestStats`. -/
theorem calcTestStats_average (cfg : Config) (tests : List TestUnit)
    (hR : 1 ≤ cfg.HistogramBuckets) (hid : (tests.map TestUnit.ID).Nodup)
    (hen : ∀ t ∈ tests, ∀ n, (t.Enabled n).1 = (t.Enabled 0).1) :
    (∀ w : World, ∃ res w1, Runner.run cfg tests w = (.ok res, w1) ∧
      calcTestStats cfg.HistogramBuckets cfg.Percentiles (passRun cfg tests w).1.2.testStats
        = .ok res.TestStats ∧
      ∀ id v, mapGet res.TestStats id = some v →
        (∀ r ∈ v.TestResults, r.Outcome ≠ TestOutcome.Pass → r.Duration = 0) ∧
        (passResults v.TestResults = [] → v.Stats.Average = 0) ∧
        (passResults v.TestResults ≠ [] → v.Stats.Average =
          Int.tdiv ((passResults v.TestResults).map (fun r => r.Duration)).sum
            ((passResults v.TestResults).length : Int))) ∧
    (∀ (s : Schedule) (w : World), 2 ≤ cfg.Users → (∀ n, w.clock n ≠ 0) →
      s.complete cfg.Users.toNat →
      ∃ res w1, Runner.Run cfg tests s w = (.ok res, w1) ∧
        ∀ id v, mapGet res.TestStats id = some v →
          (∀ r ∈ v.TestResults, r.Outcome ≠ TestOutcome.Pass → r.Duration = 0) ∧
          (passResults v.TestResults = [] → v.Stats.Average = 0) ∧
          (passResults v.TestResults ≠ [] → v.Stats.Average =
            Int.tdiv ((passResults v.TestResults).map (fun r => r.Duration)).sum
              ((passResults v.TestResults).length : Int))) := by
  have hdup : hasDuplicateIDs tests = false := by
    rcases h : hasDuplicateIDs tests with _ | _
    · rfl
    · exact absurd hid ((hasDuplicateIDs_iff_not_nodup tests).1 h)
  refine ⟨?_, ?_⟩
  · intro w
    obtain ⟨res, w1, hrun, hts, _⟩ := run_records (fun _ => True) cfg tests w hdup hR
      (fun _ _ _ _ => trivial)
    exact ⟨res, w1, hrun, hts, perTest_average _ _ _ _ hR (passRun_zero cfg tests w hen) hts⟩
  · intro s w hU hclock hs
    have hlen : s.order.length = cfg.Users.toNat := by
      have := List.Perm.length_eq hs
      simpa using this
    have hne : s.order ≠ [] := by
      intro e
      rw [e] at hlen
      simp at hlen
      omega
    obtain ⟨w0, hw0⟩ : ∃ w0, w0 = cfg.Handlers.foldl (fun w h => w.call
        (.runnerStarted h cfg.ID cfg.Description
          ((tests.length : Int) * cfg.Iterations * cfg.Users))) w := ⟨_, rfl⟩
    have hclock0 : ∀ n, w0.clock n ≠ 0 := by
      rw [hw0, foldl_call_clock]; exact hclock
    obtain ⟨rs, hc, hl, hP⟩ := collect_ok
      (fun r => r.Stats.Start ≠ 0 ∧ ∀ e ∈ r.TestStats, ∀ x ∈ e.2.TestResults,
        x.Outcome ≠ TestOutcome.Pass → x.Duration = 0)
      (s.order.map (runPass cfg tests s w0))
      (by
        intro p hp
        obtain ⟨i, _, rfl⟩ := List.mem_map.1 hp
        have hdi : hasDuplicateIDs (tests.map (passUnit (s.view i))) = false := by
          rw [hasDuplicateIDs_passUnit]; exact hdup
        have heni : ∀ t ∈ tests.map (passUnit (s.view i)), ∀ n,
            (t.Enabled n).1 = (t.Enabled 0).1 := by
          intro t ht n
          obtain ⟨t0, ht0, rfl⟩ := List.mem_map.1 ht
          show (t0.Enabled (s.view i n)).1 = (t0.Enabled (s.view i 0)).1
          rw [hen t0 ht0 (s.view i n), hen t0 ht0 (s.view i 0)]
        obtain ⟨res, w1, h1, _, h3⟩ := run_records
          (fun x => x.Outcome ≠ TestOutcome.Pass → x.Duration = 0) cfg
          (tests.map (passUnit (s.view i))) (passWorld (s.view i) w0) hdi hR
          (passRun_zero cfg _ _ heni)
        obtain ⟨res2, w2, g1, _, g3⟩ := run_count_start cfg
          (tests.map (passUnit (s.view i))) (passWorld (s.view i) w0) hdi hR
        have hres : res2 = res := by
          rw [h1] at g1
          simp only [Prod.mk.injEq, Except.ok.injEq] at g1
          exact g1.1.symm
        refine ⟨res, by rw [runPass, h1], ?_, h3⟩
        rw [← hres, g3]
        exact hclock0 _)
    have hrs : rs ≠ [] := by
      intro e
      rw [e] at hl
      simp at hl
      exact hne (List.length_eq_zero.1 hl.symm)
    obtain ⟨wa, hwa⟩ : ∃ wa : World, wa = { w0 with
        tick := w0.tick + ((s.order.map (runPass cfg tests s w0)).map
          (fun p => p.2.tick)).sum
        trace := w0.trace ++ ((s.order.map (runPass cfg tests s w0)).map
          (fun p => p.2.trace)).flatten } := ⟨_, rfl⟩
    obtain ⟨res, hj, _, _, _, _, _, _, _, _, _, _, _, _, _, _, h15⟩ :=
      JoinResults_fields cfg.HistogramBuckets cfg.Percentiles rs wa hR hrs
        (fun r hr => (hP r hr).1)
    have hz := joinTestStats_records
      (fun x => x.Outcome ≠ TestOutcome.Pass → x.Duration = 0) rs []
      (by intro e he; cases he) (fun r hr => (hP r hr).2)
    have hU1 : ¬ cfg.Users = 1 := by omega
    have hU0 : ¬ cfg.Users < 0 := by omega
    refine ⟨res, notifyDone cfg wa.now.2, ?_,
      perTest_average _ _ _ _ hR hz h15⟩
    simp only [Runner.Run, if_neg hU1, if_neg hU0]
    rw [← hw0, hc, ← hwa]
    simp only [hj]

/-- C14 as stated fails: a test unit that answers the scheduler enabled and the
completion callback disabled is recorded as Skip with the measured duration 2; with
the Pass record of the second iteration, of duration 2 as well, the Average of the
test is (2 + 2) / 1 = 4, not 2 / 1 = 2. -/
theorem skip_with_duration_average :
    ∃ res w1 v,
      Runner.run { defaultConfig with Iterations := 2 }
        [⟨"a", fun k => (decide (k ≠ 7), "flip"), fun _ => .ret [] none,
            fun _ a => .ret a none, fun _ _ => .ret () none⟩]
        ⟨fun n => 1000 + n, 0, []⟩ = (.ok res, w1) ∧
      mapGet res.TestStats "a" = some v ∧
      v.TestResults.map (fun r => (r.Outcome, r.Duration))
        = [(TestOutcome.Skip, 2), (TestOutcome.Pass, 2)] ∧
      v.Stats.Average = 4 ∧
      Int.tdiv ((passResults v.TestResults).map (fun r => r.Duration)).sum
        ((passResults v.TestResults).length : Int) = 2 :=
  ⟨_, _, _, rfl, rfl, by decide, by decide, by decide⟩

theorem calcTestStats_average_witness :
    (∃ res w1, Runner.run { defaultConfig with Iterations := 2 }
        [⟨"pass", fun _ => (true, ""), fun _ => .ret [] none, fun _ a => .ret a none,
            fun _ _ => .ret () none⟩,
         ⟨"fail", fun _ => (true, ""), fun _ => .ret [] none,
            fun _ a => .ret a (some "whooops"), fun _ _ => .ret () none⟩,
         ⟨"skip", fun _ => (false, "leave me alone"), fun _ => .ret [] none,
            fun _ a => .ret a none, fun _ _ => .ret () none⟩]
        ⟨fun n => 1000 + n * n, 0, []⟩ = (.ok res, w1) ∧
      ∀ id v, mapGet res.TestStats id = some v →
        (∀ r ∈ v.TestResults, r.Outcome ≠ TestOutcome.Pass → r.Duration = 0) ∧
        (passResults v.TestResults = [] → v.Stats.Average = 0) ∧
        (passResults v.TestResults ≠ [] → v.Stats.Average =
          Int.tdiv ((passResults v.TestResults).map (fun r => r.Duration)).sum
            ((passResults v.TestResults).length : Int))) ∧
    (∃ res w1, Runner.Run { defaultConfig with Iterations := 2, Users := 2 }
        [⟨"pass", fun _ => (true, ""), fun _ => .ret [] none, fun _ a => .ret a none,
            fun _ _ => .ret () none⟩,
         ⟨"fail", fun _ => (true, ""), fun _ => .ret [] none,
            fun _ a => .ret a (some "whooops"), fun _ _ => .ret () none⟩,
         ⟨"skip", fun _ => (false, "leave me alone"), fun _ => .ret [] none,
            fun _ a => .ret a none, fun _ _ => .ret () none⟩]
        ⟨fun i k => 2 * k + i, [1, 0]⟩ ⟨fun n => 1000 + n * n, 0, []⟩ = (.ok res, w1) ∧
      ∀ id v, mapGet res.TestStats id = some v →
        (∀ r ∈ v.TestResults, r.Outcome ≠ TestOutcome.Pass → r.Duration = 0) ∧
        (passResults v.TestResults = [] → v.Stats.Average = 0) ∧
        (passResults v.TestResults ≠ [] → v.Stats.Average =
          Int.tdiv ((passResults v.TestResults).map (fun r => r.Duration)).sum
            ((passResults v.TestResults).length : Int))) := by
  have hen : ∀ t ∈ ([⟨"pass", fun _ => (true, ""), fun _ => .ret [] none,
        fun _ a => .ret a none, fun _ _ => .ret () none⟩,
      ⟨"fail", fun _ => (true, ""), fun _ => .ret [] none,
        fun _ a => .ret a (some "whooops"), fun _ _ => .ret () none⟩,
      ⟨"skip", fun _ => (false, "leave me alone"), fun _ => .ret [] none,
        fun _ a => .ret a none, fun _ _ => .ret () none⟩] : List TestUnit),
      ∀ n, (t.Enabled n).1 = (t.Enabled 0).1 := by
    intro t ht n
    simp only [List.mem_cons, List.mem_singleton, List.not_mem_nil, or_false] at ht
    rcases ht with rfl | rfl | rfl <;> rfl
  refine ⟨?_, ?_⟩
  · obtain ⟨res, w1, h1, _, h3⟩ := (calcTestStats_average
      { defaultConfig with Iterations := 2 } _ (by decide) (by decide) hen).1
      ⟨fun n => 1000 + n * n, 0, []⟩
    exact ⟨res, w1, h1, h3⟩
  · exact (calcTestStats_average
      { defaultConfig with Iterations := 2, Users := 2 } _ (by decide) (by decide) hen).2
      ⟨fun i k => 2 * k + i, [1, 0]⟩ ⟨fun n => 1000 + n * n, 0, []⟩ (by decide)
      (by intro n; show (1000 : Int) + (n : Int) * (n : Int) ≠ 0; positivity)
      (by show List.Perm [1, 0] (List.range 2); decide)

end spidomtr
